import Mathlib

/-!
Nachos file system: a shallow embedding of the storage engine.

The definitions below follow `code/lib/bitmap.cc` and the files of
`code/filesys/` of the repository, function by function.  Conventions:

* `unsigned` values are natural numbers, reduced modulo `2 ^ 32` where the
  source can wrap; an `int` that holds `-1` is an `Int`.
* A failed `ASSERT`, a transfer to a sector outside the disk, a null
  dereference and a wait that nobody can end are results of type `Fault`.
* Storage that the source reads before writing it (`new`, `malloc`, locals
  without initialiser) takes its content from a parameter `junk`.
* Buffers, sectors and tables are lists of bytes or words; the word array of
  a bitmap is one number, its image in memory.
* Loops are structural recursions on a bound of their iteration count.
* The build modelled is the one without `DIRECTORY` (the `#else` branches of
  `file_system.cc`), which is the build that runs `FileWrite`/`FileRead`.
-/

namespace Nachos

set_option maxRecDepth 1000000

/-! ## Constants and integer helpers -/

/-- Size of a disk sector in bytes.  `machine/disk.hh` is not part of the
sources; the comment in `raw_file_header.hh` computes the maximal file size
with 128 bytes and 27 direct pointers. -/
def SECTOR_SIZE : Nat := 128

/-- Number of bits in a byte (`lib/utility.hh`). -/
def BITS_IN_BYTE : Nat := 8

/-- Number of bits in an `unsigned` (`lib/utility.hh`). -/
def BITS_IN_WORD : Nat := 32

/-- Size in bytes of an `int` or `unsigned`. -/
def SIZEOF_INT : Nat := 4

/-- Reduction of a natural number to the range of `unsigned`. -/
def u32 (x : Nat) : Nat := x % 4294967296

/-- Conversion of an `int` to `unsigned`, as in the assignment of the result
of `Find` to an `unsigned` slot. -/
def toU32 (x : Int) : Nat := (x % 4294967296).toNat

/-- Conversion of an `unsigned` to `int`. -/
def toInt (x : Nat) : Int :=
  if u32 x < 2147483648 then (u32 x : Int) else (u32 x : Int) - 4294967296

/-- Unsigned subtraction, wrapping below zero. -/
def usub (a b : Nat) : Nat := u32 (u32 a + (4294967296 - u32 b))

/-- Modelled from the spec: `DivRoundDown(n, s)` of `lib/utility.hh`, which
is not part of the sources: the quotient `n / s`. -/
def DivRoundDown (n s : Nat) : Nat := n / s

/-- Modelled from the spec: `DivRoundUp(n, s)` of `lib/utility.hh`, which is
not part of the sources: the quotient of the `unsigned` value `n` by `s`,
rounded up, `n / s + (n % s > 0 ? 1 : 0)`.  Nothing wraps in it. -/
def DivRoundUp (n s : Nat) : Nat := u32 n / s + (if 0 < u32 n % s then 1 else 0)

/-- Ways in which a call can fail to return. -/
inductive Fault where
  | assertion
  | badSector
  | nullPointer
  | blocked
  | fuel
  | notModelled
  deriving DecidableEq, Repr

deriving instance DecidableEq for Except

/-- Words of an uninitialised object of `n` words. -/
def junkWords (junk : Nat → Nat) (n : Nat) : List Nat :=
  (List.range n).map (fun i => u32 (junk i))

/-- Bytes of an uninitialised object of `n` bytes. -/
def junkBytes (junk : Nat → Nat) (n : Nat) : List Nat :=
  (List.range n).map (fun i => junk i % 256)

/-- The list `l` cut or padded with zero to exactly `n` items. -/
def fit : Nat → List Nat → List Nat
  | 0, _ => []
  | n + 1, [] => 0 :: fit n []
  | n + 1, x :: xs => x :: fit n xs

/-- The four bytes of an `unsigned`, least significant first. -/
def wordToBytes (w : Nat) : List Nat :=
  [w % 256, w / 256 % 256, w / 65536 % 256, w / 16777216 % 256]

/-- Bytes of a list of words. -/
def wordsToBytes : List Nat → List Nat
  | [] => []
  | w :: ws => wordToBytes w ++ wordsToBytes ws

/-- The first `n` words stored in a list of bytes, least significant
byte first; missing bytes read as zero. -/
def bytesToWords : Nat → List Nat → List Nat
  | 0, _ => []
  | n + 1, bs =>
    (bs.getD 0 0 + 256 * bs.getD 1 0 + 65536 * bs.getD 2 0 + 16777216 * bs.getD 3 0)
      :: bytesToWords n (bs.drop 4)

/-- Copy of `src` over `dst` from index `at_`, as `memcpy(&dst[at_], src, n)`
with `n = src.length`; `dst` keeps its length. -/
def overlay (dst : List Nat) (at_ : Nat) (src : List Nat) : List Nat :=
  dst.take at_ ++ (src.take (dst.length - at_)) ++ dst.drop (at_ + src.length)

/-- The `n` bytes of the memory image of a number, least significant
first. -/
def natToBytes : Nat → Nat → List Nat
  | 0, _ => []
  | n + 1, m => m % 256 :: natToBytes n (m / 256)

/-- The number whose memory image is the given bytes. -/
def bytesToNat : List Nat → Nat
  | [] => 0
  | b :: bs => b % 256 + 256 * bytesToNat bs

/-! ## Bitmap (`lib/bitmap.cc`) -/

/-- Entry `k` of an array of `unsigned` that is kept as one number: the
array `a[0], a[1], ...` is the number with digit `a[k]` at place `k` in
base `2 ^ 32` (its image in memory, least significant byte first).
The value is `(m >>> (32 * k)) % 2 ^ 32`. -/
def getWord (m k : Nat) : Nat :=
  Nat.mod (Nat.shiftRight m (Nat.mul 32 k)) 4294967296

/-- The array `m` with entry `k` replaced by `w`:
`m ^^^ ((m[k] ^^^ w) <<< (32 * k))`. -/
def setWord (m k w : Nat) : Nat :=
  Nat.xor m (Nat.shiftLeft (Nat.xor (getWord m k) (Nat.mod w 4294967296)) (Nat.mul 32 k))

/-- A bitmap: `numBits` bits stored in the `numWords` words of `map`. -/
structure Bitmap where
  numBits : Nat
  numWords : Nat
  map : Nat
  deriving DecidableEq, Repr

namespace Bitmap

/-- Body of `Mark` after its assertion:
`map[which / BITS_IN_WORD] |= 1 << which % BITS_IN_WORD`. -/
def markBit (b : Bitmap) (which : Nat) : Bitmap :=
  let word := Nat.lor (getWord b.map (Nat.div which 32)) (Nat.shiftLeft 1 (Nat.mod which 32))
  { b with map := setWord b.map (Nat.div which 32) word }

/-- Body of `Clear` after its assertion:
`map[which / BITS_IN_WORD] &= ~(1 << which % BITS_IN_WORD)`. -/
def clearBit (b : Bitmap) (which : Nat) : Bitmap :=
  let word := Nat.land (getWord b.map (Nat.div which 32))
    (Nat.xor 4294967295 (Nat.shiftLeft 1 (Nat.mod which 32)))
  { b with map := setWord b.map (Nat.div which 32) word }

/-- Body of `Test` after its assertion:
`map[which / BITS_IN_WORD] & 1 << which % BITS_IN_WORD`, as a `bool`. -/
def testBit (b : Bitmap) (which : Nat) : Bool :=
  !(Nat.beq (Nat.land (getWord b.map (Nat.div which 32)) (Nat.shiftLeft 1 (Nat.mod which 32))) 0)

/-- `Bitmap::Mark`. -/
def Mark (b : Bitmap) (which : Nat) : Except Fault Bitmap :=
  if which < b.numBits then .ok (b.markBit which) else .error .assertion

/-- `Bitmap::Clear`. -/
def Clear (b : Bitmap) (which : Nat) : Except Fault Bitmap :=
  if which < b.numBits then .ok (b.clearBit which) else .error .assertion

/-- `Bitmap::Test`. -/
def Test (b : Bitmap) (which : Nat) : Except Fault Bool :=
  if which < b.numBits then .ok (b.testBit which) else .error .assertion

/-- Loop of the constructor: `for (i = 0; i < numBits; i++) Clear(i)`,
here from `i` for `n` rounds. -/
def clearAll : Nat → Nat → Bitmap → Bitmap
  | 0, _, b => b
  | n + 1, i, b => clearAll n (Nat.succ i) (b.clearBit i)

/-- `Bitmap::Bitmap(nitems)`: the words come from `new unsigned [numWords]`
(the content `junk 0` of the fresh block, cut to `numWords` words) and every
bit below `numBits` is cleared. -/
def new (junk : Nat → Nat) (nitems : Nat) : Except Fault Bitmap :=
  if 0 < nitems then
    .ok (clearAll nitems 0
      { numBits := nitems, numWords := DivRoundUp nitems BITS_IN_WORD,
        map := junk 0 % 2 ^ (BITS_IN_WORD * DivRoundUp nitems BITS_IN_WORD) })
  else .error .assertion

/-- Loop of `Find`, from bit `i` with `n` bits left to look at.  The bound
`i < numBits` of the loop is what the assertions of `Test` and `Mark` ask. -/
def findFrom (b : Bitmap) : Nat → Nat → Int × Bitmap
  | 0, _ => (Int.negSucc 0, b)
  | n + 1, i => bif b.testBit i then findFrom b n (Nat.succ i) else (Int.ofNat i, b.markBit i)

/-- `Bitmap::Find`: the first clear bit, which is marked, or `-1`. -/
def Find (b : Bitmap) : Int × Bitmap := findFrom b b.numBits 0

/-- Loop of `CountClear`, from bit `i` with `n` bits left. -/
def countFrom (b : Bitmap) : Nat → Nat → Nat
  | 0, _ => 0
  | n + 1, i => Nat.add (bif b.testBit i then 0 else 1) (countFrom b n (Nat.succ i))

/-- `Bitmap::CountClear`. -/
def CountClear (b : Bitmap) : Nat := countFrom b b.numBits 0

end Bitmap

/-! ## The disk (`machine/disk.hh`, `filesys/synch_disk.hh`) -/

/-- Modelled from the spec: the disk device behind `synchDisk`, whose code
is not part of the sources: `NUM_SECTORS` sectors of `SECTOR_SIZE` bytes,
read and written one whole sector at a time. -/
structure Disk where
  numSectors : Nat
  data : Nat → List Nat

namespace Disk

/-- Modelled from the spec: `SynchDisk::ReadSector`, the synchronous read of
one sector; a sector number outside the disk is a fault. -/
def ReadSector (d : Disk) (sectorNumber : Nat) : Except Fault (List Nat) :=
  if sectorNumber < d.numSectors then .ok (fit SECTOR_SIZE (d.data sectorNumber))
  else .error .badSector

/-- Modelled from the spec: `SynchDisk::WriteSector`, the synchronous write
of one sector; a sector number outside the disk is a fault. -/
def WriteSector (d : Disk) (sectorNumber : Nat) (bytes : List Nat) : Except Fault Disk :=
  if sectorNumber < d.numSectors then
    .ok { d with data := fun k => if k = sectorNumber then fit SECTOR_SIZE bytes else d.data k }
  else .error .badSector

end Disk

/-! ## File header (`filesys/raw_file_header.hh`, `filesys/file_header.cc`) -/

/-- Number of direct pointers of a header (`raw_file_header.hh`): 27. -/
def NUM_DIRECT : Nat := (SECTOR_SIZE - 2 * SIZEOF_INT) / SIZEOF_INT - 3

/-- Number of pointers of an indirect block (`raw_file_header.hh`). -/
def NUM_INDIRECT : Nat := 32

/-- Slot of the header that points to the single indirect block. -/
def FIRST_INDIRECTION : Nat := NUM_DIRECT

/-- Slot of the header that points to the block of indirect blocks. -/
def SECOND_INDIRECTION : Nat := NUM_DIRECT + 1

/-- `struct RawFileHeader`: one sector.  `dataSectors` has `NUM_DIRECT + 2`
entries. -/
structure RawFileHeader where
  isDirectory : Bool
  numBytes : Nat
  numSectors : Nat
  dataSectors : List Nat
  deriving DecidableEq, Repr

/-- `struct IndirectRawFileHeader`: the `NUM_INDIRECT` entries of
`dataSectors`. -/
abbrev IndirectRawFileHeader := List Nat

namespace RawFileHeader

/-- Image of the header in a sector: the flag (one byte, three bytes of
padding), then the words `numBytes`, `numSectors` and `dataSectors`. -/
def toSector (raw : RawFileHeader) : List Nat :=
  wordsToBytes ((if raw.isDirectory then 1 else 0) :: u32 raw.numBytes :: u32 raw.numSectors
    :: fit (NUM_DIRECT + 2) raw.dataSectors)

/-- Header stored in a sector. -/
def ofSector (bytes : List Nat) : RawFileHeader :=
  let words := bytesToWords (NUM_DIRECT + 5) bytes
  { isDirectory := bytes.getD 0 0 != 0
    numBytes := words.getD 1 0
    numSectors := words.getD 2 0
    dataSectors := words.drop 3 }

/-- A header object that no constructor has filled (`new FileHeader`). -/
def uninit (junk : Nat → Nat) : RawFileHeader :=
  ofSector (junkBytes junk SECTOR_SIZE)

end RawFileHeader

/-- Image of an indirect block in a sector. -/
def IndirectRawFileHeader.toSector (ind : IndirectRawFileHeader) : List Nat :=
  wordsToBytes (fit NUM_INDIRECT ind)

/-- Indirect block stored in a sector. -/
def IndirectRawFileHeader.ofSector (bytes : List Nat) : IndirectRawFileHeader :=
  bytesToWords NUM_INDIRECT bytes

/-- An indirect block declared without initialiser. -/
def IndirectRawFileHeader.uninit (junk : Nat → Nat) : IndirectRawFileHeader :=
  junkWords junk NUM_INDIRECT

/-- The class `FileHeader` has the single member `raw`. -/
abbrev FileHeader := RawFileHeader

namespace FileHeader

/-- First loop of `Allocate`:
`for ( ; allocated < NUM_DIRECT && allocated < raw.numSectors; allocated++)
raw.dataSectors[allocated] = freeMap->Find();`. -/
def allocDirect (numSectors : Nat) :
    Nat → List Nat → Bitmap → Nat → List Nat × Bitmap × Nat
  | 0, ds, freeMap, allocated => (ds, freeMap, allocated)
  | fuel + 1, ds, freeMap, allocated =>
    if allocated < NUM_DIRECT ∧ allocated < numSectors then
      match freeMap.Find with
      | (s, freeMap) => allocDirect numSectors fuel (List.set ds allocated (toU32 s)) freeMap (allocated + 1)
    else (ds, freeMap, allocated)

/-- Second loop of `Allocate`:
`for ( ; allocated < NUM_DIRECT + NUM_INDIRECT && allocated < raw.numSectors;
allocated++) indirectRawFileHeader.dataSectors[allocated - NUM_DIRECT] =
freeMap->Find();`. -/
def allocIndirect (numSectors : Nat) :
    Nat → IndirectRawFileHeader → Bitmap → Nat → IndirectRawFileHeader × Bitmap × Nat
  | 0, ind, freeMap, allocated => (ind, freeMap, allocated)
  | fuel + 1, ind, freeMap, allocated =>
    if allocated < NUM_DIRECT + NUM_INDIRECT ∧ allocated < numSectors then
      match freeMap.Find with
      | (s, freeMap) =>
        allocIndirect numSectors fuel (List.set ind (usub allocated NUM_DIRECT) (toU32 s)) freeMap
          (allocated + 1)
    else (ind, freeMap, allocated)

/-- Innermost loop of `Allocate`:
`for ( ; j < NUM_INDIRECT && allocated < raw.numSectors; j++, allocated++)
indirectRawFileHeader.dataSectors[j] = freeMap->Find();`. -/
def allocLeaf (numSectors : Nat) :
    Nat → Nat → IndirectRawFileHeader → Bitmap → Nat → IndirectRawFileHeader × Bitmap × Nat
  | 0, _, leaf, freeMap, allocated => (leaf, freeMap, allocated)
  | fuel + 1, j, leaf, freeMap, allocated =>
    if j < NUM_INDIRECT ∧ allocated < numSectors then
      match freeMap.Find with
      | (s, freeMap) =>
        allocLeaf numSectors fuel (j + 1) (List.set leaf j (toU32 s)) freeMap (allocated + 1)
    else (leaf, freeMap, allocated)

/-- State of the loop over the leaves of the double indirection. -/
structure LeafLoop where
  disk : Disk
  freeMap : Bitmap
  blocks : IndirectRawFileHeader
  leaf : IndirectRawFileHeader
  allocated : Nat

/-- Loop `for (unsigned i = 0; i < remaining; i++)` of `Allocate`, from round
`i` with `n` rounds left. -/
def allocLeaves (numSectors initialSector : Nat) : Nat → Nat → LeafLoop → Except Fault LeafLoop
  | 0, _, st => .ok st
  | n + 1, i, st => do
    let start := NUM_DIRECT + NUM_INDIRECT + NUM_INDIRECT * i
    let (blocks, freeMap, leaf) ←
      if initialSector ≤ start then
        match st.freeMap.Find with
        | (s, freeMap) => pure (List.set st.blocks i (toU32 s), freeMap, st.leaf)
      else do
        let bytes ← st.disk.ReadSector (st.blocks.getD i 0)
        pure (st.blocks, st.freeMap, IndirectRawFileHeader.ofSector bytes)
    let j :=
      if start ≤ initialSector ∧ initialSector < NUM_DIRECT + NUM_INDIRECT + NUM_INDIRECT * (i + 1) then
        usub NUM_INDIRECT (usub (NUM_DIRECT + NUM_INDIRECT + NUM_INDIRECT * (i + 1)) initialSector)
      else 0
    let (leaf, freeMap, allocated) := allocLeaf numSectors NUM_INDIRECT j leaf freeMap st.allocated
    let disk ← st.disk.WriteSector (blocks.getD i 0) (IndirectRawFileHeader.toSector leaf)
    allocLeaves numSectors initialSector n (i + 1)
      { disk := disk, freeMap := freeMap, blocks := blocks, leaf := leaf, allocated := allocated }

/-- `FileHeader::Allocate(freeMap, fileSize, initialSector)`.  The result is
the returned `bool` with the header, the bitmap and the disk as the call
leaves them. -/
def Allocate (junk : Nat → Nat) (disk : Disk) (raw : FileHeader) (freeMap : Bitmap)
    (fileSize initialSector : Nat) : Except Fault (Bool × FileHeader × Bitmap × Disk) := do
  let allocated := initialSector
  let numSectors := DivRoundUp fileSize SECTOR_SIZE
  let raw : FileHeader := { raw with numBytes := fileSize, numSectors := numSectors }
  if freeMap.CountClear < numSectors then
    return (false, raw, freeMap, disk)
  let (ds, freeMap, allocated) := allocDirect numSectors NUM_DIRECT raw.dataSectors freeMap allocated
  let raw : FileHeader := { raw with dataSectors := ds }
  let (raw, freeMap, allocated, disk) ←
    if NUM_DIRECT ≤ numSectors ∧ allocated < numSectors then do
      let (raw, freeMap, ind) ←
        if initialSector ≤ FIRST_INDIRECTION then
          match freeMap.Find with
          | (s, freeMap) =>
            pure ({ raw with dataSectors := List.set raw.dataSectors FIRST_INDIRECTION (toU32 s) },
                  freeMap, IndirectRawFileHeader.uninit junk)
        else do
          let bytes ← disk.ReadSector (raw.dataSectors.getD FIRST_INDIRECTION 0)
          pure (raw, freeMap, IndirectRawFileHeader.ofSector bytes)
      let (ind, freeMap, allocated) :=
        allocIndirect numSectors (NUM_DIRECT + NUM_INDIRECT) ind freeMap allocated
      let disk ← disk.WriteSector (raw.dataSectors.getD NUM_DIRECT 0)
        (IndirectRawFileHeader.toSector ind)
      pure (raw, freeMap, allocated, disk)
    else pure (raw, freeMap, allocated, disk)
  let (raw, freeMap, allocated, disk) ←
    if NUM_DIRECT + NUM_INDIRECT ≤ numSectors ∧ allocated < numSectors then do
      let (raw, freeMap, blocks) ←
        if initialSector ≤ NUM_DIRECT + NUM_INDIRECT then
          match freeMap.Find with
          | (s, freeMap) =>
            pure ({ raw with dataSectors := List.set raw.dataSectors SECOND_INDIRECTION (toU32 s) },
                  freeMap, IndirectRawFileHeader.uninit junk)
        else do
          let bytes ← disk.ReadSector (raw.dataSectors.getD SECOND_INDIRECTION 0)
          pure (raw, freeMap, IndirectRawFileHeader.ofSector bytes)
      let remaining := DivRoundUp (usub numSectors allocated) NUM_INDIRECT
      let st ← allocLeaves numSectors initialSector remaining 0
        { disk := disk, freeMap := freeMap, blocks := blocks,
          leaf := IndirectRawFileHeader.uninit junk, allocated := allocated }
      let disk ← st.disk.WriteSector (raw.dataSectors.getD SECOND_INDIRECTION 0)
        (IndirectRawFileHeader.toSector st.blocks)
      pure (raw, st.freeMap, st.allocated, disk)
    else pure (raw, freeMap, allocated, disk)
  return (allocated == numSectors, raw, freeMap, disk)

/-- Loop of `Deallocate` over bounds-checked slots of one table:
`ASSERT(freeMap->Test(t[i - base])); freeMap->Clear(t[i - base]);` while
`i < limit && i < numSectors`. -/
def freeSlots (numSectors limit base : Nat) (t : List Nat) :
    Nat → Bitmap → Nat → Except Fault (Bitmap × Nat)
  | 0, freeMap, i => .ok (freeMap, i)
  | fuel + 1, freeMap, i =>
    if i < limit ∧ i < numSectors then do
      let marked ← freeMap.Test (t.getD (usub i base) 0)
      if !marked then throw Fault.assertion
      let freeMap ← freeMap.Clear (t.getD (usub i base) 0)
      freeSlots numSectors limit base t fuel freeMap (i + 1)
    else .ok (freeMap, i)

/-- Innermost loop of `Deallocate`:
`for (j = 0; j < NUM_INDIRECT && i < raw.numSectors; j++, i++)
freeMap->Clear(indirectRawFileHeader.dataSectors[j]);`. -/
def freeLeaf (numSectors : Nat) (leaf : IndirectRawFileHeader) :
    Nat → Nat → Bitmap → Nat → Except Fault (Bitmap × Nat)
  | 0, _, freeMap, i => .ok (freeMap, i)
  | fuel + 1, j, freeMap, i =>
    if j < NUM_INDIRECT ∧ i < numSectors then do
      let freeMap ← freeMap.Clear (leaf.getD j 0)
      freeLeaf numSectors leaf fuel (j + 1) freeMap (i + 1)
    else .ok (freeMap, i)

/-- Loop `for (unsigned k = 0; k < remaining; k++)` of `Deallocate`.  Neither
`blocks` nor `leaf` is read from the disk by the source. -/
def freeLeaves (numSectors : Nat) (blocks leaf : IndirectRawFileHeader) :
    Nat → Nat → Bitmap → Nat → Except Fault (Bitmap × Nat)
  | 0, _, freeMap, i => .ok (freeMap, i)
  | n + 1, k, freeMap, i => do
    let (freeMap, i) ← freeLeaf numSectors leaf NUM_INDIRECT 0 freeMap i
    let freeMap ← freeMap.Clear (blocks.getD k 0)
    freeLeaves numSectors blocks leaf n (k + 1) freeMap i

/-- `FileHeader::Deallocate(freeMap)`. -/
def Deallocate (junk : Nat → Nat) (disk : Disk) (raw : FileHeader) (freeMap : Bitmap) :
    Except Fault Bitmap := do
  let (freeMap, i) ← freeSlots raw.numSectors NUM_DIRECT 0 raw.dataSectors NUM_DIRECT freeMap 0
  let (freeMap, i) ←
    if NUM_DIRECT ≤ raw.numSectors then do
      let bytes ← disk.ReadSector (raw.dataSectors.getD NUM_DIRECT 0)
      freeSlots raw.numSectors (NUM_DIRECT + NUM_INDIRECT) NUM_DIRECT
        (IndirectRawFileHeader.ofSector bytes) (NUM_DIRECT + NUM_INDIRECT) freeMap i
    else pure (freeMap, i)
  if NUM_DIRECT + NUM_INDIRECT ≤ raw.numSectors then do
    let remaining := DivRoundUp (usub raw.numSectors i) NUM_INDIRECT
    let (freeMap, _) ← freeLeaves raw.numSectors (IndirectRawFileHeader.uninit junk)
      (IndirectRawFileHeader.uninit junk) remaining 0 freeMap i
    pure freeMap
  else pure freeMap

/-- `FileHeader::FetchFrom(sector)`. -/
def FetchFrom (disk : Disk) (sector : Nat) : Except Fault FileHeader := do
  let bytes ← disk.ReadSector sector
  pure (RawFileHeader.ofSector bytes)

/-- `FileHeader::WriteBack(sector)`. -/
def WriteBack (disk : Disk) (raw : FileHeader) (sector : Nat) : Except Fault Disk :=
  disk.WriteSector sector raw.toSector

/-- `FileHeader::ByteToSector(offset)`. -/
def ByteToSector (disk : Disk) (raw : FileHeader) (offset : Nat) : Except Fault Nat := do
  let sector := DivRoundDown offset SECTOR_SIZE
  if sector < NUM_DIRECT then
    pure (raw.dataSectors.getD sector 0)
  else if sector < NUM_DIRECT + NUM_INDIRECT then do
    let offset := sector - NUM_DIRECT
    let bytes ← disk.ReadSector (raw.dataSectors.getD FIRST_INDIRECTION 0)
    pure ((IndirectRawFileHeader.ofSector bytes).getD offset 0)
  else if sector < NUM_DIRECT + NUM_INDIRECT + NUM_INDIRECT * NUM_INDIRECT then do
    let block := (sector - (NUM_DIRECT + NUM_INDIRECT)) / NUM_INDIRECT
    let offset := (sector - (NUM_DIRECT + NUM_INDIRECT)) % NUM_INDIRECT
    let bytes ← disk.ReadSector (raw.dataSectors.getD SECOND_INDIRECTION 0)
    let bytes2 ← disk.ReadSector ((IndirectRawFileHeader.ofSector bytes).getD block 0)
    pure ((IndirectRawFileHeader.ofSector bytes2).getD offset 0)
  else pure 0

/-- `FileHeader::FileLength()`. -/
def FileLength (raw : FileHeader) : Nat := raw.numBytes

end FileHeader

/-! ## Table of open files (`filesys/fs_synch.cc`) -/

/-- `class FileTableEntry`; `openCount` is the member `open`.  The lock and
the condition variable are not state of a sequential run. -/
structure FileTableEntry where
  openCount : Nat
  sector : Nat
  deleted : Bool
  name : List Nat
  reading : Nat
  writing : Bool
  deriving DecidableEq, Repr

namespace FileTableEntry

/-- Constructor `FileTableEntry(sect, name_)`. -/
def new (sect : Nat) (name_ : List Nat) : FileTableEntry :=
  { openCount := 1, sector := sect, deleted := false, name := name_, reading := 0, writing := false }

/-- `FileTableEntry::RequestRead`: with no other thread to end the wait, a
caller that finds `writing` set is blocked for good. -/
def RequestRead (e : FileTableEntry) : Except Fault FileTableEntry :=
  if e.writing then .error .blocked else .ok { e with reading := u32 (e.reading + 1) }

/-- `FileTableEntry::ReadFree`. -/
def ReadFree (e : FileTableEntry) : FileTableEntry :=
  { e with reading := usub e.reading 1 }

/-- `FileTableEntry::RequestWrite`. -/
def RequestWrite (e : FileTableEntry) : Except Fault FileTableEntry :=
  if e.writing ∨ 0 < e.reading then .error .blocked else .ok { e with writing := true }

/-- `FileTableEntry::WriterFree`. -/
def WriterFree (e : FileTableEntry) : FileTableEntry :=
  { e with writing := false }

end FileTableEntry

/-- `class FileTable`: the list of entries, sorted by sector, and its
`count`. -/
structure FileTable where
  count : Nat
  table : List FileTableEntry
  deriving DecidableEq, Repr

namespace FileTable

/-- Constructor `FileTable()`. -/
def new : FileTable := { count := 0, table := [] }

/-- Modelled from the spec: `List::SortedInsert(item, key)` of `lib/list.hh`,
which is not part of the sources: insertion before the first entry with a
larger key. -/
def sortedInsert (e : FileTableEntry) : List FileTableEntry → List FileTableEntry
  | [] => [e]
  | x :: xs => if e.sector < x.sector then e :: x :: xs else x :: sortedInsert e xs

/-- Modelled from the spec: `List::FindByKey(key)` of `lib/list.hh`, which is
not part of the sources: the first entry stored under the key, or null. -/
def findByKey (key : Nat) (l : List FileTableEntry) : Option FileTableEntry :=
  l.find? (fun e => e.sector == key)

/-- Modelled from the spec: `List::Remove(item)` of `lib/list.hh`, which is
not part of the sources: the list without the entry of that sector. -/
def removeItem (sector : Nat) (l : List FileTableEntry) : List FileTableEntry :=
  l.filter (fun x => x.sector != sector)

/-- `FileTable::FindBySector`. -/
def FindBySector (t : FileTable) (sector : Nat) : Option FileTableEntry :=
  findByKey sector t.table

/-- The table after a method of the entry of `sector` has changed it. -/
def store (t : FileTable) (e : FileTableEntry) : FileTable :=
  { t with table := t.table.map (fun x => if x.sector == e.sector then e else x) }

/-- `FileTable::AddLink(sector, name)`. -/
def AddLink (t : FileTable) (sector : Nat) (name : List Nat) : FileTable :=
  match t.FindBySector sector with
  | none =>
    { count := u32 (t.count + 1), table := sortedInsert (FileTableEntry.new sector name) t.table }
  | some file => t.store { file with openCount := u32 (file.openCount + 1) }

/-- `FileTable::RemoveLink(sector)`: the name of the file when the last link
of a file marked `deleted` goes, else null. -/
def RemoveLink (t : FileTable) (sector : Nat) : Option (List Nat) × FileTable :=
  match t.FindBySector sector with
  | none => (none, t)
  | some file =>
    let file := { file with openCount := usub file.openCount 1 }
    if file.openCount = 0 then
      let t' : FileTable :=
        { count := usub t.count 1, table := removeItem sector t.table }
      if file.deleted then (some file.name, t') else (none, t')
    else (none, t.store file)

end FileTable

/-! ## Open files (`filesys/open_file.cc`) -/

/-- The globals `synchDisk` and `files` of `threads/system.cc`. -/
structure Kernel where
  synchDisk : Disk
  files : FileTable

/-- `class OpenFile`. -/
structure OpenFile where
  hdr : FileHeader
  seekPosition : Nat
  sector : Nat
  deriving DecidableEq, Repr

namespace OpenFile

/-- Constructor `OpenFile(sector_, name)`: the header made by
`new FileHeader` is filled by `FetchFrom` at once. -/
def new (k : Kernel) (sector_ : Nat) (name : List Nat) :
    Except Fault (OpenFile × Kernel) := do
  let hdr ← FileHeader.FetchFrom k.synchDisk sector_
  pure ({ hdr := hdr, seekPosition := 0, sector := sector_ },
        { k with files := k.files.AddLink sector_ name })

/-- `OpenFile::Seek`. -/
def Seek (f : OpenFile) (position : Nat) : OpenFile := { f with seekPosition := position }

/-- `OpenFile::Length`. -/
def Length (f : OpenFile) : Nat := f.hdr.FileLength

/-- `OpenFile::GetSector`. -/
def GetSector (f : OpenFile) : Nat := f.sector

/-- Loop of `ReadAt`: `for (i = firstSector; i <= lastSector; i++)
synchDisk->ReadSector(hdr->ByteToSector(i * SECTOR_SIZE), &buf[...])`, from
sector `i` with `n` sectors left; the result is `buf`. -/
def readSectors (disk : Disk) (hdr : FileHeader) : Nat → Nat → Except Fault (List Nat)
  | 0, _ => .ok []
  | n + 1, i => do
    let s ← hdr.ByteToSector disk (u32 (i * SECTOR_SIZE))
    let bytes ← disk.ReadSector s
    let rest ← readSectors disk hdr n (i + 1)
    pure (bytes ++ rest)

/-- `OpenFile::ReadAt(into, numBytes, position, bypass)`: the count returned,
the bytes stored in `into`, the handle and the globals after the call.  A
`memcpy` that would read past the end of `buf` is undefined behaviour and is
`Fault.notModelled`. -/
def ReadAt (k : Kernel) (f : OpenFile) (numBytes position : Nat) (bypass : Bool) :
    Except Fault (Nat × List Nat × OpenFile × Kernel) := do
  if numBytes = 0 then throw Fault.assertion
  let fileLength := f.hdr.FileLength
  let file := k.files.FindBySector f.sector
  let k ←
    if !bypass then
      match file with
      | none => throw Fault.nullPointer
      | some e => do
        let e ← e.RequestRead
        pure { k with files := k.files.store e }
    else pure k
  let hdr ← FileHeader.FetchFrom k.synchDisk f.sector
  let f := { f with hdr := hdr }
  let release (k : Kernel) : Kernel :=
    if !bypass then
      match k.files.FindBySector f.sector with
      | none => k
      | some e => { k with files := k.files.store e.ReadFree }
    else k
  if fileLength ≤ position then
    return (0, [], f, release k)
  let numBytes := if fileLength < u32 (position + numBytes) then usub fileLength position else numBytes
  let firstSector := DivRoundDown position SECTOR_SIZE
  let lastSector := DivRoundDown (usub (u32 (position + numBytes)) 1) SECTOR_SIZE
  let buf ← readSectors k.synchDisk f.hdr (lastSector + 1 - firstSector) firstSector
  if buf.length < usub position (u32 (firstSector * SECTOR_SIZE)) + numBytes then
    throw Fault.notModelled
  let into := (buf.drop (usub position (u32 (firstSector * SECTOR_SIZE)))).take numBytes
  return (numBytes, into, f, release k)

end OpenFile

namespace Bitmap

/-- `Bitmap::FetchFrom(file)`:
`file->ReadAt((char *) map, numWords * sizeof (unsigned), 0)`; the bytes read
replace the first bytes of `map`. -/
def FetchFrom (k : Kernel) (b : Bitmap) (file : OpenFile) :
    Except Fault (Bitmap × OpenFile × Kernel) := do
  let (n, bytes, file, k) ← file.ReadAt k (b.numWords * SIZEOF_INT) 0 false
  pure ({ b with map := bytesToNat bytes + ((b.map >>> (BITS_IN_BYTE * n)) <<< (BITS_IN_BYTE * n)) },
        file, k)

/-- `Bitmap::WriteBack(file)`:
`file->WriteAt((char *) map, numWords * sizeof (unsigned), 0)`, for a given
`WriteAt`. -/
def WriteBackWith
    (writeAt : Kernel → OpenFile → List Nat → Nat → Nat → Except Fault (Nat × OpenFile × Kernel))
    (k : Kernel) (b : Bitmap) (file : OpenFile) : Except Fault (OpenFile × Kernel) := do
  let (_, file, k) ←
    writeAt k file (natToBytes (b.numWords * SIZEOF_INT) b.map) (b.numWords * SIZEOF_INT) 0
  pure (file, k)

end Bitmap

namespace FileHeader

/-- `FileHeader::FileExpand(sizeToExpand, sector)`, for a given `WriteAt` of
the handle it opens on the bitmap file.  `delete freeMapFile` takes the link
of that handle away; a name handed back by `RemoveLink` would make the
destructor call `fileSystem->Remove`, which is not followed from here. -/
def FileExpandWith
    (writeAt : Kernel → OpenFile → List Nat → Nat → Nat → Except Fault (Nat × OpenFile × Kernel))
    (junk : Nat → Nat) (k : Kernel) (raw : FileHeader) (sizeToExpand sector : Nat) :
    Except Fault (Bool × FileHeader × Kernel) := do
  let (freeMapFile, k) ← OpenFile.new k 0 []
  let freeMap ← Bitmap.new junk k.synchDisk.numSectors
  let (freeMap, freeMapFile, k) ← freeMap.FetchFrom k freeMapFile
  let (success, raw, freeMap, disk) ←
    Allocate junk k.synchDisk raw freeMap (u32 (sizeToExpand + raw.numBytes)) raw.numSectors
  let k := { k with synchDisk := disk }
  let (freeMapFile, k) ←
    if success then do
      let (freeMapFile, k) ← freeMap.WriteBackWith writeAt k freeMapFile
      let disk ← WriteBack k.synchDisk raw sector
      pure (freeMapFile, { k with synchDisk := disk })
    else pure (freeMapFile, k)
  match k.files.RemoveLink freeMapFile.sector with
  | (some _, _) => throw Fault.notModelled
  | (none, files) => pure (success, raw, { k with files := files })

end FileHeader

namespace OpenFile

/-- Loop of `WriteAt`: `for (i = firstSector; i <= lastSector; i++)
synchDisk->WriteSector(hdr->ByteToSector(i * SECTOR_SIZE), &buf[...])`, from
sector `i` with `n` sectors left, `buf` being what is left of the buffer. -/
def writeSectors (hdr : FileHeader) : Nat → Nat → List Nat → Disk → Except Fault Disk
  | 0, _, _, disk => .ok disk
  | n + 1, i, buf, disk => do
    let s ← hdr.ByteToSector disk (u32 (i * SECTOR_SIZE))
    let disk ← disk.WriteSector s (buf.take SECTOR_SIZE)
    writeSectors hdr n (i + 1) (buf.drop SECTOR_SIZE) disk

/-- `OpenFile::WriteAt(from, numBytes, position)`, with a bound on the depth
of the calls `WriteAt` - `FileExpand` - `Bitmap::WriteBack` - `WriteAt`: the
count returned, the handle and the globals after the call. -/
def WriteAtFuel (junk : Nat → Nat) :
    Nat → Kernel → OpenFile → List Nat → Nat → Nat → Except Fault (Nat × OpenFile × Kernel)
  | 0, _, _, _, _, _ => .error .fuel
  | depth + 1, k, f, from_, numBytes, position => do
    if numBytes = 0 then throw Fault.assertion
    let fileLength := f.hdr.FileLength
    let e ←
      match k.files.FindBySector f.sector with
      | none => throw Fault.nullPointer
      | some e => e.RequestWrite
    let k := { k with files := k.files.store e }
    let hdr ← FileHeader.FetchFrom k.synchDisk f.sector
    let f := { f with hdr := hdr }
    let (expanded, f, k) ←
      if fileLength < u32 (position + numBytes) then do
        let sizeToExpand := usub numBytes (usub fileLength position)
        let (success, hdr, k) ←
          FileHeader.FileExpandWith (WriteAtFuel junk depth) junk k f.hdr sizeToExpand f.sector
        pure (success, { f with hdr := hdr }, k)
      else pure (true, f, k)
    if !expanded then
      return (0, f, k)
    let firstSector := DivRoundDown position SECTOR_SIZE
    let lastSector := DivRoundDown (usub (u32 (position + numBytes)) 1) SECTOR_SIZE
    let numSectors := usub (u32 (1 + lastSector)) firstSector
    let buf := junkBytes junk (numSectors * SECTOR_SIZE)
    let firstAligned := position == u32 (firstSector * SECTOR_SIZE)
    let lastAligned := u32 (position + numBytes) == u32 ((lastSector + 1) * SECTOR_SIZE)
    let (buf, f, k) ←
      if !firstAligned then do
        let (_, bytes, f, k) ← f.ReadAt k SECTOR_SIZE (u32 (firstSector * SECTOR_SIZE)) true
        pure (overlay buf 0 bytes, f, k)
      else pure (buf, f, k)
    let (buf, f, k) ←
      if !lastAligned && (firstSector != lastSector || firstAligned) then do
        let (_, bytes, f, k) ← f.ReadAt k SECTOR_SIZE (u32 (lastSector * SECTOR_SIZE)) true
        pure (overlay buf ((lastSector - firstSector) * SECTOR_SIZE) bytes, f, k)
      else pure (buf, f, k)
    let buf := overlay buf (usub position (u32 (firstSector * SECTOR_SIZE))) (fit numBytes from_)
    let disk ← writeSectors f.hdr (lastSector + 1 - firstSector) firstSector buf k.synchDisk
    let k := { k with synchDisk := disk }
    let k :=
      match k.files.FindBySector f.sector with
      | none => k
      | some e => { k with files := k.files.store e.WriterFree }
    return (numBytes, f, k)

/-- `OpenFile::WriteAt(from, numBytes, position)`.  Depth 3 is never used up:
the handle opened by `FileExpand` is on the bitmap file, and a `WriteAt` on
that file that had to expand it would block in `RequestRead`. -/
def WriteAt (junk : Nat → Nat) (k : Kernel) (f : OpenFile) (from_ : List Nat)
    (numBytes position : Nat) : Except Fault (Nat × OpenFile × Kernel) :=
  WriteAtFuel junk 3 k f from_ numBytes position

/-- `OpenFile::Read(into, numBytes)`. -/
def Read (k : Kernel) (f : OpenFile) (numBytes : Nat) :
    Except Fault (Nat × List Nat × OpenFile × Kernel) := do
  if numBytes = 0 then throw Fault.assertion
  let (result, into, f, k) ← f.ReadAt k numBytes f.seekPosition false
  pure (result, into, { f with seekPosition := u32 (f.seekPosition + result) }, k)

/-- `OpenFile::Write(into, numBytes)`. -/
def Write (junk : Nat → Nat) (k : Kernel) (f : OpenFile) (into : List Nat) (numBytes : Nat) :
    Except Fault (Nat × OpenFile × Kernel) := do
  if numBytes = 0 then throw Fault.assertion
  let (result, f, k) ← f.WriteAt junk k into numBytes f.seekPosition
  pure (result, { f with seekPosition := u32 (f.seekPosition + result) }, k)

end OpenFile

namespace FileHeader

/-- `FileHeader::FileExpand(sizeToExpand, sector)`. -/
def FileExpand (junk : Nat → Nat) (k : Kernel) (raw : FileHeader) (sizeToExpand sector : Nat) :
    Except Fault (Bool × FileHeader × Kernel) :=
  FileExpandWith (OpenFile.WriteAtFuel junk 2) junk k raw sizeToExpand sector

end FileHeader

/-- `Bitmap::WriteBack(file)`. -/
def Bitmap.WriteBack (junk : Nat → Nat) (k : Kernel) (b : Bitmap) (file : OpenFile) :
    Except Fault (OpenFile × Kernel) :=
  b.WriteBackWith (OpenFile.WriteAt junk) k file

/-! ## Directory (`filesys/directory_entry.hh`, `filesys/directory.cc`) -/

/-- Longest file name (`directory_entry.hh`, which is not part of the
sources; the value is the one of the stock system). -/
def FILE_NAME_MAX_LEN : Nat := 9

/-- `sizeof (DirectoryEntry)`: the flag with its padding, the sector, the
name and two bytes of padding. -/
def SIZEOF_ENTRY : Nat := 20

/-- `class DirectoryEntry`: `name` holds `FILE_NAME_MAX_LEN + 1` bytes. -/
structure DirectoryEntry where
  inUse : Bool
  sector : Int
  name : List Nat
  deriving DecidableEq, Repr

/-- `struct RawDirectory`. -/
structure RawDirectory where
  table : List DirectoryEntry
  tableSize : Nat
  deriving DecidableEq, Repr

/-- The class `Directory` has the single member `raw`. -/
abbrev Directory := RawDirectory

/-- `strncmp(s1, s2, n) == 0` on strings that end at their first zero byte
or at the end of the list. -/
def strncmpEq : Nat → List Nat → List Nat → Bool
  | 0, _, _ => true
  | n + 1, s1, s2 =>
    if s1.headD 0 != s2.headD 0 then false
    else if s1.headD 0 == 0 then true
    else strncmpEq n s1.tail s2.tail

/-- `strncpy(dst, src, n)`: the bytes of `src` up to its end, then zero
bytes, `n` bytes in all; the rest of `dst` stays. -/
def strncpy (dst src : List Nat) (n : Nat) : List Nat :=
  overlay dst 0 (fit n (src.takeWhile (fun c => c != 0)))

namespace DirectoryEntry

/-- Memory image of an entry. -/
def toBytes (e : DirectoryEntry) : List Nat :=
  [if e.inUse then 1 else 0, 0, 0, 0] ++ wordToBytes (toU32 e.sector)
    ++ fit (FILE_NAME_MAX_LEN + 1) e.name ++ [0, 0]

/-- Entry held by `SIZEOF_ENTRY` bytes of memory. -/
def ofBytes (bytes : List Nat) : DirectoryEntry :=
  { inUse := bytes.getD 0 0 != 0
    sector := toInt ((bytesToWords 1 (bytes.drop 4)).headD 0)
    name := fit (FILE_NAME_MAX_LEN + 1) (bytes.drop 8) }

end DirectoryEntry

/-- Memory image of a table. -/
def tableToBytes : List DirectoryEntry → List Nat
  | [] => []
  | e :: es => e.toBytes ++ tableToBytes es

/-- The `n` entries held by a block of memory. -/
def tableOfBytes : Nat → List Nat → List DirectoryEntry
  | 0, _ => []
  | n + 1, bytes => DirectoryEntry.ofBytes bytes :: tableOfBytes n (bytes.drop SIZEOF_ENTRY)

/-- Block of `n` bytes that starts with the bytes of `old`, as `realloc`
leaves it; what is new is not initialised. -/
def realloc (junk : Nat → Nat) (old : List Nat) (n : Nat) : List Nat :=
  old.take n ++ junkBytes junk (n - old.length)

namespace Directory

/-- Constructor `Directory(size)`. -/
def new (junk : Nat → Nat) (size : Nat) : Except Fault Directory :=
  if 0 < size then
    .ok { table := (tableOfBytes size (junkBytes junk (SIZEOF_ENTRY * size))).map
                     (fun e => { e with inUse := false }),
          tableSize := size }
  else .error .assertion

/-- `Directory::FetchFrom(file)`: one byte of `tableSize` is read at offset
0, the table is resized, and the entries are read at offset 1. -/
def FetchFrom (junk : Nat → Nat) (k : Kernel) (raw : Directory) (file : OpenFile) :
    Except Fault (Directory × OpenFile × Kernel) := do
  let (_, size, file, k) ← file.ReadAt k 1 0 false
  let tableSize := u32 (bytesToNat (overlay (natToBytes SIZEOF_INT raw.tableSize) 0 size))
  let memory := realloc junk (tableToBytes raw.table) (tableSize * SIZEOF_ENTRY)
  let (_, bytes, file, k) ← file.ReadAt k (u32 (tableSize * SIZEOF_ENTRY)) 1 false
  pure ({ table := tableOfBytes tableSize (overlay memory 0 bytes), tableSize := tableSize },
        file, k)

/-- `Directory::WriteBack(file)`. -/
def WriteBack (junk : Nat → Nat) (k : Kernel) (raw : Directory) (file : OpenFile) :
    Except Fault (OpenFile × Kernel) := do
  let (_, file, k) ← file.WriteAt junk k (natToBytes SIZEOF_INT raw.tableSize) 1 0
  let (_, file, k) ←
    file.WriteAt junk k (tableToBytes raw.table) (u32 (raw.tableSize * SIZEOF_ENTRY)) 1
  pure (file, k)

/-- Loop of `FindIndex` over the entries from index `i`. -/
def findIndexFrom (name : List Nat) : List DirectoryEntry → Nat → Int
  | [], _ => -1
  | e :: es, i =>
    if e.inUse && strncmpEq FILE_NAME_MAX_LEN e.name name then (i : Int)
    else findIndexFrom name es (i + 1)

/-- `Directory::FindIndex(name)`. -/
def FindIndex (raw : Directory) (name : List Nat) : Int :=
  findIndexFrom name (raw.table.take raw.tableSize) 0

/-- `Directory::Find(name)`. -/
def Find (raw : Directory) (name : List Nat) : Int :=
  let i := raw.FindIndex name
  if i != -1 then
    match raw.table.get? i.toNat with
    | some e => e.sector
    | none => -1
  else -1

/-- Loop of `Add` that looks for an entry not in use, from index `i`. -/
def firstFree : List DirectoryEntry → Nat → Option Nat
  | [], _ => none
  | e :: es, i => if !e.inUse then some i else firstFree es (i + 1)

/-- Entry `i` of the table filled by `Add`. -/
def fill (table : List DirectoryEntry) (i : Nat) (name : List Nat) (newSector : Int) :
    List DirectoryEntry :=
  table.modify
    (fun e => { inUse := true, name := strncpy e.name name FILE_NAME_MAX_LEN, sector := newSector })
    i

/-- The table after `realloc` to `n` entries: the old entries stay, an entry
that is new is not initialised. -/
def resize (junk : Nat → Nat) (table : List DirectoryEntry) (n : Nat) : List DirectoryEntry :=
  table.take n ++
    List.replicate (n - table.length) (DirectoryEntry.ofBytes (junkBytes junk SIZEOF_ENTRY))

/-- `Directory::Add(name, newSector)`, with a bound on the number of times
the table is made one entry longer before the call is repeated. -/
def AddFuel (junk : Nat → Nat) : Nat → Directory → List Nat → Int → Except Fault (Bool × Directory)
  | 0, _, _, _ => .error .fuel
  | n + 1, raw, name, newSector =>
    if raw.FindIndex name != -1 then .ok (false, raw)
    else
      match firstFree (raw.table.take raw.tableSize) 0 with
      | some i => .ok (true, { raw with table := fill raw.table i name newSector })
      | none =>
        let table := resize junk raw.table (raw.tableSize + 1)
        let table := table.modify (fun e => { e with inUse := false }) raw.tableSize
        AddFuel junk n { table := table, tableSize := u32 (raw.tableSize + 1) } name newSector

/-- `Directory::Add(name, newSector)`: the repeated call finds the entry that
was just added to the table, so two rounds are enough. -/
def Add (junk : Nat → Nat) (raw : Directory) (name : List Nat) (newSector : Int) :
    Except Fault (Bool × Directory) :=
  AddFuel junk 2 raw name newSector

/-- `Directory::Remove(name)`. -/
def Remove (raw : Directory) (name : List Nat) : Bool × Directory :=
  let i := raw.FindIndex name
  if i == -1 then (false, raw)
  else (true, { raw with table := raw.table.modify (fun e => { e with inUse := false }) i.toNat })

end Directory

/-! ## File system (`filesys/file_system.cc`, build without `DIRECTORY`) -/

/-- Sector of the header of the bitmap file. -/
def FREE_MAP_SECTOR : Nat := 0

/-- Sector of the header of the directory file. -/
def DIRECTORY_SECTOR : Nat := 1

/-- Initial number of entries of a directory. -/
def NUM_DIR_ENTRIES : Nat := 1

/-- Initial size of the directory file. -/
def DIRECTORY_FILE_SIZE : Nat := SIZEOF_ENTRY * NUM_DIR_ENTRIES

/-- `class FileSystem`: the two files that stay open. -/
structure FileSystem where
  freeMapFile : OpenFile
  directoryFile : OpenFile
  deriving DecidableEq, Repr

namespace FileSystem

/-- Name `"FreeMap"` given to the handle of the bitmap file. -/
def freeMapName : List Nat := [70, 114, 101, 101, 77, 97, 112]

/-- Name `"Directory"` given to the handle of the directory file. -/
def directoryName : List Nat := [68, 105, 114, 101, 99, 116, 111, 114, 121]

/-- Constructor `FileSystem(format)` with `format == true`, on a disk with
`files` empty, as `Initialize` of `threads/system.cc` calls it. -/
def Format (junk : Nat → Nat) (disk : Disk) : Except Fault (FileSystem × Kernel) := do
  let k : Kernel := { synchDisk := disk, files := FileTable.new }
  let freeMap ← Bitmap.new junk disk.numSectors
  let dir ← Directory.new junk NUM_DIR_ENTRIES
  let mapH : FileHeader := RawFileHeader.uninit junk
  let dirH : FileHeader := RawFileHeader.uninit junk
  let freeMap ← freeMap.Mark FREE_MAP_SECTOR
  let freeMap ← freeMap.Mark DIRECTORY_SECTOR
  let (ok, mapH, freeMap, disk) ←
    FileHeader.Allocate junk k.synchDisk mapH freeMap (disk.numSectors / BITS_IN_BYTE) 0
  if !ok then throw Fault.assertion
  let (ok, dirH, freeMap, disk) ← FileHeader.Allocate junk disk dirH freeMap DIRECTORY_FILE_SIZE 0
  if !ok then throw Fault.assertion
  let disk ← FileHeader.WriteBack disk mapH FREE_MAP_SECTOR
  let disk ← FileHeader.WriteBack disk dirH DIRECTORY_SECTOR
  let k := { k with synchDisk := disk }
  let (freeMapFile, k) ← OpenFile.new k FREE_MAP_SECTOR freeMapName
  let (directoryFile, k) ← OpenFile.new k DIRECTORY_SECTOR directoryName
  let (freeMapFile, k) ← freeMap.WriteBack junk k freeMapFile
  let (directoryFile, k) ← dir.WriteBack junk k directoryFile
  pure ({ freeMapFile := freeMapFile, directoryFile := directoryFile }, k)

/-- `FileSystem::Create(name, initialSize, isDirectory)`. -/
def Create (junk : Nat → Nat) (k : Kernel) (fs : FileSystem) (name : List Nat)
    (initialSize : Nat) (isDirectory : Bool) : Except Fault (Bool × FileSystem × Kernel) := do
  let dir ← Directory.new junk NUM_DIR_ENTRIES
  let (dir, dirTempFile, k) ← dir.FetchFrom junk k fs.directoryFile
  let fs := { fs with directoryFile := dirTempFile }
  if dir.Find name != -1 then
    return (false, fs, k)
  let freeMap ← Bitmap.new junk k.synchDisk.numSectors
  let (freeMap, freeMapFile, k) ← freeMap.FetchFrom k fs.freeMapFile
  let fs := { fs with freeMapFile := freeMapFile }
  let (sector, freeMap) := freeMap.Find
  if sector == -1 then
    return (false, fs, k)
  let (added, dir) ← dir.Add junk name sector
  if !added then
    return (false, fs, k)
  let h : FileHeader := { RawFileHeader.uninit junk with isDirectory := isDirectory }
  let (success, h, freeMap, disk) ← FileHeader.Allocate junk k.synchDisk h freeMap initialSize 0
  let k := { k with synchDisk := disk }
  if !success then
    return (false, fs, k)
  let disk ← FileHeader.WriteBack k.synchDisk h (toU32 sector)
  let k := { k with synchDisk := disk }
  let (dirTempFile, k) ← dir.WriteBack junk k fs.directoryFile
  let fs := { fs with directoryFile := dirTempFile }
  let (freeMapFile, k) ← freeMap.WriteBack junk k fs.freeMapFile
  let fs := { fs with freeMapFile := freeMapFile }
  if isDirectory then do
    let newDirectory ← Directory.new junk NUM_DIR_ENTRIES
    let (newDirectoryFile, k) ← OpenFile.new k (toU32 sector) []
    let (newDirectoryFile, k) ← newDirectory.WriteBack junk k newDirectoryFile
    match k.files.RemoveLink newDirectoryFile.sector with
    | (some _, _) => throw Fault.notModelled
    | (none, files) => return (true, fs, { k with files := files })
  return (true, fs, k)

/-- `FileSystem::Open(name)`: the new handle, or null. -/
def Open (junk : Nat → Nat) (k : Kernel) (fs : FileSystem) (name : List Nat) :
    Except Fault (Option OpenFile × FileSystem × Kernel) := do
  let dir ← Directory.new junk NUM_DIR_ENTRIES
  let (dir, dirTempFile, k) ← dir.FetchFrom junk k fs.directoryFile
  let fs := { fs with directoryFile := dirTempFile }
  let sector := dir.Find name
  if 0 ≤ sector then
    let openable :=
      match k.files.FindBySector (toU32 sector) with
      | none => true
      | some file => !file.deleted
    if openable then do
      let (openFile, k) ← OpenFile.new k (toU32 sector) name
      return (some openFile, fs, k)
    else return (none, fs, k)
  return (none, fs, k)

/-- `FileSystem::Remove(name)`. -/
def Remove (junk : Nat → Nat) (k : Kernel) (fs : FileSystem) (name : List Nat) :
    Except Fault (Bool × FileSystem × Kernel) := do
  let dir ← Directory.new junk NUM_DIR_ENTRIES
  let (dir, directoryFile, k) ← dir.FetchFrom junk k fs.directoryFile
  let fs := { fs with directoryFile := directoryFile }
  let sector := dir.Find name
  if sector == -1 then
    return (false, fs, k)
  let fileEntry := k.files.FindBySector (toU32 sector)
  let closed :=
    match fileEntry with
    | none => true
    | some e => e.openCount == 0
  if closed then do
    let fileH ← FileHeader.FetchFrom k.synchDisk (toU32 sector)
    let freeMap ← Bitmap.new junk k.synchDisk.numSectors
    let (freeMap, freeMapFile, k) ← freeMap.FetchFrom k fs.freeMapFile
    let fs := { fs with freeMapFile := freeMapFile }
    let freeMap ← FileHeader.Deallocate junk k.synchDisk fileH freeMap
    let freeMap ← freeMap.Clear (toU32 sector)
    let (_, dir) := dir.Remove name
    let (freeMapFile, k) ← freeMap.WriteBack junk k fs.freeMapFile
    let fs := { fs with freeMapFile := freeMapFile }
    let (directoryFile, k) ← dir.WriteBack junk k fs.directoryFile
    let fs := { fs with directoryFile := directoryFile }
    return (true, fs, k)
  else
    match fileEntry with
    | none => return (false, fs, k)
    | some e => return (false, fs, { k with files := k.files.store { e with deleted := true } })

end FileSystem

/-- Destructor `~OpenFile()`: the link goes, and a name handed back by
`RemoveLink` is removed from the file system. -/
def OpenFile.Close (junk : Nat → Nat) (k : Kernel) (fs : FileSystem) (f : OpenFile) :
    Except Fault (FileSystem × Kernel) :=
  match k.files.RemoveLink f.sector with
  | (some deleted, files) => do
    let (_, fs, k) ← FileSystem.Remove junk { k with files := files } fs deleted
    pure (fs, k)
  | (none, files) => pure (fs, { k with files := files })

/-! ## Runs

The runs below fix the inputs at which the theorems evaluate the code. -/

/-- A blank disk with the 32 tracks of 32 sectors of the stock machine. -/
def blankDisk : Disk := { numSectors := 1024, data := fun _ => [] }

/-- Uninitialised storage that reads as zero. -/
def zeroJunk : Nat → Nat := fun _ => 0

/-- The file name `"a"`. -/
def nameA : List Nat := [97]

/-- The five bytes of `"hello"`. -/
def hello : List Nat := [104, 101, 108, 108, 111]

/-- The bitmap of a disk of 1024 sectors on which exactly the `n` sectors
from `lo` on are free. -/
def onlyFree (lo n : Nat) : Bitmap :=
  { numBits := 1024, numWords := 32, map := 2 ^ 1024 - 1 - (2 ^ n - 1) * 2 ^ lo }

/-- A header with no sectors. -/
def emptyHeader : FileHeader :=
  { isDirectory := false, numBytes := 0, numSectors := 0, dataSectors := List.replicate 29 0 }

/-- The bitmap stored on the disk, as `Create` fetches it. -/
def persistedBitmap (junk : Nat → Nat) (k : Kernel) (fs : FileSystem) : Except Fault Bitmap := do
  let freeMap ← Bitmap.new junk k.synchDisk.numSectors
  let (freeMap, _, _) ← freeMap.FetchFrom k fs.freeMapFile
  pure freeMap

/-- The directory stored on the disk, as `Open` fetches it. -/
def persistedDirectory (junk : Nat → Nat) (k : Kernel) (fs : FileSystem) :
    Except Fault Directory := do
  let dir ← Directory.new junk NUM_DIR_ENTRIES
  let (dir, _, _) ← dir.FetchFrom junk k fs.directoryFile
  pure dir

/-- Use of the handle returned by `Open`. -/
def withHandle {α : Type} (h : Option OpenFile) (f : OpenFile → Except Fault α) :
    Except Fault α :=
  match h with
  | none => .error .nullPointer
  | some h => f h

/-- What a run of `runC1` observes. -/
structure ExpandRun where
  /-- The value returned by `Create`. -/
  created : Bool
  /-- `Length()` of the handle before the write. -/
  lengthBefore : Nat
  /-- `CountClear()` of the bitmap on disk before the write. -/
  freeBefore : Nat
  /-- The value returned by `WriteAt`. -/
  written : Nat
  /-- `Length()` of the handle after the write. -/
  lengthAfter : Nat
  deriving DecidableEq, Repr

/-- Format, `Create("a", 64 sectors)`, `Open("a")`, then a `WriteAt` of 28
sectors of bytes at the end of the file. -/
def runC1 (junk : Nat → Nat) (disk : Disk) : Except Fault ExpandRun := do
  let (fs, k) ← FileSystem.Format junk disk
  let (created, fs, k) ← FileSystem.Create junk k fs nameA (64 * SECTOR_SIZE) false
  let (h, fs, k) ← FileSystem.Open junk k fs nameA
  withHandle h fun h => do
    let freeMap ← persistedBitmap junk k fs
    let (written, h', _) ←
      h.WriteAt junk k (List.replicate (28 * SECTOR_SIZE) 1) (28 * SECTOR_SIZE) (64 * SECTOR_SIZE)
    pure { created := created, lengthBefore := h.Length, freeBefore := freeMap.CountClear,
           written := written, lengthAfter := h'.Length }

/-- What a run of `runC2` observes. -/
structure HelloRun where
  /-- The value returned by `Create`. -/
  created : Bool
  /-- Whether the first `Open` returned a handle. -/
  opened : Bool
  /-- The value returned by `WriteAt`. -/
  written : Nat
  /-- The value returned by `ReadAt`. -/
  read : Nat
  /-- The bytes that `ReadAt` stored in `buf`. -/
  buf : List Nat
  /-- The value returned by `Remove`. -/
  removed : Bool
  /-- Whether the last `Open` returned a handle. -/
  reopened : Bool
  deriving DecidableEq, Repr

/-- The sequence of the end-to-end scenario: format, `Create("a", 0)`,
`Open("a")`, `WriteAt("hello", 5, 0)`, `ReadAt(buf, 5, 0)`, close,
`Remove("a")`, `Open("a")`. -/
def runC2 (junk : Nat → Nat) (disk : Disk) : Except Fault HelloRun := do
  let (fs, k) ← FileSystem.Format junk disk
  let (created, fs, k) ← FileSystem.Create junk k fs nameA 0 false
  let (h, fs, k) ← FileSystem.Open junk k fs nameA
  withHandle h fun f => do
    let (written, f, k) ← f.WriteAt junk k hello 5 0
    let (read, buf, f, k) ← f.ReadAt k 5 0 false
    let (fs, k) ← f.Close junk k fs
    let (removed, fs, k) ← FileSystem.Remove junk k fs nameA
    let (h', _, _) ← FileSystem.Open junk k fs nameA
    pure { created := created, opened := h.isSome, written := written, read := read, buf := buf,
           removed := removed, reopened := h'.isSome }

/-- What a run of `runC3` observes. -/
structure TwoWritesRun where
  /-- The value returned by `Create`. -/
  created : Bool
  /-- The value returned by the first `Write`. -/
  firstWrite : Nat
  /-- `CountClear()` of the bitmap on disk before the second `Write`. -/
  freeBefore : Nat
  /-- The value returned by the second `Write`. -/
  secondWrite : Nat
  deriving DecidableEq, Repr

/-- Format, `Create("a", 0)`, `Open("a")`, a `Write` of 64 sectors of bytes
and a `Write` of 28 more. -/
def runC3 (junk : Nat → Nat) (disk : Disk) : Except Fault TwoWritesRun := do
  let (fs, k) ← FileSystem.Format junk disk
  let (created, fs, k) ← FileSystem.Create junk k fs nameA 0 false
  let (h, fs, k) ← FileSystem.Open junk k fs nameA
  withHandle h fun h => do
    let (w1, h, k) ← h.Write junk k (List.replicate (64 * SECTOR_SIZE) 1) (64 * SECTOR_SIZE)
    let freeMap ← persistedBitmap junk k fs
    let (w2, _, _) ← h.Write junk k (List.replicate (28 * SECTOR_SIZE) 2) (28 * SECTOR_SIZE)
    pure { created := created, firstWrite := w1, freeBefore := freeMap.CountClear,
           secondWrite := w2 }

/-- What a run of `runC4` observes. -/
structure TwoHandlesRun where
  /-- The value returned by `WriteAt` through the first handle. -/
  written : Nat
  /-- The value returned by the first `ReadAt` through the second handle. -/
  read : Nat
  /-- The bytes stored by the first `ReadAt`. -/
  out : List Nat
  /-- The value returned by the second `ReadAt` through the second handle. -/
  readAgain : Nat
  /-- The bytes stored by the second `ReadAt`. -/
  outAgain : List Nat
  deriving DecidableEq, Repr

/-- Format, `Create("a", 0)`, two `Open("a")`, `WriteAt("hello", 5, 0)`
through the first handle, then two `ReadAt(out, 5, 0)` through the second. -/
def runC4 (junk : Nat → Nat) (disk : Disk) : Except Fault TwoHandlesRun := do
  let (fs, k) ← FileSystem.Format junk disk
  let (_, fs, k) ← FileSystem.Create junk k fs nameA 0 false
  let (h1, fs, k) ← FileSystem.Open junk k fs nameA
  let (h2, _, k) ← FileSystem.Open junk k fs nameA
  withHandle h1 fun h1 => withHandle h2 fun h2 => do
    let (written, _, k) ← h1.WriteAt junk k hello 5 0
    let (read, out, h2, k) ← h2.ReadAt k 5 0 false
    let (read', out', _, _) ← h2.ReadAt k 5 0 false
    pure { written := written, read := read, out := out, readAgain := read', outAgain := out' }

/-- What a run of `runC5` observes. -/
structure TranslateRun where
  /-- `CountClear()` before `Allocate`. -/
  freeBefore : Nat
  /-- The value returned by `Allocate`. -/
  allocated : Bool
  /-- `ByteToSector(27 * SECTOR_SIZE)` on the header after `Allocate`. -/
  sector : Nat
  /-- `Test` of that sector on the bitmap after `Allocate`. -/
  marked : Except Fault Bool
  deriving DecidableEq, Repr

/-- `Allocate` of 28 sectors on a fresh header, with sectors 4 to 31 the
only free ones. -/
def runC5 (junk : Nat → Nat) : Except Fault TranslateRun := do
  let freeMap := onlyFree 4 28
  let (ok, hdr, freeMap', disk) ←
    FileHeader.Allocate junk blankDisk (RawFileHeader.uninit junk) freeMap (28 * SECTOR_SIZE) 0
  let s ← hdr.ByteToSector disk (27 * SECTOR_SIZE)
  pure { freeBefore := freeMap.CountClear, allocated := ok, sector := s,
         marked := freeMap'.Test s }

/-- What a run of `runC6` observes. -/
structure RoundTripRun where
  /-- `CountClear()` before `Allocate`. -/
  freeBefore : Nat
  /-- The value returned by `Allocate`. -/
  allocated : Bool
  /-- `CountClear()` after `Allocate`. -/
  freeAllocated : Nat
  /-- `CountClear()` after `Deallocate`. -/
  freeAfter : Nat
  deriving DecidableEq, Repr

/-- `Allocate` of 28 sectors on a fresh header and a bitmap with every bit
clear, then `Deallocate`. -/
def runC6 (junk : Nat → Nat) : Except Fault RoundTripRun := do
  let freeMap ← Bitmap.new junk 1024
  let (ok, hdr, freeMap', disk) ←
    FileHeader.Allocate junk blankDisk (RawFileHeader.uninit junk) freeMap (28 * SECTOR_SIZE) 0
  let freeMap'' ← FileHeader.Deallocate junk disk hdr freeMap'
  pure { freeBefore := freeMap.CountClear, allocated := ok, freeAllocated := freeMap'.CountClear,
         freeAfter := freeMap''.CountClear }

/-- What a run of `runC7` observes. -/
structure SlotRun where
  /-- `CountClear()` before `Allocate`. -/
  freeBefore : Nat
  /-- The value returned by `Allocate`. -/
  allocated : Bool
  /-- Slot 0 of the first leaf block of the double indirection. -/
  slot : Nat
  /-- The number of bits of the bitmap. -/
  numBits : Nat
  /-- `CountClear()` after `Allocate`. -/
  freeAfter : Nat
  deriving DecidableEq, Repr

/-- `Allocate` of 60 sectors on a fresh header, with sectors 4 to 65 the
only free ones. -/
def runC7 (junk : Nat → Nat) : Except Fault SlotRun := do
  let freeMap := onlyFree 4 62
  let (ok, hdr, freeMap', disk) ←
    FileHeader.Allocate junk blankDisk (RawFileHeader.uninit junk) freeMap (60 * SECTOR_SIZE) 0
  let blocks ← disk.ReadSector (hdr.dataSectors.getD SECOND_INDIRECTION 0)
  let leaf ← disk.ReadSector ((IndirectRawFileHeader.ofSector blocks).getD 0 0)
  pure { freeBefore := freeMap.CountClear, allocated := ok,
         slot := (IndirectRawFileHeader.ofSector leaf).getD 0 0,
         numBits := freeMap'.numBits, freeAfter := freeMap'.CountClear }

/-- What a run of `runC9` observes. -/
structure GrowRun where
  /-- The value returned by the first `Allocate`. -/
  allocated : Bool
  /-- `ByteToSector(59 * SECTOR_SIZE)` after the first `Allocate`. -/
  before : Nat
  /-- The value returned by the second `Allocate`. -/
  grown : Bool
  /-- `numSectors` after the second `Allocate`. -/
  numSectors : Nat
  /-- `ByteToSector(59 * SECTOR_SIZE)` after the second `Allocate`. -/
  after : Nat
  deriving DecidableEq, Repr

/-- `Allocate` of 91 sectors on a fresh header and a bitmap with every bit
clear, then `Allocate` of 92 sectors from sector 91 on. -/
def runC9 (junk : Nat → Nat) : Except Fault GrowRun := do
  let freeMap ← Bitmap.new junk 1024
  let (ok, hdr, freeMap, disk) ←
    FileHeader.Allocate junk blankDisk (RawFileHeader.uninit junk) freeMap (91 * SECTOR_SIZE) 0
  let before ← hdr.ByteToSector disk (59 * SECTOR_SIZE)
  let (ok', hdr', _, disk') ←
    FileHeader.Allocate junk disk hdr freeMap (92 * SECTOR_SIZE) hdr.numSectors
  let after ← hdr'.ByteToSector disk' (59 * SECTOR_SIZE)
  pure { allocated := ok, before := before, grown := ok', numSectors := hdr'.numSectors,
         after := after }

/-- `n` calls `Create(name, 0)` with the one-letter names from letter `c`
on; the results of the calls come first. -/
def createMany (junk : Nat → Nat) :
    Nat → Nat → FileSystem → Kernel → Except Fault (List Bool × FileSystem × Kernel)
  | 0, _, fs, k => pure ([], fs, k)
  | n + 1, c, fs, k => do
    let (created, fs, k) ← FileSystem.Create junk k fs [c] 0 false
    let (rest, fs, k) ← createMany junk n (c + 1) fs k
    pure (created :: rest, fs, k)

/-- What a run of `runC10` observes. -/
structure OwnersRun where
  /-- The values returned by the calls of `Create`. -/
  created : List Bool
  /-- `numSectors` of the header of the directory file. -/
  dirSectors : Nat
  /-- The first two data sectors of the header of the directory file. -/
  dirData : List Nat
  /-- The header sectors that the directory on disk gives for the names. -/
  headers : List Int
  /-- `Test(10)` on the bitmap on disk. -/
  marked : Except Fault Bool
  deriving DecidableEq, Repr

/-- Format, then `Create` of the seven empty files `"a"` to `"g"`. -/
def runC10 (junk : Nat → Nat) (disk : Disk) : Except Fault OwnersRun := do
  let (fs, k) ← FileSystem.Format junk disk
  let (created, fs, k) ← createMany junk 7 97 fs k
  let dirH ← FileHeader.FetchFrom k.synchDisk DIRECTORY_SECTOR
  let dir ← persistedDirectory junk k fs
  let freeMap ← persistedBitmap junk k fs
  pure { created := created, dirSectors := dirH.numSectors, dirData := dirH.dataSectors.take 2,
         headers := (List.range 7).map (fun i => dir.Find [97 + i]), marked := freeMap.Test 10 }

/-- What `Allocate` returned and the sizes it left in the header. -/
def allocateSizes (r : Except Fault (Bool × FileHeader × Bitmap × Disk)) :
    Except Fault (Bool × Nat × Nat) :=
  r.map (fun r => (r.1, r.2.1.numBytes, r.2.1.numSectors))

/-- Uninitialised storage with some other content. -/
def patternJunk : Nat → Nat := fun i => 37 * i + 2 ^ 1030 - 5

/-- A disk of the same size with old data in every sector. -/
def usedDisk : Disk := { numSectors := 1024, data := fun s => List.replicate 128 (255 - s % 7) }

/-! ## Runs of the later claims -/

/-- Format, `Create("a", 0)`, `Open("a")`, then a `WriteAt` of one byte at
the start of file sector 1020. -/
def runC11 (junk : Nat → Nat) (disk : Disk) : Except Fault ExpandRun := do
  let (fs, k) ← FileSystem.Format junk disk
  let (created, fs, k) ← FileSystem.Create junk k fs nameA 0 false
  let (h, fs, k) ← FileSystem.Open junk k fs nameA
  withHandle h fun h => do
    let freeMap ← persistedBitmap junk k fs
    let (written, h', _) ← h.WriteAt junk k [1] 1 (1020 * SECTOR_SIZE)
    pure { created := created, lengthBefore := h.Length, freeBefore := freeMap.CountClear,
           written := written, lengthAfter := h'.Length }

/-- What a run of `runC12` observes. -/
structure FailedExpandRun where
  /-- `CountClear()` of the bitmap on disk before the call. -/
  freeBefore : Nat
  /-- `numBytes` and `numSectors` of the header before the call. -/
  sizesBefore : Nat × Nat
  /-- The value returned by `FileExpand`. -/
  expanded : Bool
  /-- `numBytes` and `numSectors` of the header after the call. -/
  sizesAfter : Nat × Nat
  /-- Whether the pointer table is as before the call. -/
  sameTable : Bool
  deriving DecidableEq, Repr

/-- Format, `Create("a", 0)`, `Open("a")`, then `FileExpand` of the header of
the handle by 1020 sectors of bytes. -/
def runC12 (junk : Nat → Nat) (disk : Disk) : Except Fault FailedExpandRun := do
  let (fs, k) ← FileSystem.Format junk disk
  let (_, fs, k) ← FileSystem.Create junk k fs nameA 0 false
  let (h, fs, k) ← FileSystem.Open junk k fs nameA
  withHandle h fun h => do
    let freeMap ← persistedBitmap junk k fs
    let (expanded, hdr, _) ← FileHeader.FileExpand junk k h.hdr (1020 * SECTOR_SIZE) h.sector
    pure { freeBefore := freeMap.CountClear, sizesBefore := (h.hdr.numBytes, h.hdr.numSectors),
           expanded := expanded, sizesAfter := (hdr.numBytes, hdr.numSectors),
           sameTable := hdr.dataSectors == h.hdr.dataSectors }

/-- What a run of `runC13` observes. -/
structure RemoveOpenRun where
  /-- Whether `Open` returned a handle. -/
  opened : Bool
  /-- The value returned by `Remove`. -/
  removed : Bool
  /-- The `deleted` flag of the entry of the file after `Remove`. -/
  deleted : Option Bool
  /-- `Find(name)` in the directory on disk after `Remove`. -/
  found : Int
  /-- `CountClear()` of the bitmap on disk before and after `Remove`. -/
  free : Nat × Nat
  deriving DecidableEq, Repr

/-- Format, `Create("a", 0)`, `Open("a")`, then `Remove("a")`. -/
def runC13 (junk : Nat → Nat) (disk : Disk) : Except Fault RemoveOpenRun := do
  let (fs, k) ← FileSystem.Format junk disk
  let (_, fs, k) ← FileSystem.Create junk k fs nameA 0 false
  let (h, fs, k) ← FileSystem.Open junk k fs nameA
  withHandle h fun h => do
    let before ← persistedBitmap junk k fs
    let (removed, fs, k) ← FileSystem.Remove junk k fs nameA
    let after ← persistedBitmap junk k fs
    let dir ← persistedDirectory junk k fs
    pure { opened := true, removed := removed,
           deleted := (k.files.FindBySector h.sector).map (fun e => e.deleted),
           found := dir.Find nameA, free := (before.CountClear, after.CountClear) }

/-- What a run of `runC14` observes. -/
structure DeferredRemoveRun where
  /-- The value returned by `Create`. -/
  created : Bool
  /-- `CountClear()` of the bitmap on disk after `Remove`, after the first
  handle is closed and after the last handle is closed. -/
  free : Nat × Nat × Nat
  /-- Disk sector of the last sector of the file. -/
  lastSector : Nat
  /-- `Test(lastSector)` in the bitmap on disk at the end. -/
  lastMarked : Bool
  /-- `Test(0)` in the bitmap on disk at the end. -/
  sectorZeroMarked : Bool
  /-- `Find(name)` in the directory on disk at the end. -/
  found : Int
  deriving DecidableEq, Repr

/-- Format, `Create("a", 60 sectors)`, two `Open("a")`, `Remove("a")`, then
both handles are closed. -/
def runC14 (junk : Nat → Nat) (disk : Disk) : Except Fault DeferredRemoveRun := do
  let (fs, k) ← FileSystem.Format junk disk
  let (created, fs, k) ← FileSystem.Create junk k fs nameA (60 * SECTOR_SIZE) false
  let (h1, fs, k) ← FileSystem.Open junk k fs nameA
  let (h2, fs, k) ← FileSystem.Open junk k fs nameA
  withHandle h1 fun h1 => withHandle h2 fun h2 => do
    let (_, fs, k) ← FileSystem.Remove junk k fs nameA
    let m1 ← persistedBitmap junk k fs
    let (fs, k) ← h1.Close junk k fs
    let m2 ← persistedBitmap junk k fs
    let s ← h2.hdr.ByteToSector k.synchDisk (59 * SECTOR_SIZE)
    let (fs, k) ← h2.Close junk k fs
    let m3 ← persistedBitmap junk k fs
    let dir ← persistedDirectory junk k fs
    let marked ← m3.Test s
    let zero ← m3.Test 0
    pure { created := created, free := (m1.CountClear, m2.CountClear, m3.CountClear),
           lastSector := s, lastMarked := marked, sectorZeroMarked := zero,
           found := dir.Find nameA }

/-- What a run of `runC15` observes. -/
structure RemoveRun where
  /-- The value returned by `Create`. -/
  created : Bool
  /-- Sector of the header and sector of the indirect block of the file. -/
  sectors : Int × Nat
  /-- The value returned by `Remove`. -/
  removed : Bool
  /-- `Find(name)` in the directory on disk after `Remove`. -/
  found : Int
  /-- `CountClear()` of the bitmap on disk before `Create`, before `Remove`
  and after `Remove`. -/
  free : Nat × Nat × Nat
  /-- `Test` of the sector of the indirect block in the bitmap on disk after
  `Remove`. -/
  controlMarked : Bool
  deriving DecidableEq, Repr

/-- Format, `Create("a", 28 sectors)`, then `Remove("a")`. -/
def runC15 (junk : Nat → Nat) (disk : Disk) : Except Fault RemoveRun := do
  let (fs, k) ← FileSystem.Format junk disk
  let m0 ← persistedBitmap junk k fs
  let (created, fs, k) ← FileSystem.Create junk k fs nameA (28 * SECTOR_SIZE) false
  let m1 ← persistedBitmap junk k fs
  let dir ← persistedDirectory junk k fs
  let hdr ← FileHeader.FetchFrom k.synchDisk (toU32 (dir.Find nameA))
  let control := hdr.dataSectors.getD FIRST_INDIRECTION 0
  let (removed, fs, k) ← FileSystem.Remove junk k fs nameA
  let m2 ← persistedBitmap junk k fs
  let dir' ← persistedDirectory junk k fs
  let marked ← m2.Test control
  pure { created := created, sectors := (dir.Find nameA, control), removed := removed,
         found := dir'.Find nameA, free := (m0.CountClear, m1.CountClear, m2.CountClear),
         controlMarked := marked }

/-- What a run of `runC16` observes. -/
structure TightCreateRun where
  /-- `CountClear()` of the bitmap on disk before `Create`. -/
  freeBefore : Nat
  /-- The value returned by `Create`. -/
  created : Bool
  /-- `numSectors` of the header on disk. -/
  numSectors : Nat
  /-- Disk sector that the header on disk gives for the last sector of the
  file. -/
  lastSector : Nat
  deriving DecidableEq, Repr

/-- Format, the bitmap file rewritten so that only the `free` sectors from 4
on are free, then `Create("a", n sectors)`. -/
def runC16 (junk : Nat → Nat) (disk : Disk) (free n : Nat) : Except Fault TightCreateRun := do
  let (fs, k) ← FileSystem.Format junk disk
  let (freeMapFile, k) ← (onlyFree 4 free).WriteBack junk k fs.freeMapFile
  let fs := { fs with freeMapFile := freeMapFile }
  let m0 ← persistedBitmap junk k fs
  let (created, fs, k) ← FileSystem.Create junk k fs nameA (n * SECTOR_SIZE) false
  let dir ← persistedDirectory junk k fs
  let hdr ← FileHeader.FetchFrom k.synchDisk (toU32 (dir.Find nameA))
  let s ← hdr.ByteToSector k.synchDisk (u32 ((n - 1) * SECTOR_SIZE))
  pure { freeBefore := m0.CountClear, created := created, numSectors := hdr.numSectors,
         lastSector := s }

/-! ## Notions of the statements -/

/-- The bytes of a name that the comparison of `FindIndex` looks at. -/
def nameKey (name : List Nat) : List Nat :=
  fit FILE_NAME_MAX_LEN (name.takeWhile (fun c => c != 0))

/-- The test of `FindIndex` on one entry. -/
def DirectoryEntry.holds (name : List Nat) (e : DirectoryEntry) : Bool :=
  e.inUse && strncmpEq FILE_NAME_MAX_LEN e.name name

/-- The table holds `tableSize` entries, and each name has the
`FILE_NAME_MAX_LEN + 1` bytes of its array. -/
def Directory.WellFormed (raw : Directory) : Prop :=
  raw.table.length = raw.tableSize ∧ ∀ e ∈ raw.table, e.name.length = FILE_NAME_MAX_LEN + 1

instance (raw : Directory) : Decidable raw.WellFormed := by
  unfold Directory.WellFormed; infer_instance

/-- Calls of `Add`, one for each name and sector of the list: for each call
the value returned, whether the table had an entry not in use before the
call, and the table size after it. -/
def Directory.addAll (junk : Nat → Nat) :
    Directory → List (List Nat × Int) → Except Fault (List (Bool × Bool × Nat) × Directory)
  | raw, [] => .ok ([], raw)
  | raw, (name, s) :: rest => do
    let hadFree := (Directory.firstFree (raw.table.take raw.tableSize) 0).isSome
    let (added, raw) ← raw.Add junk name s
    let (results, last) ← addAll junk raw rest
    pure ((added, hadFree, raw.tableSize) :: results, last)

/-- Number of entries of a table that are not in use. -/
def countFree (l : List DirectoryEntry) : Nat := l.countP (fun e => !e.inUse)

/-- An entry with its count of readers put aside. -/
def FileTableEntry.still (e : FileTableEntry) : FileTableEntry := { e with reading := 0 }

/-- What `ReadAt` leaves of the globals: the disk, and each entry of the
table but for its count of readers. -/
def Kernel.sameButReaders (k k' : Kernel) : Prop :=
  k'.synchDisk = k.synchDisk ∧
  ∀ s, (k'.files.FindBySector s).map FileTableEntry.still =
    (k.files.FindBySector s).map FileTableEntry.still

/-- The bitmap that `FileExpand` fetches through its own handle on the bitmap
file. -/
def FileHeader.fetchedFreeMap (junk : Nat → Nat) (k : Kernel) : Except Fault Bitmap := do
  let (freeMapFile, k) ← OpenFile.new k 0 []
  let freeMap ← Bitmap.new junk k.synchDisk.numSectors
  let (freeMap, _, _) ← freeMap.FetchFrom k freeMapFile
  pure freeMap

/-! ## Inputs of the witnesses -/

/-- A blank disk of 32 sectors. -/
def smallDisk : Disk := { numSectors := 32, data := fun _ => [] }

/-- The value of a call that returns, and `d` for a call that does not. -/
def valueOr {α : Type} (x : Except Fault α) (d : α) : α :=
  match x with
  | .ok a => a
  | .error _ => d

/-- Whether a call returns. -/
def returns {α : Type} (x : Except Fault α) : Bool :=
  match x with
  | .ok _ => true
  | .error _ => false

/-- A handle on sector 0 with a header without sectors. -/
def noHandle : OpenFile := { hdr := emptyHeader, seekPosition := 0, sector := 0 }

/-- The handles and the globals before a file system is made. -/
def unmounted : FileSystem × Kernel :=
  ({ freeMapFile := noHandle, directoryFile := noHandle },
   { synchDisk := smallDisk, files := FileTable.new })

/-- The small disk after format and `Create("a", 0)`. -/
def withA : FileSystem × Kernel :=
  valueOr (do
    let (fs, k) ← FileSystem.Format zeroJunk smallDisk
    let (_, fs, k) ← FileSystem.Create zeroJunk k fs nameA 0 false
    pure (fs, k)) unmounted

/-- The small disk after format, `Create("a", 0)` and `Open("a")`, with the
handle. -/
def withOpenA : OpenFile × FileSystem × Kernel :=
  valueOr (do
    let (h, fs, k) ← FileSystem.Open zeroJunk withA.2 withA.1 nameA
    withHandle h fun h => pure (h, fs, k)) (noHandle, unmounted)

/-- The directory that holds `"a"` with header sector 4. -/
def dirA : Directory :=
  { table := [{ inUse := true, sector := 4, name := [97, 0, 0, 0, 0, 0, 0, 0, 0, 0] }],
    tableSize := 1 }

/-- The entry of the table of open files for one handle on `"a"`. -/
def entryA : FileTableEntry :=
  { openCount := 1, sector := 4, deleted := false, name := nameA, reading := 0, writing := false }

/-- The bitmap of the small disk with sectors 0 to 4 marked. -/
def mapA : Bitmap := { numBits := 32, numWords := 1, map := 31 }

/-- A directory of one entry that is not in use. -/
def oneSlot : Directory :=
  { table := [{ inUse := false, sector := 0, name := List.replicate 10 0 }], tableSize := 1 }

/-- Three names with their sectors. -/
def threeNames : List (List Nat × Int) := [([97], 7), ([98], 9), ([97, 98], 11)]

/-! ## Condition variables (`threads/synch.cc`) -/

/-- What a call of `Condition::Broadcast` does: the semaphores of the queue
(each is named by a number) on which `V` is called, in the order of the
calls, and the queue after the call. -/
structure Broadcast where
  woken : List Nat
  queue : List Nat
  deriving DecidableEq, Repr

namespace Condition

/-- Loop of `Broadcast`, entered after `awaken = queue->Pop()`:
`for (...; !queue->IsEmpty(); awaken = queue->Pop(), awaken->V());`.
Modelled from the spec for `List::Pop` of `lib/list.hh`, which is not part of
the sources: it takes the first item off the list and returns it. -/
def broadcastLoop : List Nat → List Nat → Broadcast
  | [], woken => { woken := woken, queue := [] }
  | awaken :: queue, woken => broadcastLoop queue (woken ++ [awaken])

/-- `Condition::Broadcast` on a condition with the given queue:
`if (!queue->IsEmpty()) for (Semaphore *awaken = queue->Pop(); ...)`. -/
def Broadcast (queue : List Nat) : Nachos.Broadcast :=
  match queue with
  | [] => { woken := [], queue := [] }
  | _ :: queue => broadcastLoop queue []

end Condition

/-- `FileTableEntry::WriterFree` of an entry whose condition has the given
queue: `writing = false; cond->Broadcast();`. -/
def FileTableEntry.WriterFreeWaking (e : FileTableEntry) (queue : List Nat) :
    FileTableEntry × Broadcast :=
  (e.WriterFree, Condition.Broadcast queue)

/-- `FileTableEntry::ReadFree` of an entry whose condition has the given
queue: `reading--; if (!reading) cond->Broadcast();`. -/
def FileTableEntry.ReadFreeWaking (e : FileTableEntry) (queue : List Nat) :
    FileTableEntry × Broadcast :=
  let e := e.ReadFree
  if e.reading = 0 then (e, Condition.Broadcast queue)
  else (e, { woken := [], queue := queue })

/-! ## Notions and runs of the claims on directories, bitmaps and handles -/

/-- Loop of `Find` with the calls `Test(i)` and `Mark(i)` as the source makes
them, assertions included, from bit `i` with `n` bits left. -/
def Bitmap.findAsserting (b : Bitmap) : Nat → Nat → Except Fault (Int × Bitmap)
  | 0, _ => .ok (-1, b)
  | n + 1, i => do
    let marked ← b.Test i
    if !marked then
      let b' ← b.Mark i
      pure (Int.ofNat i, b')
    else findAsserting b n (i + 1)

/-- `Bitmap::Find` with the assertions of `Test` and `Mark`. -/
def Bitmap.FindAsserting (b : Bitmap) : Except Fault (Int × Bitmap) :=
  b.findAsserting b.numBits 0

/-- No two entries in use have names that the comparison of `FindIndex`,
`strncmp` over `FILE_NAME_MAX_LEN` bytes, takes for equal. -/
def Directory.UniqueNames (raw : Directory) : Prop :=
  (raw.table.filter (fun e => e.inUse)).Pairwise
    (fun a b => strncmpEq FILE_NAME_MAX_LEN a.name b.name = false)

instance (raw : Directory) : Decidable raw.UniqueNames := by
  unfold Directory.UniqueNames; infer_instance

/-- A call of `Add` or of `Remove`. -/
inductive DirectoryCall where
  | add (name : List Nat) (newSector : Int)
  | remove (name : List Nat)
  deriving DecidableEq, Repr

/-- The directory after a sequence of calls of `Add` and `Remove`. -/
def Directory.calls (junk : Nat → Nat) : Directory → List DirectoryCall → Except Fault Directory
  | raw, [] => .ok raw
  | raw, .add name newSector :: rest => do
    let (_, raw) ← raw.Add junk name newSector
    calls junk raw rest
  | raw, .remove name :: rest => calls junk (raw.Remove name).2 rest

/-- What a run of `runC22` observes. -/
structure CountRun where
  /-- Entry count of the table handed to `WriteBack`. -/
  written : Nat
  /-- Length of the directory file after `WriteBack`. -/
  length : Nat
  /-- Entry count of the directory after `FetchFrom`, when it returns. -/
  fetched : Option Nat
  /-- Whether `FetchFrom` stops in an assertion. -/
  asserted : Bool
  deriving DecidableEq, Repr

/-- After format, `WriteBack` of a directory made with `n` entries to the
directory file, then `FetchFrom` of that file into a directory made with
`NUM_DIR_ENTRIES` entries, as the file system makes them. -/
def runC22 (junk : Nat → Nat) (disk : Disk) (n : Nat) : Except Fault CountRun := do
  let (fs, k) ← FileSystem.Format junk disk
  let dir ← Directory.new junk n
  let (file, k) ← dir.WriteBack junk k fs.directoryFile
  let fresh ← Directory.new junk NUM_DIR_ENTRIES
  let back := fresh.FetchFrom junk k file
  pure { written := dir.tableSize, length := file.Length,
         fetched := match back with
           | .ok (d, _, _) => some d.tableSize
           | .error _ => none,
         asserted := match back with
           | .error .assertion => true
           | _ => false }

/-- Entry `i` of the block of pointers stored in sector `s` of the disk. -/
def blockEntry (disk : Disk) (s i : Nat) : Except Fault Nat := do
  let bytes ← disk.ReadSector s
  pure ((IndirectRawFileHeader.ofSector bytes).getD i 0)

/-- The reference definition of the statement for `ByteToSector`, written
from its words: with `s = offset / SECTOR_SIZE`, the direct pointer `s`, or
entry `s - NUM_DIRECT` of the single-indirect block, or entry
`(s - NUM_DIRECT - NUM_INDIRECT) % NUM_INDIRECT` of the leaf block number
`(s - NUM_DIRECT - NUM_INDIRECT) / NUM_INDIRECT` of the double-indirect root,
or 0 beyond. -/
def FileHeader.sectorOfOffset (disk : Disk) (raw : FileHeader) (offset : Nat) :
    Except Fault Nat :=
  let s := offset / SECTOR_SIZE
  if s < NUM_DIRECT then .ok (raw.dataSectors.getD s 0)
  else if s < NUM_DIRECT + NUM_INDIRECT then
    blockEntry disk (raw.dataSectors.getD NUM_DIRECT 0) (s - NUM_DIRECT)
  else if s < NUM_DIRECT + NUM_INDIRECT + NUM_INDIRECT ^ 2 then do
    let leaf ← blockEntry disk (raw.dataSectors.getD (NUM_DIRECT + 1) 0)
      ((s - NUM_DIRECT - NUM_INDIRECT) / NUM_INDIRECT)
    blockEntry disk leaf ((s - NUM_DIRECT - NUM_INDIRECT) % NUM_INDIRECT)
  else .ok 0

/-- A call of a thread on the entry of a file. -/
inductive SynchCall where
  | requestRead
  | readFree
  | requestWrite
  | writerFree
  deriving DecidableEq, Repr

/-- The entry of a file with the number of threads that hold it: `readers`
threads are between their `RequestRead` and their `ReadFree`, `writers`
threads between their `RequestWrite` and their `WriterFree`. -/
structure Holders where
  entry : FileTableEntry
  readers : Nat
  writers : Nat
  deriving DecidableEq, Repr

/-- One call that returns.  A `Request` whose caller has to wait does not
return, and a `Free` is issued only by a thread that holds the entry in that
way: in both cases there is no step. -/
def Holders.step (h : Holders) : SynchCall → Option Holders
  | .requestRead =>
    match h.entry.RequestRead with
    | .ok e => some { h with entry := e, readers := h.readers + 1 }
    | .error _ => none
  | .readFree =>
    if 0 < h.readers then some { h with entry := h.entry.ReadFree, readers := h.readers - 1 }
    else none
  | .requestWrite =>
    match h.entry.RequestWrite with
    | .ok e => some { h with entry := e, writers := h.writers + 1 }
    | .error _ => none
  | .writerFree =>
    if 0 < h.writers then some { h with entry := h.entry.WriterFree, writers := h.writers - 1 }
    else none

/-- The state after a sequence of calls that return. -/
def Holders.run : Holders → List SynchCall → Option Holders
  | h, [] => some h
  | h, c :: rest =>
    match h.step c with
    | some h' => Holders.run h' rest
    | none => none

/-! ## Consistency check (`filesys/file_system.cc`) -/

namespace FileSystem

/-- `AddToShadowBitmap(sector, map)`: `Test` and `Mark` keep their
assertions. -/
def AddToShadowBitmap (sector : Nat) (map : Bitmap) : Except Fault (Bool × Bitmap) := do
  let marked ← map.Test sector
  if marked then
    return (false, map)
  let map ← map.Mark sector
  return (true, map)

/-- `CheckForError(value, message)`. -/
def CheckForError (value : Bool) : Bool := !value

/-- `CheckSector(sector, shadowMap)` on a machine of `numSectors` sectors:
both operands of the two `error |= ...` are evaluated. -/
def CheckSector (numSectors sector : Nat) (shadowMap : Bitmap) :
    Except Fault (Bool × Bitmap) := do
  let error := false
  let error := error || CheckForError (decide (sector < numSectors))
  let (added, shadowMap) ← AddToShadowBitmap sector shadowMap
  let error := error || CheckForError added
  return (error, shadowMap)

/-- Loop of `CheckFileHeader`:
`for (i = 0; i < rh->numSectors; i++) error |= CheckSector(rh->dataSectors[i], shadowMap)`,
from `i` with `n` rounds left.  An index beyond the `NUM_DIRECT + 2` entries
of `dataSectors` reads memory that is not part of the header, which is not
followed. -/
def checkSectors (numSectors : Nat) (rh : RawFileHeader) :
    Nat → Nat → Bool → Bitmap → Except Fault (Bool × Bitmap)
  | 0, _, error, shadowMap => .ok (error, shadowMap)
  | n + 1, i, error, shadowMap => do
    let s ←
      match rh.dataSectors.get? i with
      | some s => pure s
      | none => throw Fault.notModelled
    let (e, shadowMap) ← CheckSector numSectors s shadowMap
    checkSectors numSectors rh n (i + 1) (error || e) shadowMap

/-- `CheckFileHeader(rh, num, shadowMap)`. -/
def CheckFileHeader (numSectors : Nat) (rh : RawFileHeader) (shadowMap : Bitmap) :
    Except Fault (Bool × Bitmap) :=
  let error := false
  let error := error ||
    CheckForError (decide (DivRoundUp rh.numBytes SECTOR_SIZE ≤ rh.numSectors))
  let error := error || CheckForError (decide (rh.numSectors < NUM_DIRECT))
  checkSectors numSectors rh rh.numSectors 0 error shadowMap

/-- Loop of `CheckBitmaps`, from bit `i` with `n` bits left. -/
def checkBitmapsFrom (freeMap shadowMap : Bitmap) : Nat → Nat → Bool → Except Fault Bool
  | 0, _, error => .ok error
  | n + 1, i, error => do
    let a ← freeMap.Test i
    let b ← shadowMap.Test i
    checkBitmapsFrom freeMap shadowMap n (i + 1) (error || CheckForError (a == b))

/-- `CheckBitmaps(freeMap, shadowMap)`. -/
def CheckBitmaps (numSectors : Nat) (freeMap shadowMap : Bitmap) : Except Fault Bool :=
  checkBitmapsFrom freeMap shadowMap numSectors 0 false

/-- The string held by an array of `char`: its bytes before the first
zero. -/
def cstring (s : List Nat) : List Nat := s.takeWhile (fun c => c != 0)

/-- Loop of `CheckDirectory` over the entries it looks at, with the names
known so far. -/
def checkEntries (numSectors : Nat) (disk : Disk) :
    List DirectoryEntry → List (List Nat) → Bool → Bitmap → Except Fault (Bool × Bitmap)
  | [], _, error, shadowMap => .ok (error, shadowMap)
  | e :: rest, knownNames, error, shadowMap =>
    if e.inUse then do
      let error := if FILE_NAME_MAX_LEN < (cstring e.name).length then true else error
      let repeated := knownNames.any (fun n => cstring n == cstring e.name)
      let error := if repeated then true else error
      let knownNames := if !repeated then knownNames ++ [e.name] else knownNames
      let (err, shadowMap) ← CheckSector numSectors (toU32 e.sector) shadowMap
      let error := error || err
      let rh ← FileHeader.FetchFrom disk (toU32 e.sector)
      let (err, shadowMap) ← CheckFileHeader numSectors rh shadowMap
      let error := error || err
      checkEntries numSectors disk rest knownNames error shadowMap
    else checkEntries numSectors disk rest knownNames error shadowMap

/-- `CheckDirectory(rd, shadowMap)`: the loop runs over the entries
`rd->table[i]` with `i < NUM_DIR_ENTRIES`. -/
def CheckDirectory (numSectors : Nat) (disk : Disk) (rd : RawDirectory) (shadowMap : Bitmap) :
    Except Fault (Bool × Bitmap) :=
  checkEntries numSectors disk (rd.table.take NUM_DIR_ENTRIES) [] false shadowMap

/-- `FileSystem::Check()`, with `NUM_SECTORS` the size of the disk. -/
def Check (junk : Nat → Nat) (k : Kernel) (fs : FileSystem) :
    Except Fault (Bool × FileSystem × Kernel) := do
  let numSectors := k.synchDisk.numSectors
  let error := false
  let shadowMap ← Bitmap.new junk numSectors
  let shadowMap ← shadowMap.Mark FREE_MAP_SECTOR
  let shadowMap ← shadowMap.Mark DIRECTORY_SECTOR
  let bitRH ← FileHeader.FetchFrom k.synchDisk FREE_MAP_SECTOR
  let error := error || CheckForError (bitRH.numBytes == numSectors / BITS_IN_BYTE)
  let error := error ||
    CheckForError (bitRH.numSectors == numSectors / BITS_IN_BYTE / SECTOR_SIZE)
  let (err, shadowMap) ← CheckFileHeader numSectors bitRH shadowMap
  let error := error || err
  let dirRH ← FileHeader.FetchFrom k.synchDisk DIRECTORY_SECTOR
  let (err, shadowMap) ← CheckFileHeader numSectors dirRH shadowMap
  let error := error || err
  let freeMap ← Bitmap.new junk numSectors
  let (freeMap, freeMapFile, k) ← freeMap.FetchFrom k fs.freeMapFile
  let dir ← Directory.new junk NUM_DIR_ENTRIES
  let (dir, directoryFile, k) ← dir.FetchFrom junk k fs.directoryFile
  let (err, shadowMap) ← CheckDirectory numSectors k.synchDisk dir shadowMap
  let error := error || err
  let err ← CheckBitmaps numSectors freeMap shadowMap
  let error := error || err
  return (!error, { freeMapFile := freeMapFile, directoryFile := directoryFile }, k)

end FileSystem

/-! ## Paths (`filesys/path.cc`, `FindByPath` of `filesys/file_system.cc`)

`Path` and `FindByPath` belong to the build with `DIRECTORY`; they are
embedded on their own, over the same globals. -/

/-- `class Path`: `dirPath` holds the items of the list, an item being a
string. -/
structure Path where
  dirPath : List (List Nat)
  fileName : Option (List Nat)
  isRelative : Bool
  pathLength : Nat
  rawPath : List Nat
  deriving DecidableEq, Repr

/-- The byte `'/'`. -/
def SLASH : Nat := 47

/-- The tokens that the calls `strtok(s, "/")`, `strtok(nullptr, "/")`, ...
of the C library return one after the other, until the null pointer: `cur` is
the token being read. -/
def strtokAll : List Nat → List Nat → List (List Nat)
  | [], cur => if cur.isEmpty then [] else [cur]
  | c :: rest, cur =>
    if c == SLASH then
      if cur.isEmpty then strtokAll rest [] else cur :: strtokAll rest []
    else strtokAll rest (cur ++ [c])

namespace Path

/-- Loop of the constructor over the tokens:
`temp = token; token = strtok(nullptr, "/"); if (isFile && token == nullptr)
fileName = temp; else { dirPath->Append(temp); pathLength++; }`. -/
def scan (isFile : Bool) : List (List Nat) → Path → Path
  | [], p => p
  | temp :: rest, p =>
    if isFile && rest.isEmpty then scan isFile rest { p with fileName := some temp }
    else
      scan isFile rest
        { p with dirPath := p.dirPath ++ [temp], pathLength := u32 (p.pathLength + 1) }

/-- Constructor `Path(path, isFile)`; `path` is the string without its final
zero byte.  `strcpy(path_, path)` copies it with this byte into the block
`new char[20]`: a string of 20 bytes or more overruns the block, and what the
program does then is not followed. -/
def new (path : List Nat) (isFile : Bool) : Except Fault Path := do
  let isRelative := path.headD 0 != SLASH
  let p : Path :=
    { dirPath := [], fileName := none, isRelative := isRelative, pathLength := 0,
      rawPath := path }
  let p := if !isRelative then { p with dirPath := [[SLASH]], pathLength := 1 } else p
  if 20 < path.length + 1 then throw Fault.notModelled
  pure (scan isFile (strtokAll path []) p)

/-- `Path::GetPath`. -/
def GetPath (p : Path) : List (List Nat) := p.dirPath

/-- `Path::GetFileName`. -/
def GetFileName (p : Path) : Option (List Nat) := p.fileName

/-- `Path::IsPathToFile`. -/
def IsPathToFile (p : Path) : Bool := p.fileName.isSome

/-- `Path::IsRelative`. -/
def IsRelative (p : Path) : Bool := p.isRelative

/-- `Path::Length`. -/
def Length (p : Path) : Nat := p.pathLength

end Path

/-- Name `"TempDirFile1"` given to the handles of `FindByPath`. -/
def tempDirFileName : List Nat := [84, 101, 109, 112, 68, 105, 114, 70, 105, 108, 101, 49]

/-- Loop of `FindByPath`: `while (!dirPath.IsEmpty())` with the body
`sector = tempDir->Find(dirPath.Pop()); if (sector == -1) return -1;
tempDirFile = new OpenFile(sector, ...); tempDir->FetchFrom(tempDirFile);
delete tempDirFile;`.  A name handed back by `RemoveLink` in the destructor
would call `fileSystem->Remove`, which is not followed from here. -/
def findByPathLoop (junk : Nat → Nat) :
    List (List Nat) → Int → Directory → Kernel → Except Fault (Int × Kernel)
  | [], sector, _, k => .ok (sector, k)
  | name :: dirPath, _, tempDir, k => do
    let sector := tempDir.Find name
    if sector == -1 then
      return (-1, k)
    let (tempDirFile, k) ← OpenFile.new k (toU32 sector) tempDirFileName
    let (tempDir, tempDirFile, k) ← tempDir.FetchFrom junk k tempDirFile
    match k.files.RemoveLink tempDirFile.sector with
    | (some _, _) => throw Fault.notModelled
    | (none, files) => findByPathLoop junk dirPath sector tempDir { k with files := files }

/-- `FindByPath(path, dirFile)`: the sector returned, the handle `dirFile`
and the globals after the call. -/
def FindByPath (junk : Nat → Nat) (k : Kernel) (path : Path) (dirFile : OpenFile) :
    Except Fault (Int × OpenFile × Kernel) := do
  let tempDir ← Directory.new junk 10
  let (tempDir, dirFile, k) ← tempDir.FetchFrom junk k dirFile
  let sector : Int := -1
  let dirPath := path.GetPath
  if !path.IsRelative && path.Length == 1 then
    return (1, dirFile, k)
  let dirPath := if !path.IsRelative then dirPath.tail else dirPath
  let (sector, k) ← findByPathLoop junk dirPath sector tempDir k
  return (sector, dirFile, k)

/-! ## Runs and notions of the last claims -/

/-- What a run of `runC31` observes. -/
structure CheckRun where
  /-- The values returned by the calls of `Create`. -/
  created : List Bool
  /-- The value returned by `Check` after format. -/
  fresh : Bool
  /-- The value returned by `Check` after each `Create`. -/
  checked : List Bool
  deriving DecidableEq, Repr

/-- Calls of `Create` for the given names and sizes, with a `Check` after
each. -/
def createAndCheck (junk : Nat → Nat) :
    List (List Nat × Nat) → FileSystem → Kernel → Except Fault (List Bool × List Bool)
  | [], _, _ => .ok ([], [])
  | (name, size) :: rest, fs, k => do
    let (created, fs, k) ← FileSystem.Create junk k fs name size false
    let (ok, fs, k) ← FileSystem.Check junk k fs
    let (cs, os) ← createAndCheck junk rest fs k
    pure (created :: cs, ok :: os)

/-- Format, `Check`, then calls of `Create` with a `Check` after each. -/
def runC31 (junk : Nat → Nat) (disk : Disk) (files : List (List Nat × Nat)) :
    Except Fault CheckRun := do
  let (fs, k) ← FileSystem.Format junk disk
  let (fresh, fs, k) ← FileSystem.Check junk k fs
  let (cs, os) ← createAndCheck junk files fs k
  pure { created := cs, fresh := fresh, checked := os }

/-- What a run of `runC32` observes. -/
structure BadSectorRun where
  /-- The value returned by `Create`. -/
  created : Bool
  /-- The first data sector of the file before its header is overwritten. -/
  sector : Nat
  /-- The value returned by `Check`, when it returns. -/
  checked : Option Bool
  /-- Whether `Check` stops in an assertion. -/
  asserted : Bool
  deriving DecidableEq, Repr

/-- Format, `Create("a", 1 sector)`, the header of the file written back with
`bad` as its first data sector, then `Check`. -/
def runC32 (junk : Nat → Nat) (disk : Disk) (bad : Nat) : Except Fault BadSectorRun := do
  let (fs, k) ← FileSystem.Format junk disk
  let (created, fs, k) ← FileSystem.Create junk k fs nameA SECTOR_SIZE false
  let dir ← persistedDirectory junk k fs
  let hdr ← FileHeader.FetchFrom k.synchDisk (toU32 (dir.Find nameA))
  let disk ← FileHeader.WriteBack k.synchDisk
    { hdr with dataSectors := List.set hdr.dataSectors 0 bad } (toU32 (dir.Find nameA))
  let back := FileSystem.Check junk { k with synchDisk := disk } fs
  pure { created := created, sector := hdr.dataSectors.getD 0 0,
         checked := match back with
           | .ok (ok, _, _) => some ok
           | .error _ => none,
         asserted := match back with
           | .error .assertion => true
           | _ => false }

/-- What a run of `runC38` observes. -/
structure WriterFlagRun where
  /-- The values returned by the two calls of `WriteAt`. -/
  written : Nat × Nat
  /-- The flag `writing` of the entry of the file after each call. -/
  writing : Option Bool × Option Bool
  /-- Whether a `ReadAt` after the two calls has to wait. -/
  blocked : Bool
  deriving DecidableEq, Repr

/-- Format, `Create("a", 0)`, `Open("a")`, a `WriteAt` of one byte at offset
0, a `WriteAt` of one byte at the start of file sector `far`, then a `ReadAt`
of one byte. -/
def runC38 (junk : Nat → Nat) (disk : Disk) (far : Nat) : Except Fault WriterFlagRun := do
  let (fs, k) ← FileSystem.Format junk disk
  let (_, fs, k) ← FileSystem.Create junk k fs nameA 0 false
  let (h, _, k) ← FileSystem.Open junk k fs nameA
  withHandle h fun h => do
    let (w1, h, k) ← h.WriteAt junk k [1] 1 0
    let flag1 := (k.files.FindBySector h.sector).map (fun e => e.writing)
    let (w2, h, k) ← h.WriteAt junk k [1] 1 (far * SECTOR_SIZE)
    let flag2 := (k.files.FindBySector h.sector).map (fun e => e.writing)
    pure { written := (w1, w2), writing := (flag1, flag2),
           blocked := match h.ReadAt k 1 0 false with
             | .error .blocked => true
             | _ => false }

/-- What a run of `runC40` observes. -/
structure GrowthRun where
  /-- The value returned by `Create`. -/
  created : Bool
  /-- `numSectors` of the header before `FileExpand`. -/
  sectors : Nat
  /-- `CountClear()` of the bitmap on disk before `FileExpand`. -/
  free : Nat
  /-- The value returned by `FileExpand`. -/
  expanded : Bool
  deriving DecidableEq, Repr

/-- Format, `Create("a", n sectors)`, the bitmap file rewritten so that only
the `free` sectors from `lo` on are free, `Open("a")`, then `FileExpand` of
the header of the handle by `more` bytes. -/
def runC40 (junk : Nat → Nat) (disk : Disk) (n lo free more : Nat) : Except Fault GrowthRun := do
  let (fs, k) ← FileSystem.Format junk disk
  let (created, fs, k) ← FileSystem.Create junk k fs nameA (n * SECTOR_SIZE) false
  let (freeMapFile, k) ← (onlyFree lo free).WriteBack junk k fs.freeMapFile
  let fs := { fs with freeMapFile := freeMapFile }
  let m0 ← persistedBitmap junk k fs
  let (h, _, k) ← FileSystem.Open junk k fs nameA
  withHandle h fun h => do
    let (expanded, _, _) ← FileHeader.FileExpand junk k h.hdr more h.sector
    pure { created := created, sectors := h.hdr.numSectors, free := m0.CountClear,
           expanded := expanded }

/-- What a run of `runC35` observes. -/
structure FrameRun where
  /-- The value returned by `Create`. -/
  created : Bool
  /-- The values returned by the two calls of `WriteAt`. -/
  written : Nat × Nat
  /-- The length of the file before and after the second `WriteAt`. -/
  length : Nat × Nat
  /-- The bytes read at the offset of the first `WriteAt` before the second
  one. -/
  before : List Nat
  /-- The bytes read at the same offset after the second `WriteAt`. -/
  after : List Nat
  deriving DecidableEq, Repr

/-- Format, `Create("a", n sectors)`, `Open("a")`, a `WriteAt` of `bytes` at
the start of file sector `at_`, a `ReadAt` of them, a `WriteAt` of one byte
at the end of the file, and the same `ReadAt` again. -/
def runC35 (junk : Nat → Nat) (disk : Disk) (n at_ : Nat) (bytes : List Nat) :
    Except Fault FrameRun := do
  let (fs, k) ← FileSystem.Format junk disk
  let (created, fs, k) ← FileSystem.Create junk k fs nameA (n * SECTOR_SIZE) false
  let (h, _, k) ← FileSystem.Open junk k fs nameA
  withHandle h fun h => do
    let (w1, h, k) ← h.WriteAt junk k bytes bytes.length (at_ * SECTOR_SIZE)
    let (_, before, h, k) ← h.ReadAt k bytes.length (at_ * SECTOR_SIZE) false
    let length1 := h.Length
    let (w2, h, k) ← h.WriteAt junk k [9] 1 (n * SECTOR_SIZE)
    let (_, after, h, _) ← h.ReadAt k bytes.length (at_ * SECTOR_SIZE) false
    pure { created := created, written := (w1, w2), length := (length1, h.Length),
           before := before, after := after }

/-- The components of a path string, from the words of the statement: the
substrings between `'/'` separators that are not empty, in order. -/
def pathComponents (path : List Nat) : List (List Nat) :=
  (path.splitOn SLASH).filter (fun s => !s.isEmpty)

/-- The directory that a walk holds after it has gone from the directory
object `dir` to the file with header `sector`: the table of that file,
fetched through a handle of its own that is closed again. -/
def Directory.reached (junk : Nat → Nat) (k : Kernel) (dir : Directory) (sector : Int) :
    Except Fault (Directory × Kernel) := do
  let (file, k) ← OpenFile.new k (toU32 sector) tempDirFileName
  let (dir, file, k) ← dir.FetchFrom junk k file
  match k.files.RemoveLink file.sector with
  | (some _, _) => throw Fault.notModelled
  | (none, files) => pure (dir, { k with files := files })

/-- Reference for the walk of `FindByPath`, written from the words of the
statement: each component is looked up in turn in the directory reached so
far; the result is -1 at the first component that is absent, and the header
sector of the last component when every component is present (`last` stands
for it when there is no component). -/
def lookupEach (junk : Nat → Nat) :
    List (List Nat) → Directory → Kernel → Int → Except Fault (Int × Kernel)
  | [], _, k, last => .ok (last, k)
  | name :: rest, dir, k, _ =>
    if dir.Find name = -1 then .ok (-1, k)
    else do
      let (dir', k) ← dir.reached junk k (dir.Find name)
      lookupEach junk rest dir' k (dir.Find name)

/-- Reference for `FindByPath`, written from the words of the statement: the
root sector 1 for an absolute path of length 1, and for every other path the
walk over its components (the root marker left out) from the directory of
`dirFile`. -/
def resolvePath (junk : Nat → Nat) (k : Kernel) (path : Path) (dirFile : OpenFile) :
    Except Fault (Int × OpenFile × Kernel) := do
  let start ← Directory.new junk 10
  let (start, dirFile, k) ← start.FetchFrom junk k dirFile
  if path.isRelative = false ∧ path.pathLength = 1 then
    pure (1, dirFile, k)
  else do
    let components := if path.isRelative then path.dirPath else path.dirPath.tail
    let (sector, k) ← lookupEach junk components start k (-1)
    pure (sector, dirFile, k)

/-- The small disk after format, `Create("dir1", 0, true)` and
`Create("dir2", 0, true)`, with the entry `"sub"` for the header sector of
`"dir2"` added to the table of `"dir1"`. -/
def nested : FileSystem × Kernel :=
  valueOr (do
    let (fs, k) ← FileSystem.Format zeroJunk smallDisk
    let (_, fs, k) ← FileSystem.Create zeroJunk k fs [100, 105, 114, 49] 0 true
    let (_, fs, k) ← FileSystem.Create zeroJunk k fs [100, 105, 114, 50] 0 true
    let dir ← persistedDirectory zeroJunk k fs
    let (file, k) ← OpenFile.new k (toU32 (dir.Find [100, 105, 114, 49])) tempDirFileName
    let inner ← Directory.new zeroJunk NUM_DIR_ENTRIES
    let (inner, file, k) ← inner.FetchFrom zeroJunk k file
    let (_, inner) ← inner.Add zeroJunk [115, 117, 98] (dir.Find [100, 105, 114, 50])
    let (file, k) ← inner.WriteBack zeroJunk k file
    pure (fs, { k with files := (k.files.RemoveLink file.sector).2 })) unmounted

/-- The path made from the string `"dir1/sub"`. -/
def pathDir1Sub : Path :=
  { dirPath := [[100, 105, 114, 49], [115, 117, 98]], fileName := none, isRelative := true,
    pathLength := 2, rawPath := [100, 105, 114, 49, 47, 115, 117, 98] }

/-- The path string of the comment of `path.cc`,
`"/home/federico/dev/so2/nachos/code/filesys/test/big"`. -/
def longPath : List Nat :=
  [47, 104, 111, 109, 101, 47, 102, 101, 100, 101, 114, 105, 99, 111, 47, 100, 101, 118, 47,
   115, 111, 50, 47, 110, 97, 99, 104, 111, 115, 47, 99, 111, 100, 101, 47, 102, 105, 108, 101,
   115, 121, 115, 47, 116, 101, 115, 116, 47, 98, 105, 103]

/-! ## Theorems -/

/-! ### Rounding up -/

theorem DivRoundUp_of_128 (n : Nat) : DivRoundUp n 128 = (u32 n + 127) / 128 := by
  unfold DivRoundUp
  split <;> omega

theorem DivRoundUp_of_32 (n : Nat) : DivRoundUp n 32 = (u32 n + 31) / 32 := by
  unfold DivRoundUp
  split <;> omega

theorem DivRoundUp_eq (n s : Nat) (hn : n < 4294967296) (hs : 0 < s) :
    DivRoundUp n s = (n + s - 1) / s := by
  unfold DivRoundUp u32
  rw [Nat.mod_eq_of_lt hn]
  have hdm := Nat.div_add_mod n s
  have hlt := Nat.mod_lt n hs
  have hmul : s * (n / s) = n / s * s := Nat.mul_comm _ _
  split
  · symm
    apply Nat.div_eq_of_lt_le
    · rw [Nat.add_mul, Nat.one_mul]; omega
    · rw [Nat.add_mul, Nat.add_mul, Nat.one_mul]; omega
  · simp only [Nat.add_zero]
    symm
    apply Nat.div_eq_of_lt_le
    · omega
    · rw [Nat.add_mul, Nat.one_mul]; omega

theorem u32_lt (n : Nat) : u32 n < 4294967296 := Nat.mod_lt _ (by decide)

theorem DivRoundUp_sector (n : Nat) (hn : n < 4294967296) :
    DivRoundUp n SECTOR_SIZE = (n + SECTOR_SIZE - 1) / SECTOR_SIZE :=
  DivRoundUp_eq n SECTOR_SIZE hn (by decide)

/-! ### Claims C1 to C10 -/

/-- C1 (evaluation at the failing input): on a freshly formatted disk of 1024
sectors the file `"a"` is created with 64 sectors; 952 sectors are free and
the file would need 28 data sectors and one more leaf block to cover
`[64 * 128, 92 * 128)`, yet `WriteAt(buf, 28 * 128, 64 * 128)` returns 0
instead of `28 * 128`, and leaves the handle with a length of 92 sectors. -/
theorem C1_writeAt_returns_zero_with_room_to_expand :
    runC1 zeroJunk blankDisk =
      .ok { created := true, lengthBefore := 8192, freeBefore := 952, written := 0,
            lengthAfter := 11776 } := by
  decide!

/-- C2: on a freshly formatted disk the sequence `Create("a", 0)`,
`Open("a")`, `WriteAt("hello", 5, 0)`, `ReadAt(buf, 5, 0)`, `Close`,
`Remove("a")`, `Open("a")` gives: `Create` returns true, `Open` returns a
handle, `WriteAt` returns 5, `ReadAt` returns 5 with `buf` equal to
`"hello"`, `Remove` returns true and the last `Open` returns null.  This is
so on a blank disk with uninitialised storage reading as zero, and on a disk
full of old data with uninitialised storage of other content. -/
theorem C2_end_to_end_hello :
    runC2 zeroJunk blankDisk =
      .ok { created := true, opened := true, written := 5, read := 5, buf := hello,
            removed := true, reopened := false } ∧
    runC2 patternJunk usedDisk =
      .ok { created := true, opened := true, written := 5, read := 5, buf := hello,
            removed := true, reopened := false } := by
  decide!

/-- C3 (evaluation at the failing input): on a file created with size 0, with
952 sectors free after it, a `Write` of 64 sectors of bytes returns its full
size and the following `Write` of 28 sectors of bytes returns 0. -/
theorem C3_second_write_returns_zero :
    runC3 zeroJunk blankDisk =
      .ok { created := true, firstWrite := 8192, freeBefore := 952, secondWrite := 0 } := by
  decide!

/-- C4 (evaluation at the failing input): after `WriteAt("hello", 5, 0)`
through one handle has returned 5, `ReadAt(out, 5, 0)` through a second
handle that was opened on the empty file returns 0 and no bytes; only the
next `ReadAt` through that handle returns the five bytes. -/
theorem C4_second_handle_reads_nothing :
    runC4 zeroJunk blankDisk =
      .ok { written := 5, read := 0, out := [], readAgain := 5, outAgain := hello } := by
  decide!

/-- The length that `ReadAt` compares `position` with is the one of the header
cached in the handle: if that length is not above `position`, `ReadAt`
returns 0 and stores nothing, whatever header the disk holds. -/
theorem ReadAt_of_cached_length (k : Kernel) (f : OpenFile) (numBytes position : Nat)
    (e : FileTableEntry) (hn : numBytes ≠ 0) (he : k.files.FindBySector f.sector = some e)
    (hw : e.writing = false) (hs : f.sector < k.synchDisk.numSectors)
    (hp : f.hdr.FileLength ≤ position) :
    ∃ f' k', f.ReadAt k numBytes position false = .ok (0, [], f', k') := by
  unfold OpenFile.ReadAt
  simp only [hn, he, FileTableEntry.RequestRead, hw, FileHeader.FetchFrom, Disk.ReadSector, hs,
    hp, ite_true, ite_false, Bool.not_false, bind, Except.bind, pure, Except.pure, if_true,
    if_false, Bool.false_eq_true, reduceIte]
  exact ⟨_, _, rfl⟩

/-- C5 (evaluation at the failing input): with 28 free sectors `Allocate` of
28 sectors returns true, and `ByteToSector(27 * SECTOR_SIZE)` is then
`4294967295`, which is no bit of the bitmap (`Test` fails its assertion). -/
theorem C5_byteToSector_of_exhausted_find :
    runC5 zeroJunk =
      .ok { freeBefore := 28, allocated := true, sector := 4294967295,
            marked := .error .assertion } := by
  decide!

/-- C6 (evaluation at the failing input): `Allocate` of 28 sectors takes 29
sectors from a bitmap with 1024 clear bits and `Deallocate` gives back 28;
`CountClear()` is 1023 afterwards, not 1024. -/
theorem C6_deallocate_leaks_indirect_block :
    runC6 zeroJunk =
      .ok { freeBefore := 1024, allocated := true, freeAllocated := 995, freeAfter := 1023 } := by
  decide!

/-- C7 (evaluation at the failing input): with 62 free sectors `Allocate` of
60 sectors returns true, all 62 sectors are used up, and slot 0 of the leaf
block holds `4294967295`, the value `-1` of an exhausted `Find`, which is
not below the bitmap size 1024. -/
theorem C7_slot_holds_not_found :
    runC7 zeroJunk =
      .ok { freeBefore := 62, allocated := true, slot := 4294967295, numBits := 1024,
            freeAfter := 0 } := by
  decide!

/-- C8 (amended): for every size `fileSize` that the `unsigned` parameter can
hold, if the bitmap has fewer clear bits than `ceil(fileSize / SECTOR_SIZE)`,
which is `(fileSize + SECTOR_SIZE - 1) / SECTOR_SIZE` in the natural numbers,
`Allocate` returns false and leaves the bitmap, the disk, the flag and the
pointer table of the header as they were; `numBytes` and `numSectors` of the
header are set to `fileSize` and `ceil(fileSize / SECTOR_SIZE)`. -/
theorem C8_allocate_without_space (junk : Nat → Nat) (disk : Disk) (raw : FileHeader)
    (freeMap : Bitmap) (fileSize initialSector : Nat)
    (hsize : fileSize < 4294967296)
    (h : freeMap.CountClear < (fileSize + SECTOR_SIZE - 1) / SECTOR_SIZE) :
    FileHeader.Allocate junk disk raw freeMap fileSize initialSector =
      .ok (false,
           { isDirectory := raw.isDirectory, numBytes := fileSize,
             numSectors := (fileSize + SECTOR_SIZE - 1) / SECTOR_SIZE,
             dataSectors := raw.dataSectors },
           freeMap, disk) := by
  rw [← DivRoundUp_sector fileSize hsize] at h ⊢
  simp only [FileHeader.Allocate, h, pure, Except.pure, bind, Except.bind, if_true]

/-- C8 (witness): the amended statement at a full bitmap, a header without
sectors and a request of 256 bytes. -/
theorem C8_allocate_without_space_witness :
    (onlyFree 0 0).CountClear < (256 + SECTOR_SIZE - 1) / SECTOR_SIZE ∧
    FileHeader.Allocate zeroJunk blankDisk emptyHeader (onlyFree 0 0) 256 0 =
      .ok (false,
           { isDirectory := emptyHeader.isDirectory, numBytes := 256,
             numSectors := (256 + SECTOR_SIZE - 1) / SECTOR_SIZE,
             dataSectors := emptyHeader.dataSectors },
           onlyFree 0 0, blankDisk) :=
  ⟨by decide!, C8_allocate_without_space zeroJunk blankDisk emptyHeader (onlyFree 0 0) 256 0
    (by decide) (by decide!)⟩

/-- C8 (counterexample): on a full bitmap `Allocate` of 256 bytes returns
false, and the header, which had `numBytes = 0` and `numSectors = 0`, has
`numBytes = 256` and `numSectors = 2` after the call. -/
theorem C8_header_is_changed :
    (onlyFree 0 0).CountClear = 0 ∧ emptyHeader.numBytes = 0 ∧ emptyHeader.numSectors = 0 ∧
    allocateSizes (FileHeader.Allocate zeroJunk blankDisk emptyHeader (onlyFree 0 0) 256 0) =
      .ok (false, 256, 2) := by
  decide!

/-- C9 (evaluation at the failing input): a header of 91 sectors maps file
sector 59 to disk sector 62; `Allocate` of 92 sectors from sector 91 on
returns true and the header then maps file sector 59 to disk sector 94. -/
theorem C9_growth_remaps_sector_59 :
    runC9 zeroJunk =
      .ok { allocated := true, before := 62, grown := true, numSectors := 92, after := 94 } := by
  decide!

/-- C10 (evaluation at the failing input): after format and seven successful
`Create` calls the directory file has two data sectors, 3 and 10, and the
directory on disk gives sector 10 as the header sector of `"g"`: sector 10,
marked once in the bitmap, has two owners. -/
theorem C10_sector_with_two_owners :
    runC10 zeroJunk blankDisk =
      .ok { created := [true, true, true, true, true, true, true], dirSectors := 2,
            dirData := [3, 10], headers := [4, 5, 6, 7, 8, 9, 10], marked := .ok true } := by
  decide!

/-! ### Names and tables of a directory -/

theorem fit_length (n : Nat) (l : List Nat) : (fit n l).length = n := by
  induction n generalizing l with
  | zero => simp [fit]
  | succ n ih => cases l <;> simp [fit, ih]

theorem takeWhile_nz_cons (x : Nat) (xs : List Nat) (h : x ≠ 0) :
    (x :: xs).takeWhile (fun c => c != 0) = x :: xs.takeWhile (fun c => c != 0) := by
  simp [List.takeWhile_cons, h]

theorem takeWhile_nz_zero (xs : List Nat) :
    ((0 : Nat) :: xs).takeWhile (fun c => c != 0) = [] := by
  simp [List.takeWhile_cons]

theorem strncmpEq_iff (n : Nat) (a b : List Nat) :
    strncmpEq n a b = true ↔
      fit n (a.takeWhile (fun c => c != 0)) = fit n (b.takeWhile (fun c => c != 0)) := by
  induction n generalizing a b with
  | zero => simp [strncmpEq, fit]
  | succ n ih =>
    rcases a with _ | ⟨x, xs⟩ <;> rcases b with _ | ⟨y, ys⟩
    · simp [strncmpEq, fit]
    · by_cases hy : y = 0
      · subst hy; simp [strncmpEq, fit, takeWhile_nz_zero]
      · simp [strncmpEq, fit, takeWhile_nz_cons _ _ hy, Ne.symm hy]
    · by_cases hx : x = 0
      · subst hx; simp [strncmpEq, fit, takeWhile_nz_zero]
      · simp [strncmpEq, fit, takeWhile_nz_cons _ _ hx, hx]
    · by_cases hx : x = 0 <;> by_cases hy : y = 0
      · subst hx; subst hy; simp [strncmpEq, fit, takeWhile_nz_zero]
      · subst hx; simp [strncmpEq, fit, takeWhile_nz_zero, takeWhile_nz_cons _ _ hy, Ne.symm hy]
      · subst hy; simp [strncmpEq, fit, takeWhile_nz_zero, takeWhile_nz_cons _ _ hx, hx]
      · by_cases hxy : x = y
        · subst hxy; simp [strncmpEq, fit, takeWhile_nz_cons _ _ hx, hx, ih]
        · simp [strncmpEq, fit, takeWhile_nz_cons _ _ hx, takeWhile_nz_cons _ _ hy, hxy]

theorem fit_takeWhile_fit (n : Nat) (l rest : List Nat) :
    fit n ((fit n (l.takeWhile (fun c => c != 0)) ++ rest).takeWhile (fun c => c != 0)) =
      fit n (l.takeWhile (fun c => c != 0)) := by
  induction n generalizing l with
  | zero => simp [fit]
  | succ n ih =>
    rcases l with _ | ⟨x, xs⟩
    · simp [fit, takeWhile_nz_zero]
    · by_cases hx : x = 0
      · subst hx; simp [fit, takeWhile_nz_zero]
      · simp [fit, takeWhile_nz_cons _ _ hx, ih]

theorem nameKey_strncpy (dst name : List Nat) (h : dst.length = FILE_NAME_MAX_LEN + 1) :
    nameKey (strncpy dst name FILE_NAME_MAX_LEN) = nameKey name := by
  unfold nameKey strncpy overlay
  simp only [List.take_zero, List.nil_append, Nat.sub_zero, Nat.zero_add, fit_length]
  rw [List.take_of_length_le (by rw [fit_length, h]; decide)]
  exact fit_takeWhile_fit _ _ _

theorem strncpy_length (dst name : List Nat) (h : dst.length = FILE_NAME_MAX_LEN + 1) :
    (strncpy dst name FILE_NAME_MAX_LEN).length = FILE_NAME_MAX_LEN + 1 := by
  unfold strncpy overlay
  simp only [List.take_zero, List.nil_append, Nat.sub_zero, Nat.zero_add, fit_length]
  rw [List.take_of_length_le (by rw [fit_length, h]; decide)]
  simp [fit_length, h, FILE_NAME_MAX_LEN]

theorem holds_iff (name : List Nat) (e : DirectoryEntry) :
    e.holds name = true ↔ e.inUse = true ∧ nameKey e.name = nameKey name := by
  simp [DirectoryEntry.holds, strncmpEq_iff, nameKey]

theorem findIndexFrom_none (name : List Nat) (l : List DirectoryEntry) (i : Nat)
    (h : l.find? (DirectoryEntry.holds name) = none) : Directory.findIndexFrom name l i = -1 := by
  induction l generalizing i with
  | nil => rfl
  | cons e es ih =>
    rw [List.find?_cons] at h
    cases he : e.holds name with
    | true => rw [he] at h; cases h
    | false =>
      rw [he] at h
      have he' : (e.inUse && strncmpEq FILE_NAME_MAX_LEN e.name name) = false := he
      simp only [Directory.findIndexFrom, he']
      exact ih _ h

theorem findIndexFrom_some (name : List Nat) (l : List DirectoryEntry) (i : Nat)
    (e : DirectoryEntry) (h : l.find? (DirectoryEntry.holds name) = some e) :
    ∃ j, Directory.findIndexFrom name l i = ((i + j : Nat) : Int) ∧ l.get? j = some e := by
  induction l generalizing i with
  | nil => cases h
  | cons x xs ih =>
    rw [List.find?_cons] at h
    cases hx : x.holds name with
    | true =>
      rw [hx] at h
      have hx' : (x.inUse && strncmpEq FILE_NAME_MAX_LEN x.name name) = true := hx
      refine ⟨0, ?_, ?_⟩
      · simp [Directory.findIndexFrom, hx']
      · simpa using h
    | false =>
      rw [hx] at h
      have hx' : (x.inUse && strncmpEq FILE_NAME_MAX_LEN x.name name) = false := hx
      obtain ⟨j, hj, hget⟩ := ih (i + 1) h
      refine ⟨j + 1, ?_, ?_⟩
      · simp only [Directory.findIndexFrom, hx']
        rw [hj]; simp only [Bool.false_eq_true, if_false]; congr 1; omega
      · simpa using hget

theorem FindIndex_eq_neg_one_iff (raw : Directory) (name : List Nat)
    (h : raw.table.length = raw.tableSize) :
    raw.FindIndex name = -1 ↔ raw.table.find? (DirectoryEntry.holds name) = none := by
  unfold Directory.FindIndex
  rw [List.take_of_length_le (le_of_eq h)]
  constructor
  · intro hi
    cases hf : raw.table.find? (DirectoryEntry.holds name) with
    | none => rfl
    | some e =>
      obtain ⟨j, hj, _⟩ := findIndexFrom_some name raw.table 0 e hf
      rw [hj] at hi; omega
  · exact findIndexFrom_none name raw.table 0

theorem Find_eq (raw : Directory) (name : List Nat) (h : raw.table.length = raw.tableSize) :
    raw.Find name =
      ((raw.table.find? (DirectoryEntry.holds name)).map (fun e => e.sector)).getD (-1) := by
  unfold Directory.Find Directory.FindIndex
  rw [List.take_of_length_le (le_of_eq h)]
  cases hf : raw.table.find? (DirectoryEntry.holds name) with
  | none => simp [findIndexFrom_none name raw.table 0 hf]
  | some e =>
    obtain ⟨j, hj, hget⟩ := findIndexFrom_some name raw.table 0 e hf
    have hne : ((((0 + j : Nat) : Int)) != -1) = true := by
      simp only [bne_iff_ne, ne_eq]; omega
    simp only [hj, hne, if_true]
    rw [List.get?_eq_getElem?] at hget
    simp [hget]

theorem modify_append_cons {α : Type} (f : α → α) (pre : List α) (x : α) (post : List α) (k : Nat)
    (hk : k = pre.length) : List.modify f k (pre ++ x :: post) = pre ++ f x :: post := by
  subst hk
  induction pre with
  | nil => rfl
  | cons p ps ih =>
    simp only [List.cons_append, List.length_cons]
    show p :: List.modify f ps.length (ps ++ x :: post) = _
    rw [ih]

theorem firstFree_none (l : List DirectoryEntry) (i : Nat)
    (h : Directory.firstFree l i = none) : ∀ x ∈ l, x.inUse = true := by
  induction l generalizing i with
  | nil => intro x hx; cases hx
  | cons e es ih =>
    cases he : e.inUse with
    | false => simp [Directory.firstFree, he] at h
    | true =>
      simp only [Directory.firstFree, he, Bool.not_true, Bool.false_eq_true, if_false] at h
      intro x hx
      rcases List.mem_cons.mp hx with rfl | hx
      · exact he
      · exact ih _ h x hx

theorem firstFree_some (l : List DirectoryEntry) (i j : Nat)
    (h : Directory.firstFree l i = some j) :
    ∃ pre e0 post, l = pre ++ e0 :: post ∧ (∀ x ∈ pre, x.inUse = true) ∧ e0.inUse = false ∧
      j = i + pre.length := by
  induction l generalizing i with
  | nil => cases h
  | cons e es ih =>
    cases he : e.inUse with
    | false =>
      simp only [Directory.firstFree, he, Bool.not_false, if_true, Option.some.injEq] at h
      exact ⟨[], e, es, rfl, by simp, he, by simp [h]⟩
    | true =>
      simp only [Directory.firstFree, he, Bool.not_true, Bool.false_eq_true, if_false] at h
      obtain ⟨pre, e0, post, hl, hpre, he0, hj⟩ := ih _ h
      refine ⟨e :: pre, e0, post, by simp [hl], ?_, he0, by simp [hj]; omega⟩
      intro x hx
      rcases List.mem_cons.mp hx with rfl | hx
      · exact he
      · exact hpre x hx

theorem firstFree_of_all_used (pre : List DirectoryEntry) (e0 : DirectoryEntry)
    (post : List DirectoryEntry) (i : Nat) (hpre : ∀ x ∈ pre, x.inUse = true)
    (he0 : e0.inUse = false) :
    Directory.firstFree (pre ++ e0 :: post) i = some (i + pre.length) := by
  induction pre generalizing i with
  | nil => simp [Directory.firstFree, he0]
  | cons p ps ih =>
    have hp : p.inUse = true := hpre p (List.mem_cons_self _ _)
    simp only [List.cons_append, Directory.firstFree, hp, Bool.not_true, Bool.false_eq_true,
      if_false, List.length_cons, List.append_eq]
    rw [ih _ (fun x hx => hpre x (List.mem_cons_of_mem _ hx))]
    congr 1; omega

theorem u32_of_lt (n : Nat) (h : n < 4294967296) : u32 n = n := Nat.mod_eq_of_lt h

theorem ofBytes_name_length (bytes : List Nat) :
    (DirectoryEntry.ofBytes bytes).name.length = FILE_NAME_MAX_LEN + 1 := by
  simp [DirectoryEntry.ofBytes, fit_length]

theorem Add_absent (junk : Nat → Nat) (raw : Directory) (name : List Nat) (s : Int)
    (hlen : raw.table.length = raw.tableSize)
    (hnames : ∀ e ∈ raw.table, e.name.length = FILE_NAME_MAX_LEN + 1)
    (habs : raw.table.find? (DirectoryEntry.holds name) = none)
    (hsize : raw.tableSize + 1 < 4294967296) :
    ∃ pre e post,
      Directory.Add junk raw name s =
        .ok (true, { table := pre ++ e :: post, tableSize := (pre ++ e :: post).length }) ∧
      (∀ x ∈ pre, x.inUse = true) ∧ e.inUse = true ∧ e.sector = s ∧
      nameKey e.name = nameKey name ∧ e.name.length = FILE_NAME_MAX_LEN + 1 ∧
      ((∃ e0, raw.table = pre ++ e0 :: post ∧ e0.inUse = false ∧
          (Directory.firstFree (raw.table.take raw.tableSize) 0).isSome = true) ∨
        (raw.table = pre ∧ post = [] ∧
          (Directory.firstFree (raw.table.take raw.tableSize) 0).isSome = false)) := by
  have hidx : raw.FindIndex name = -1 := (FindIndex_eq_neg_one_iff raw name hlen).2 habs
  cases hff : Directory.firstFree raw.table 0 with
  | some j =>
    obtain ⟨pre, e0, post, hl, hpre, he0, hj⟩ := firstFree_some _ _ _ hff
    have hn0 : e0.name.length = FILE_NAME_MAX_LEN + 1 :=
      hnames e0 (by rw [hl]; simp)
    refine ⟨pre, { inUse := true, name := strncpy e0.name name FILE_NAME_MAX_LEN, sector := s },
      post, ?_, hpre, ?_, ?_, nameKey_strncpy e0.name name hn0,
      strncpy_length e0.name name hn0,
      Or.inl ⟨e0, hl, he0, by rw [List.take_of_length_le (le_of_eq hlen), hff]; rfl⟩⟩
    · simp only [Directory.Add, Directory.AddFuel, hidx, bne_self_eq_false, Bool.false_eq_true,
        if_false, List.take_of_length_le (le_of_eq hlen), hff, Directory.fill]
      rw [hl, modify_append_cons _ _ _ _ _ (by omega)]
      congr 2
      rw [← hlen, hl]; simp
    · rfl
    · rfl
  | none =>
    have hall := firstFree_none _ _ hff
    let free : DirectoryEntry :=
      { DirectoryEntry.ofBytes (junkBytes junk SIZEOF_ENTRY) with inUse := false }
    have hres : List.modify (fun e : DirectoryEntry => { e with inUse := false }) raw.tableSize
        (Directory.resize junk raw.table (raw.tableSize + 1)) = raw.table ++ [free] := by
      unfold Directory.resize
      rw [List.take_of_length_le (by omega), hlen]
      simp only [Nat.add_sub_cancel_left, List.replicate_one]
      exact modify_append_cons _ _ _ _ _ hlen.symm
    have hidx2 : Directory.FindIndex
        { table := raw.table ++ [free], tableSize := raw.tableSize + 1 } name = -1 := by
      rw [FindIndex_eq_neg_one_iff _ _ (by simp [hlen])]
      simp only [List.find?_append, habs, Option.none_or, List.find?_cons]
      have : DirectoryEntry.holds name free = false := by
        simp [DirectoryEntry.holds, free]
      simp [this]
    refine ⟨raw.table,
      { inUse := true, name := strncpy free.name name FILE_NAME_MAX_LEN, sector := s }, [],
      ?_, hall, ?_, ?_,
      nameKey_strncpy free.name name (ofBytes_name_length _),
      strncpy_length free.name name (ofBytes_name_length _),
      Or.inr ⟨rfl, rfl, by rw [List.take_of_length_le (le_of_eq hlen), hff]; rfl⟩⟩
    · simp only [Directory.Add, Directory.AddFuel, hidx, bne_self_eq_false, Bool.false_eq_true,
        if_false, List.take_of_length_le (le_of_eq hlen), hff, hres, u32_of_lt _ hsize, hidx2]
      rw [List.take_of_length_le (by simp [hlen]),
        firstFree_of_all_used raw.table free [] 0 hall rfl]
      simp only [Directory.fill]
      rw [modify_append_cons _ _ _ _ _ (by omega)]
      congr 2
      simp [hlen]
    · rfl
    · rfl

theorem find_holds_of_absent (name : List Nat) (l : List DirectoryEntry)
    (h : l.find? (DirectoryEntry.holds name) = none) : ∀ x ∈ l, x.holds name = false := by
  intro x hx
  have := List.find?_eq_none.mp h x hx
  simpa using this

theorem find_after_add_same (name : List Nat) (pre post : List DirectoryEntry)
    (e : DirectoryEntry) (hpre : ∀ x ∈ pre, x.holds name = false) (he : e.holds name = true) :
    (pre ++ e :: post).find? (DirectoryEntry.holds name) = some e := by
  rw [List.find?_append, List.find?_eq_none.mpr (by simpa using hpre)]
  simp [List.find?_cons, he]

theorem find_after_fill_other (n : List Nat) (pre post : List DirectoryEntry)
    (e e0 : DirectoryEntry) (he : e.holds n = false) (he0 : e0.holds n = false) :
    (pre ++ e :: post).find? (DirectoryEntry.holds n) =
      (pre ++ e0 :: post).find? (DirectoryEntry.holds n) := by
  simp [List.find?_append, List.find?_cons, he, he0]

theorem find_after_grow_other (n : List Nat) (pre : List DirectoryEntry)
    (e : DirectoryEntry) (he : e.holds n = false) :
    (pre ++ [e]).find? (DirectoryEntry.holds n) = pre.find? (DirectoryEntry.holds n) := by
  simp [List.find?_append, List.find?_cons, he]

theorem holds_false_of_key_ne (n name : List Nat) (e : DirectoryEntry)
    (hk : nameKey e.name = nameKey name) (hne : nameKey n ≠ nameKey name) :
    e.holds n = false := by
  cases h : e.holds n with
  | false => rfl
  | true => exact absurd (((holds_iff n e).1 h).2.symm.trans hk) hne

theorem holds_false_of_free (n : List Nat) (e : DirectoryEntry) (h : e.inUse = false) :
    e.holds n = false := by
  simp [DirectoryEntry.holds, h]

theorem countFree_of_all_used (l : List DirectoryEntry) (h : ∀ x ∈ l, x.inUse = true) :
    countFree l = 0 := by
  unfold countFree
  rw [List.countP_eq_zero]
  intro x hx
  simp [h x hx]

theorem Add_step (junk : Nat → Nat) (raw : Directory) (name : List Nat) (s : Int)
    (hwf : raw.WellFormed) (habs : raw.table.find? (DirectoryEntry.holds name) = none)
    (hsize : raw.tableSize + 1 < 4294967296) :
    ∃ raw' e,
      Directory.Add junk raw name s = .ok (true, raw') ∧ raw'.WellFormed ∧
      raw'.table.find? (DirectoryEntry.holds name) = some e ∧ e.sector = s ∧
      (∀ n, nameKey n ≠ nameKey name →
        raw'.table.find? (DirectoryEntry.holds n) = raw.table.find? (DirectoryEntry.holds n)) ∧
      (∀ x ∈ raw'.table, x.inUse = true → x ∈ raw.table ∨ nameKey x.name = nameKey name) ∧
      (((Directory.firstFree (raw.table.take raw.tableSize) 0).isSome = true ∧
          raw'.tableSize = raw.tableSize ∧ countFree raw'.table + 1 = countFree raw.table) ∨
        ((Directory.firstFree (raw.table.take raw.tableSize) 0).isSome = false ∧
          raw'.tableSize = raw.tableSize + 1 ∧ countFree raw.table = 0 ∧
          countFree raw'.table = 0)) := by
  obtain ⟨hlen, hnames⟩ := hwf
  obtain ⟨pre, e, post, hadd, hpre, heu, hes, hek, hel, halt⟩ :=
    Add_absent junk raw name s hlen hnames habs hsize
  have hnone := find_holds_of_absent name raw.table habs
  have heh : e.holds name = true := (holds_iff name e).2 ⟨heu, hek⟩
  refine ⟨_, e, hadd, ?_, ?_, hes, ?_, ?_, ?_⟩
  · refine ⟨rfl, ?_⟩
    intro x hx
    rcases halt with ⟨e0, hl, _, _⟩ | ⟨hl, hp, _⟩
    · rcases List.mem_append.mp hx with hx | hx
      · exact hnames x (by rw [hl]; exact List.mem_append_left _ hx)
      · rcases List.mem_cons.mp hx with rfl | hx
        · exact hel
        · exact hnames x (by rw [hl]; simp [hx])
    · subst hp
      rcases List.mem_append.mp hx with hx | hx
      · exact hnames x (by rw [hl]; exact hx)
      · rcases List.mem_cons.mp hx with rfl | hx
        · exact hel
        · cases hx
  · apply find_after_add_same name pre post e _ heh
    intro x hx
    rcases halt with ⟨e0, hl, _, _⟩ | ⟨hl, _, _⟩
    · exact hnone x (by rw [hl]; exact List.mem_append_left _ hx)
    · exact hnone x (by rw [hl]; exact hx)
  · intro n hn
    have hen : e.holds n = false := holds_false_of_key_ne n name e hek hn
    rcases halt with ⟨e0, hl, he0, _⟩ | ⟨hl, hp, _⟩
    · rw [hl]
      exact find_after_fill_other n pre post e e0 hen (holds_false_of_free n e0 he0)
    · subst hp; rw [hl]
      exact find_after_grow_other n pre e hen
  · intro x hx hxu
    rcases halt with ⟨e0, hl, _, _⟩ | ⟨hl, hp, _⟩
    · rcases List.mem_append.mp hx with hx | hx
      · exact Or.inl (by rw [hl]; exact List.mem_append_left _ hx)
      · rcases List.mem_cons.mp hx with rfl | hx
        · exact Or.inr hek
        · exact Or.inl (by rw [hl]; simp [hx])
    · subst hp
      rcases List.mem_append.mp hx with hx | hx
      · exact Or.inl (by rw [hl]; exact hx)
      · rcases List.mem_cons.mp hx with rfl | hx
        · exact Or.inr hek
        · cases hx
  · rcases halt with ⟨e0, hl, he0, hff⟩ | ⟨hl, hp, hff⟩
    · refine Or.inl ⟨hff, ?_, ?_⟩
      · show (pre ++ e :: post).length = raw.tableSize
        rw [← hlen, hl]; simp
      · show countFree (pre ++ e :: post) + 1 = countFree raw.table
        rw [hl]
        simp [countFree, List.countP_append, List.countP_cons, heu, he0]
        omega
    · subst hp
      refine Or.inr ⟨hff, ?_, ?_, ?_⟩
      · show (pre ++ [e]).length = raw.tableSize + 1
        rw [← hlen, hl]; simp
      · rw [hl]; exact countFree_of_all_used pre hpre
      · show countFree (pre ++ [e]) = 0
        apply countFree_of_all_used
        intro x hx
        rcases List.mem_append.mp hx with hx | hx
        · exact hpre x hx
        · rcases List.mem_cons.mp hx with rfl | hx
          · exact heu
          · cases hx

theorem tableOfBytes_length (n : Nat) (bytes : List Nat) : (tableOfBytes n bytes).length = n := by
  induction n generalizing bytes with
  | zero => rfl
  | succ n ih => simp [tableOfBytes, ih]

theorem tableOfBytes_names (n : Nat) (bytes : List Nat) :
    ∀ e ∈ tableOfBytes n bytes, e.name.length = FILE_NAME_MAX_LEN + 1 := by
  induction n generalizing bytes with
  | zero => intro e he; cases he
  | succ n ih =>
    intro e he
    rcases List.mem_cons.mp he with rfl | he
    · exact ofBytes_name_length _
    · exact ih _ e he

theorem new_spec (junk : Nat → Nat) (c : Nat) (hc : 0 < c) :
    ∃ raw, Directory.new junk c = .ok raw ∧ raw.WellFormed ∧ raw.tableSize = c ∧
      (∀ e ∈ raw.table, e.inUse = false) ∧ countFree raw.table = c := by
  refine ⟨{ table := (tableOfBytes c (junkBytes junk (SIZEOF_ENTRY * c))).map
                       (fun e => { e with inUse := false }),
            tableSize := c },
    by simp only [Directory.new, hc, if_true], ⟨?_, ?_⟩, rfl, ?_, ?_⟩
  · simp [tableOfBytes_length]
  · intro e he
    obtain ⟨x, hx, rfl⟩ := List.mem_map.mp he
    exact tableOfBytes_names _ _ x hx
  · intro e he
    obtain ⟨x, _, rfl⟩ := List.mem_map.mp he
    rfl
  · simp [countFree, List.countP_map, tableOfBytes_length, Function.comp_def]

theorem addAll_spec (junk : Nat → Nat) (c : Nat) :
    ∀ (items : List (List Nat × Int)) (raw : Directory) (i : Nat) (K : List (List Nat)),
      raw.WellFormed → (∀ e ∈ raw.table, e.inUse = true → nameKey e.name ∈ K) →
      countFree raw.table = c - i → raw.tableSize = max c i →
      (∀ p ∈ items, nameKey p.1 ∉ K) → (items.map (fun p => nameKey p.1)).Nodup →
      max c (i + items.length) + 1 < 4294967296 →
      ∃ last,
        Directory.addAll junk raw items =
          .ok ((List.range items.length).map
                (fun j => (true, decide (i + j < c), max c (i + j + 1))), last) ∧
        last.WellFormed ∧ last.tableSize = max c (i + items.length) ∧
        (∀ p ∈ items, last.Find p.1 = p.2) ∧
        (∀ n, nameKey n ∉ items.map (fun p => nameKey p.1) →
          last.table.find? (DirectoryEntry.holds n) =
            raw.table.find? (DirectoryEntry.holds n)) := by
  intro items
  induction items with
  | nil =>
    intro raw i K hwf _ _ hsz _ _ _
    exact ⟨raw, rfl, hwf, (by simpa using hsz), (by intro p hp; cases hp), fun _ _ => rfl⟩
  | cons p rest ih =>
    obtain ⟨name, s⟩ := p
    intro raw i K hwf hK hfree hsz hnew hnodup hbound
    simp only [List.map_cons, List.nodup_cons, List.length_cons] at hnodup hbound
    obtain ⟨hname, hrest⟩ := hnodup
    have habs : raw.table.find? (DirectoryEntry.holds name) = none := by
      rw [List.find?_eq_none]
      intro x hx hh
      have := (holds_iff name x).1 hh
      exact hnew (name, s) (List.mem_cons_self _ _) (this.2 ▸ hK x hx this.1)
    obtain ⟨raw1, e, hadd, hwf1, hfind1, hes, hother, hused, hgrow⟩ :=
      Add_step junk raw name s hwf habs (by rw [hsz]; omega)
    have hK1 : ∀ x ∈ raw1.table, x.inUse = true → nameKey x.name ∈ nameKey name :: K := by
      intro x hx hxu
      rcases hused x hx hxu with h | h
      · exact List.mem_cons_of_mem _ (hK x h hxu)
      · rw [h]; exact List.mem_cons_self _ _
    have hnew1 : ∀ p ∈ rest, nameKey p.1 ∉ nameKey name :: K := by
      intro p hp hmem
      rcases List.mem_cons.mp hmem with h | h
      · exact hname (List.mem_map.mpr ⟨p, hp, h⟩)
      · exact hnew p (List.mem_cons_of_mem _ hp) h
    have hstate : (Directory.firstFree (raw.table.take raw.tableSize) 0).isSome = decide (i < c) ∧
        raw1.tableSize = max c (i + 1) ∧ countFree raw1.table = c - (i + 1) := by
      rcases hgrow with ⟨hff, hs1, hc1⟩ | ⟨hff, hs1, hc0, hc1⟩
      · have : i < c := by omega
        refine ⟨by simp [hff, this], ?_, by omega⟩
        rw [hs1, hsz]; omega
      · have : ¬ i < c := by omega
        refine ⟨by simp [hff, this], ?_, by omega⟩
        rw [hs1, hsz]; omega
    obtain ⟨hff, hs1, hc1⟩ := hstate
    obtain ⟨last, hall, hwfl, hszl, hfindl, hkeep⟩ :=
      ih raw1 (i + 1) (nameKey name :: K) hwf1 hK1 hc1 hs1 hnew1 hrest
        (by have : i + 1 + rest.length = i + (rest.length + 1) := by omega
            rw [this]; exact hbound)
    refine ⟨last, ?_, hwfl, ?_, ?_, ?_⟩
    · simp only [Directory.addAll, hadd, hall, bind, Except.bind, pure, Except.pure, hff, hs1]
      simp only [List.length_cons]
      rw [List.range_succ_eq_map, List.map_cons, List.map_map]
      simp only [Nat.add_zero]
      congr 3
      apply List.map_congr_left
      intro j _
      simp only [Function.comp, Nat.succ_eq_add_one]
      have h1 : i + 1 + j = i + (j + 1) := by omega
      rw [h1]
    · rw [hszl, List.length_cons]
      congr 1; omega
    · intro p hp
      rcases List.mem_cons.mp hp with rfl | hp
      · rw [Find_eq last _ hwfl.1, hkeep name hname, hfind1]
        simpa using hes
      · exact hfindl p hp
    · intro n hn
      simp only [List.map_cons, List.mem_cons, not_or] at hn
      rw [hkeep n hn.2, hother n hn.1]

/-! ### Table of open files, and what a read leaves of the globals -/

theorem findByKey_sector (s : Nat) (l : List FileTableEntry) (e : FileTableEntry)
    (h : FileTable.findByKey s l = some e) : e.sector = s := by
  have := List.find?_some h
  simpa using this

theorem FindBySector_store (t : FileTable) (e : FileTableEntry) (s : Nat) :
    (t.store e).FindBySector s =
      if s = e.sector then (t.FindBySector s).map (fun _ => e) else t.FindBySector s := by
  obtain ⟨count, table⟩ := t
  simp only [FileTable.store, FileTable.FindBySector, FileTable.findByKey]
  induction table with
  | nil => simp
  | cons x xs ih =>
    simp only [List.map_cons, List.find?_cons]
    rw [ih]
    by_cases hxe : x.sector = e.sector
    · have h1 : (x.sector == e.sector) = true := by simpa using hxe
      simp only [h1, if_true]
      by_cases hs : s = e.sector
      · subst hs
        simp only [h1, beq_self_eq_true, if_true, Option.map_some']
      · have h2 : (e.sector == s) = false := by simpa using Ne.symm hs
        have h3 : (x.sector == s) = false := by rw [hxe]; exact h2
        simp only [h2, h3, hs, if_false]
    · have h1 : (x.sector == e.sector) = false := by simpa using hxe
      simp only [h1, Bool.false_eq_true, if_false]
      by_cases hs : s = e.sector
      · subst hs
        simp only [h1, if_true]
      · simp only [hs, if_false]

theorem still_store (t : FileTable) (e e0 : FileTableEntry)
    (h0 : t.FindBySector e.sector = some e0) (he : e.still = e0.still) (s : Nat) :
    ((t.store e).FindBySector s).map FileTableEntry.still =
      (t.FindBySector s).map FileTableEntry.still := by
  rw [FindBySector_store]
  by_cases hs : s = e.sector
  · subst hs; simp [h0, he]
  · simp [hs]

theorem RequestRead_ok (e v : FileTableEntry) (h : e.RequestRead = .ok v) :
    v.still = e.still ∧ v.sector = e.sector := by
  unfold FileTableEntry.RequestRead at h
  split at h
  · cases h
  · cases h
    simp only [FileTableEntry.still, and_self]

theorem ReadFree_still (e : FileTableEntry) :
    e.ReadFree.still = e.still ∧ e.ReadFree.sector = e.sector := by
  constructor
  · unfold FileTableEntry.ReadFree FileTableEntry.still
    simp only
  · unfold FileTableEntry.ReadFree
    rfl

theorem sameButReaders_refl (k : Kernel) : k.sameButReaders k := ⟨rfl, fun _ => rfl⟩

theorem sameButReaders_trans (k k1 k2 : Kernel) (h1 : k.sameButReaders k1)
    (h2 : k1.sameButReaders k2) : k.sameButReaders k2 :=
  ⟨h2.1.trans h1.1, fun s => (h2.2 s).trans (h1.2 s)⟩

theorem sameButReaders_store (k : Kernel) (e e0 : FileTableEntry)
    (h0 : k.files.FindBySector e.sector = some e0) (he : e.still = e0.still) :
    k.sameButReaders { k with files := k.files.store e } :=
  ⟨rfl, fun s => still_store k.files e e0 h0 he s⟩

theorem sameButReaders_release (k : Kernel) (sector : Nat) :
    k.sameButReaders
      (match k.files.FindBySector sector with
       | none => k
       | some e => { k with files := k.files.store e.ReadFree }) := by
  cases hf : k.files.FindBySector sector with
  | none => exact sameButReaders_refl k
  | some e =>
    have hes : e.sector = sector := findByKey_sector _ _ _ hf
    apply sameButReaders_store k e.ReadFree e _ (ReadFree_still e).1
    rw [(ReadFree_still e).2, hes]; exact hf

theorem ReadAt_kernel (k : Kernel) (f : OpenFile) (numBytes position : Nat) (bypass : Bool)
    (r : Nat × List Nat × OpenFile × Kernel)
    (h : f.ReadAt k numBytes position bypass = .ok r) : k.sameButReaders r.2.2.2 := by
  unfold OpenFile.ReadAt at h
  simp only [bind, Except.bind, pure, Except.pure, throw, throwThe, MonadExceptOf.throw] at h
  by_cases hb : bypass = true
  · subst hb
    simp only [Bool.not_true, Bool.false_eq_true, if_false] at h
    repeat' (first | cases h | split at h)
    all_goals exact sameButReaders_refl k
  · have hb' : bypass = false := by simpa using hb
    subst hb'
    simp only [Bool.not_false, if_true] at h
    cases he : k.files.FindBySector f.sector with
    | none => rw [he] at h; simp only at h; split at h <;> cases h
    | some e =>
      cases hv : e.RequestRead with
      | error err => rw [he] at h; simp only [hv] at h; split at h <;> cases h
      | ok v =>
        rw [he] at h; simp only [hv] at h
        obtain ⟨hstill, hsec⟩ := RequestRead_ok e v hv
        have h1 : k.sameButReaders { k with files := k.files.store v } :=
          sameButReaders_store k v e
            (by rw [hsec, findByKey_sector _ _ _ he]; exact he) hstill
        have h2 := sameButReaders_release { k with files := k.files.store v } f.sector
        repeat' (first | cases h | split at h)
        all_goals exact sameButReaders_trans _ _ _ h1 h2

theorem Directory_FetchFrom_kernel (junk : Nat → Nat) (k : Kernel) (raw : Directory)
    (file : OpenFile) (r : Directory × OpenFile × Kernel)
    (h : raw.FetchFrom junk k file = .ok r) : k.sameButReaders r.2.2 := by
  unfold Directory.FetchFrom at h
  simp only [bind, Except.bind, pure, Except.pure] at h
  cases h1 : file.ReadAt k 1 0 false with
  | error err => rw [h1] at h; cases h
  | ok r1 =>
    rw [h1] at h
    obtain ⟨n1, size, file1, k1⟩ := r1
    simp only at h
    split at h
    · cases h
    · rename_i r2 h2
      cases h
      exact sameButReaders_trans _ _ _ (ReadAt_kernel _ _ _ _ _ _ h1) (ReadAt_kernel _ _ _ _ _ _ h2)

theorem Bitmap_FetchFrom_kernel (k : Kernel) (b : Bitmap) (file : OpenFile)
    (r : Bitmap × OpenFile × Kernel) (h : b.FetchFrom k file = .ok r) :
    k.sameButReaders r.2.2 := by
  unfold Bitmap.FetchFrom at h
  simp only [bind, Except.bind, pure, Except.pure] at h
  split at h
  · cases h
  · rename_i r1 h1
    cases h
    exact ReadAt_kernel _ _ _ _ _ _ h1

theorem persistedDirectory_ok (junk : Nat → Nat) (k : Kernel) (fs : FileSystem) (dir : Directory)
    (h : persistedDirectory junk k fs = .ok dir) :
    ∃ d0 file k1, Directory.new junk NUM_DIR_ENTRIES = .ok d0 ∧
      d0.FetchFrom junk k fs.directoryFile = .ok (dir, file, k1) ∧ k.sameButReaders k1 := by
  unfold persistedDirectory at h
  simp only [bind, Except.bind, pure, Except.pure] at h
  split at h
  · cases h
  · rename_i d0 h0
    split at h
    · cases h
    · rename_i r1 h1
      obtain ⟨dir1, file, k1⟩ := r1
      cases h
      exact ⟨d0, file, k1, h0, h1, Directory_FetchFrom_kernel _ _ _ _ _ h1⟩

theorem persistedBitmap_ok (junk : Nat → Nat) (k : Kernel) (fs : FileSystem) (freeMap : Bitmap)
    (h : persistedBitmap junk k fs = .ok freeMap) :
    ∃ b0 file k1, Bitmap.new junk k.synchDisk.numSectors = .ok b0 ∧
      b0.FetchFrom k fs.freeMapFile = .ok (freeMap, file, k1) ∧ k.sameButReaders k1 := by
  unfold persistedBitmap at h
  simp only [bind, Except.bind, pure, Except.pure] at h
  split at h
  · cases h
  · rename_i b0 h0
    split at h
    · cases h
    · rename_i r1 h1
      obtain ⟨m1, file, k1⟩ := r1
      cases h
      exact ⟨b0, file, k1, h0, h1, Bitmap_FetchFrom_kernel _ _ _ _ h1⟩

theorem entry_of_sameButReaders (k k1 : Kernel) (h : k.sameButReaders k1) (s : Nat)
    (e : FileTableEntry) (he : k.files.FindBySector s = some e) :
    ∃ e1, k1.files.FindBySector s = some e1 ∧ e1.still = e.still := by
  have := h.2 s
  rw [he] at this
  cases h1 : k1.files.FindBySector s with
  | none => rw [h1] at this; cases this
  | some e1 =>
    rw [h1] at this
    exact ⟨e1, rfl, by simpa using this⟩

theorem none_of_sameButReaders (k k1 : Kernel) (h : k.sameButReaders k1) (s : Nat)
    (he : k.files.FindBySector s = none) : k1.files.FindBySector s = none := by
  have := h.2 s
  rw [he] at this
  cases h1 : k1.files.FindBySector s with
  | none => rfl
  | some e1 => rw [h1] at this; cases this

theorem still_fields (e1 e : FileTableEntry) (h : e1.still = e.still) :
    e1.openCount = e.openCount ∧ e1.deleted = e.deleted ∧ e1.sector = e.sector ∧
      e1.name = e.name ∧ e1.writing = e.writing := by
  unfold FileTableEntry.still at h
  cases e1; cases e
  simp only [FileTableEntry.mk.injEq] at h
  simp only [h, and_self]

theorem findByKey_sortedInsert (e : FileTableEntry) (l : List FileTableEntry)
    (h : FileTable.findByKey e.sector l = none) :
    FileTable.findByKey e.sector (FileTable.sortedInsert e l) = some e := by
  induction l with
  | nil => simp [FileTable.sortedInsert, FileTable.findByKey]
  | cons x xs ih =>
    unfold FileTable.findByKey at h ih ⊢
    rw [List.find?_cons] at h
    cases hx : (x.sector == e.sector) with
    | true => rw [hx] at h; cases h
    | false =>
      rw [hx] at h
      simp only [FileTable.sortedInsert]
      split
      · simp [List.find?_cons]
      · rw [List.find?_cons, hx]
        exact ih h

theorem AddLink_openCount (t : FileTable) (s : Nat) (name : List Nat) :
    ((t.AddLink s name).FindBySector s).map (fun e => e.openCount) =
      some (u32 (((t.FindBySector s).map (fun e => e.openCount)).getD 0 + 1)) := by
  unfold FileTable.AddLink
  cases hf : t.FindBySector s with
  | none =>
    simp only [Option.map_none', Option.getD_none]
    have := findByKey_sortedInsert (FileTableEntry.new s name) t.table hf
    unfold FileTable.FindBySector
    simp only [FileTableEntry.new] at this ⊢
    rw [this]
    rfl
  | some file =>
    have hs : file.sector = s := findByKey_sector _ _ _ hf
    simp only [Option.map_some', Option.getD_some]
    rw [FindBySector_store]
    simp only [hs, if_true, hf, Option.map_some']

theorem FetchFrom_ok (disk : Disk) (s : Nat) (h : s < disk.numSectors) :
    ∃ hdr, FileHeader.FetchFrom disk s = .ok hdr := by
  simp only [FileHeader.FetchFrom, Disk.ReadSector, h, if_true, bind, Except.bind, pure,
    Except.pure]
  exact ⟨_, rfl⟩

/-! ### Allocation from sector 0 -/

theorem allocDirect_allocated (n : Nat) :
    ∀ (fuel : Nat) (ds : List Nat) (fm : Bitmap) (a : Nat), NUM_DIRECT ≤ a + fuel →
      (FileHeader.allocDirect n fuel ds fm a).2.2 = max a (min NUM_DIRECT n) := by
  intro fuel
  induction fuel with
  | zero =>
    intro ds fm a h
    simp only [FileHeader.allocDirect]
    omega
  | succ fuel ih =>
    intro ds fm a h
    simp only [FileHeader.allocDirect]
    split
    · rename_i hc
      rw [ih _ _ _ (by omega)]
      omega
    · rename_i hc
      simp only
      omega

theorem allocIndirect_allocated (n : Nat) :
    ∀ (fuel : Nat) (ind : IndirectRawFileHeader) (fm : Bitmap) (a : Nat),
      NUM_DIRECT + NUM_INDIRECT ≤ a + fuel →
      (FileHeader.allocIndirect n fuel ind fm a).2.2 = max a (min (NUM_DIRECT + NUM_INDIRECT) n) := by
  intro fuel
  induction fuel with
  | zero =>
    intro ds fm a h
    simp only [FileHeader.allocIndirect]
    omega
  | succ fuel ih =>
    intro ds fm a h
    simp only [FileHeader.allocIndirect]
    split
    · rename_i hc
      rw [ih _ _ _ (by omega)]
      omega
    · rename_i hc
      simp only
      omega

theorem allocLeaf_allocated (n : Nat) :
    ∀ (fuel j : Nat) (leaf : IndirectRawFileHeader) (fm : Bitmap) (a : Nat),
      NUM_INDIRECT ≤ j + fuel →
      (FileHeader.allocLeaf n fuel j leaf fm a).2.2 = a + min (NUM_INDIRECT - j) (n - a) := by
  intro fuel
  induction fuel with
  | zero =>
    intro j leaf fm a h
    simp only [FileHeader.allocLeaf]
    omega
  | succ fuel ih =>
    intro j leaf fm a h
    simp only [FileHeader.allocLeaf]
    split
    · rename_i hc
      rw [ih _ _ _ _ (by omega)]
      omega
    · rename_i hc
      simp only
      omega

theorem allocLeaves_allocated (n : Nat) :
    ∀ (r i : Nat) (st st' : FileHeader.LeafLoop),
      FileHeader.allocLeaves n 0 r i st = .ok st' →
      st'.allocated = max st.allocated (min n (st.allocated + NUM_INDIRECT * r)) := by
  intro r
  induction r with
  | zero =>
    intro i st st' h
    simp only [FileHeader.allocLeaves] at h
    cases h
    omega
  | succ r ih =>
    intro i st st' h
    have hj : ¬ (NUM_DIRECT + NUM_INDIRECT + NUM_INDIRECT * i ≤ 0 ∧
        0 < NUM_DIRECT + NUM_INDIRECT + NUM_INDIRECT * (i + 1)) := by
      simp only [NUM_DIRECT, NUM_INDIRECT]; omega
    simp only [FileHeader.allocLeaves, bind, Except.bind, pure, Except.pure, Nat.zero_le, if_true,
      hj, if_false] at h
    split at h
    · cases h
    · rename_i disk hw
      have := ih _ _ _ h
      rw [this]
      simp only
      rw [allocLeaf_allocated n NUM_INDIRECT 0 _ _ _ (by omega)]
      simp only [NUM_INDIRECT]
      omega

theorem Allocate_fresh (junk : Nat → Nat) (disk : Disk) (raw : FileHeader) (fm : Bitmap)
    (size : Nat) (r : Bool × FileHeader × Bitmap × Disk)
    (h : FileHeader.Allocate junk disk raw fm size 0 = .ok r)
    (hroom : ¬ fm.CountClear < DivRoundUp size SECTOR_SIZE) : r.1 = true := by
  unfold FileHeader.Allocate at h
  have hn : DivRoundUp size SECTOR_SIZE ≤ 33554432 := by
    unfold SECTOR_SIZE
    rw [DivRoundUp_of_128]
    unfold u32
    omega
  generalize DivRoundUp size SECTOR_SIZE = n at h hn hroom
  simp only [bind, Except.bind, pure, Except.pure, hroom, if_false, Nat.zero_le, if_true] at h
  have hD : ∀ ds fm, (FileHeader.allocDirect n NUM_DIRECT ds fm 0).2.2 = min NUM_DIRECT n := by
    intro ds fm
    rw [allocDirect_allocated n NUM_DIRECT ds fm 0 (by omega)]; omega
  have hI : ∀ ind fm a, (FileHeader.allocIndirect n (NUM_DIRECT + NUM_INDIRECT) ind fm a).2.2 =
      max a (min (NUM_DIRECT + NUM_INDIRECT) n) := by
    intro ind fm a
    exact allocIndirect_allocated n _ ind fm a (by omega)
  simp only [hD, hI] at h
  split at h
  · split at h
    · cases h
    · split at h
      · split at h
        · cases h
        · rename_i hA _ _ _ hB _ st hst
          have hst' := allocLeaves_allocated n _ _ _ _ hst
          simp only at hst'
          clear hst
          split at h
          · cases h
          · cases h
            simp only [beq_iff_eq]
            rw [hst']
            unfold NUM_DIRECT NUM_INDIRECT at *
            simp only [DivRoundUp_of_32] at *
            unfold usub u32 at *
            omega
      · rename_i hA _ _ _ hB
        cases h
        simp only [beq_iff_eq]
        unfold NUM_DIRECT NUM_INDIRECT at *
        omega
  · split at h
    · split at h
      · cases h
      · rename_i hA hB _ st hst
        have hst' := allocLeaves_allocated n _ _ _ _ hst
        simp only at hst'
        clear hst
        split at h
        · cases h
        · cases h
          simp only [beq_iff_eq]
          rw [hst']
          unfold NUM_DIRECT NUM_INDIRECT at *
          simp only [DivRoundUp_of_32] at *
          unfold usub u32 at *
          omega
    · rename_i hA hB
      cases h
      simp only [beq_iff_eq]
      unfold NUM_DIRECT NUM_INDIRECT at *
      omega

theorem Allocate_of_no_room (junk : Nat → Nat) (disk : Disk) (raw : FileHeader)
    (freeMap : Bitmap) (fileSize initialSector : Nat)
    (h : freeMap.CountClear < DivRoundUp fileSize SECTOR_SIZE) :
    FileHeader.Allocate junk disk raw freeMap fileSize initialSector =
      .ok (false,
           { isDirectory := raw.isDirectory, numBytes := fileSize,
             numSectors := DivRoundUp fileSize SECTOR_SIZE, dataSectors := raw.dataSectors },
           freeMap, disk) := by
  simp only [FileHeader.Allocate, h, pure, Except.pure, bind, Except.bind, if_true]

theorem Allocate_fresh_false (junk : Nat → Nat) (disk : Disk) (raw : FileHeader) (fm : Bitmap)
    (size : Nat) (raw' : FileHeader) (fm' : Bitmap) (disk' : Disk)
    (h : FileHeader.Allocate junk disk raw fm size 0 = .ok (false, raw', fm', disk')) :
    disk' = disk ∧ fm.CountClear < DivRoundUp size SECTOR_SIZE := by
  by_cases hroom : fm.CountClear < DivRoundUp size SECTOR_SIZE
  · rw [Allocate_of_no_room junk disk raw fm size 0 hroom] at h
    cases h
    exact ⟨rfl, hroom⟩
  · have := Allocate_fresh junk disk raw fm size _ h hroom
    cases this

/-! ### Expansion that fails -/

theorem AddLink_entry (t : FileTable) (s : Nat) (name : List Nat) :
    (t.AddLink s name).FindBySector s =
      some (match t.FindBySector s with
            | none => FileTableEntry.new s name
            | some file => { file with openCount := u32 (file.openCount + 1) }) := by
  unfold FileTable.AddLink
  cases hf : t.FindBySector s with
  | none =>
    have := findByKey_sortedInsert (FileTableEntry.new s name) t.table hf
    unfold FileTable.FindBySector
    simp only [FileTableEntry.new] at this ⊢
    rw [this]
  | some file =>
    have hs : file.sector = s := findByKey_sector _ _ _ hf
    simp only
    rw [FindBySector_store]
    simp only [hs, if_true, hf, Option.map_some']

theorem RemoveLink_live (t : FileTable) (s : Nat)
    (h : ∀ e, t.FindBySector s = some e → e.deleted = false) : (t.RemoveLink s).1 = none := by
  unfold FileTable.RemoveLink
  cases hf : t.FindBySector s with
  | none => rfl
  | some file =>
    have hd := h file hf
    simp only [hd, Bool.false_eq_true, if_false]
    split <;> rfl

theorem ReadAt_sector (k : Kernel) (f : OpenFile) (numBytes position : Nat) (bypass : Bool)
    (r : Nat × List Nat × OpenFile × Kernel)
    (h : f.ReadAt k numBytes position bypass = .ok r) : r.2.2.1.sector = f.sector := by
  unfold OpenFile.ReadAt at h
  simp only [bind, Except.bind, pure, Except.pure, throw, throwThe, MonadExceptOf.throw] at h
  repeat' (first | cases h | split at h)
  all_goals rfl

theorem Bitmap_FetchFrom_sector (k : Kernel) (b : Bitmap) (file : OpenFile)
    (r : Bitmap × OpenFile × Kernel) (h : b.FetchFrom k file = .ok r) :
    r.2.1.sector = file.sector := by
  unfold Bitmap.FetchFrom at h
  simp only [bind, Except.bind, pure, Except.pure] at h
  split at h
  · cases h
  · rename_i r1 h1
    cases h
    exact ReadAt_sector _ _ _ _ _ _ h1

theorem FileExpandWith_of_failed_allocate
    (writeAt : Kernel → OpenFile → List Nat → Nat → Nat → Except Fault (Nat × OpenFile × Kernel))
    (junk : Nat → Nat) (k : Kernel) (raw : FileHeader) (sizeToExpand sector : Nat)
    (freeMap : Bitmap) (raw' : FileHeader) (freeMap' : Bitmap) (disk' : Disk)
    (hmap : FileHeader.fetchedFreeMap junk k = .ok freeMap)
    (hfail : FileHeader.Allocate junk k.synchDisk raw freeMap (u32 (sizeToExpand + raw.numBytes))
      raw.numSectors = .ok (false, raw', freeMap', disk'))
    (hlive : ∀ e, k.files.FindBySector 0 = some e → e.deleted = false) :
    ∃ k', FileHeader.FileExpandWith writeAt junk k raw sizeToExpand sector =
        .ok (false, raw', k') ∧ k'.synchDisk = disk' := by
  unfold FileHeader.fetchedFreeMap at hmap
  simp only [bind, Except.bind, pure, Except.pure] at hmap
  split at hmap
  · cases hmap
  · rename_i r0 h0
    obtain ⟨file0, k1⟩ := r0
    simp only at hmap
    split at hmap
    · cases hmap
    · rename_i b0 hb0
      split at hmap
      · cases hmap
      · rename_i r2 h2
        obtain ⟨fm, file2, k2⟩ := r2
        cases hmap
        have hk1 : k1 = { k with files := k.files.AddLink 0 [] } ∧ file0.sector = 0 := by
          unfold OpenFile.new at h0
          simp only [bind, Except.bind, pure, Except.pure] at h0
          split at h0
          · cases h0
          · cases h0; exact ⟨rfl, rfl⟩
        have hsame := Bitmap_FetchFrom_kernel _ _ _ _ h2
        have hsec : file2.sector = 0 := by
          rw [← hk1.2]; exact Bitmap_FetchFrom_sector _ _ _ _ h2
        simp only at hsame hsec
        have hd1 : k1.synchDisk = k.synchDisk := by rw [hk1.1]
        have hlive2 : ∀ e, k2.files.FindBySector 0 = some e → e.deleted = false := by
          intro e2 he2
          have h1 : ∃ e1, k1.files.FindBySector 0 = some e1 ∧ e1.deleted = false := by
            rw [hk1.1]
            refine ⟨_, AddLink_entry k.files 0 [], ?_⟩
            cases hf : k.files.FindBySector 0 with
            | none => rfl
            | some file => exact hlive file hf
          obtain ⟨e1, he1, hdel1⟩ := h1
          obtain ⟨e2', he2', hstill⟩ := entry_of_sameButReaders k1 k2 hsame 0 e1 he1
          rw [he2] at he2'
          cases he2'
          rw [(still_fields e2 e1 hstill).2.1, hdel1]
        have hrm := RemoveLink_live k2.files 0 hlive2
        refine ⟨{ synchDisk := disk', files := (k2.files.RemoveLink 0).2 }, ?_, rfl⟩
        rw [← hd1, ← hsame.1] at hfail
        simp only [FileHeader.FileExpandWith, bind, Except.bind, pure, Except.pure, h0, hb0, h2,
          hfail, Bool.false_eq_true, if_false, hsec]
        generalize k2.files.RemoveLink 0 = rl at hrm ⊢
        obtain ⟨o, files⟩ := rl
        simp only at hrm
        subst hrm
        rfl

theorem Allocate_sizes (junk : Nat → Nat) (disk : Disk) (raw : FileHeader) (fm : Bitmap)
    (size initialSector : Nat) (r : Bool × FileHeader × Bitmap × Disk)
    (h : FileHeader.Allocate junk disk raw fm size initialSector = .ok r) :
    r.2.1.numBytes = size ∧ r.2.1.numSectors = DivRoundUp size SECTOR_SIZE := by
  unfold FileHeader.Allocate at h
  simp only [bind, Except.bind, pure, Except.pure] at h
  repeat' (first | cases h | split at h)
  all_goals exact ⟨rfl, rfl⟩

theorem ok_valueOr {α : Type} (x : Except Fault α) (d : α) (h : returns x = true) :
    x = .ok (valueOr x d) := by
  cases x with
  | error e => cases h
  | ok a => rfl

/-! ### Claims C11 to C20 -/

/-- C11 (counterexample): after format, `Create("a", 0)` and `Open("a")`,
with 1019 sectors free, `WriteAt` of one byte at the start of file sector 1020
returns 0, and `Length()` of the handle, 0 before the call, is 130561 after
it. -/
theorem C11_length_is_changed :
    runC11 zeroJunk blankDisk =
      .ok { created := true, lengthBefore := 0, freeBefore := 1019, written := 0,
            lengthAfter := 130561 } := by
  decide!

/-- C11 (amended): a `WriteAt` that reaches past the cached length, on a file
that nobody reads or writes, when the bitmap on disk has fewer clear bits than
the sectors of the size asked for (that size divided by `SECTOR_SIZE` and
rounded up), returns 0 and leaves the disk as it was; `Length()` of the handle
is then the size asked for, the bytes missing beyond the cached length added
to the length on disk. -/
theorem C11_writeAt_without_space (junk : Nat → Nat) (k : Kernel) (f : OpenFile)
    (buf : List Nat) (numBytes position : Nat) (e : FileTableEntry) (hdr : FileHeader)
    (freeMap : Bitmap)
    (hn : numBytes ≠ 0)
    (hentry : k.files.FindBySector f.sector = some e)
    (hidle : e.writing = false ∧ e.reading = 0)
    (hhdr : FileHeader.FetchFrom k.synchDisk f.sector = .ok hdr)
    (hext : f.hdr.FileLength < u32 (position + numBytes))
    (hmap : FileHeader.fetchedFreeMap junk
      { k with files := k.files.store { e with writing := true } } = .ok freeMap)
    (hroom : freeMap.CountClear <
      (u32 (usub numBytes (usub f.hdr.FileLength position) + hdr.numBytes) + SECTOR_SIZE - 1) /
        SECTOR_SIZE)
    (hlive : ∀ e0 ∈ k.files.FindBySector 0, e0.deleted = false) :
    ∃ f' k', f.WriteAt junk k buf numBytes position = .ok (0, f', k') ∧
      k'.synchDisk = k.synchDisk ∧
      f'.Length = u32 (usub numBytes (usub f.hdr.FileLength position) + hdr.numBytes) := by
  rw [← DivRoundUp_sector _ (u32_lt _)] at hroom
  have hes : e.sector = f.sector := findByKey_sector _ _ _ hentry
  have hlive1 : ∀ e0, (k.files.store { e with writing := true }).FindBySector 0 = some e0 →
      e0.deleted = false := by
    intro e0 he0
    rw [FindBySector_store] at he0
    by_cases h0 : 0 = e.sector
    · have h0f : f.sector = 0 := by rw [← hes, ← h0]
      have h0' : (0 = ({ e with writing := true } : FileTableEntry).sector) := h0
      rw [if_pos h0', ← h0f, hentry] at he0
      simp only [Option.map_some', Option.some.injEq] at he0
      subst he0
      exact hlive e (by rw [← h0f]; exact hentry)
    · have h0' : ¬ (0 = ({ e with writing := true } : FileTableEntry).sector) := h0
      rw [if_neg h0'] at he0
      exact hlive e0 he0
  obtain ⟨k', hk', hd⟩ := FileExpandWith_of_failed_allocate (OpenFile.WriteAtFuel junk 2) junk
    { k with files := k.files.store { e with writing := true } } hdr
    (usub numBytes (usub f.hdr.FileLength position)) f.sector freeMap _ _ _ hmap
    (Allocate_of_no_room junk k.synchDisk hdr freeMap _ hdr.numSectors hroom) hlive1
  refine ⟨{ hdr := { isDirectory := hdr.isDirectory,
                      numBytes := u32 (usub numBytes (usub f.hdr.FileLength position) + hdr.numBytes),
                      numSectors := DivRoundUp
                        (u32 (usub numBytes (usub f.hdr.FileLength position) + hdr.numBytes))
                        SECTOR_SIZE,
                      dataSectors := hdr.dataSectors },
            seekPosition := f.seekPosition, sector := f.sector }, k', ?_, hd, rfl⟩
  have hrw : e.RequestWrite = .ok { e with writing := true } := by
    simp only [FileTableEntry.RequestWrite, hidle.1, hidle.2, Bool.false_eq_true, Nat.lt_irrefl,
      or_self, if_false]
  unfold OpenFile.WriteAt
  rw [show (3 : Nat) = 2 + 1 from rfl, OpenFile.WriteAtFuel]
  simp only [hn, if_false, hentry, hrw, bind, Except.bind, pure, Except.pure, hhdr, hext, if_true,
    hk', Bool.not_false]

/-- C11 (witness): the amended statement on the small disk, at a `WriteAt` of
one byte at the start of file sector 28 of the empty file `"a"`. -/
theorem C11_writeAt_without_space_witness :
    ∃ f' k', withOpenA.1.WriteAt zeroJunk withOpenA.2.2 [1] 1 (28 * SECTOR_SIZE) = .ok (0, f', k') ∧
      k'.synchDisk = withOpenA.2.2.synchDisk ∧
      f'.Length =
        u32 (usub 1 (usub withOpenA.1.hdr.FileLength (28 * SECTOR_SIZE)) + emptyHeader.numBytes) :=
  C11_writeAt_without_space zeroJunk withOpenA.2.2 withOpenA.1 [1] 1 (28 * SECTOR_SIZE) entryA
    emptyHeader mapA (by decide) (by decide!) (by decide) (by decide!) (by decide!) (by decide!)
    (by decide!) (by decide!)

/-- C12 (counterexample): after format, `Create("a", 0)` and `Open("a")`,
with 1019 sectors free, `FileExpand` of the header by 1020 sectors of bytes
returns false and leaves the pointer table as it was, and the header, which
had `numBytes = 0` and `numSectors = 0`, has `numBytes = 130560` and
`numSectors = 1020` after the call. -/
theorem C12_header_sizes_are_changed :
    runC12 zeroJunk blankDisk =
      .ok { freeBefore := 1019, sizesBefore := (0, 0), expanded := false,
            sizesAfter := (130560, 1020), sameTable := true } := by
  decide!

/-- C12 (amended): `FileExpand` hands to `Allocate` the bitmap fetched from
the disk, the size `sizeToExpand + numBytes` and the first sector
`numSectors`; when that call returns false, and the bitmap file is not marked
as deleted, `FileExpand` returns false with the header and the disk as
`Allocate` left them, so that it writes neither the bitmap file nor the home
sector; `numBytes` of the header is the size asked for and `numSectors` is
that size divided by `SECTOR_SIZE` and rounded up; when the bitmap has fewer
clear bits than that, the disk, the pointer table and the flag of the header
are as before the call. -/
theorem C12_fileExpand_of_failed_allocate (junk : Nat → Nat) (k : Kernel) (raw : FileHeader)
    (sizeToExpand sector : Nat) (freeMap : Bitmap) (raw' : FileHeader) (freeMap' : Bitmap)
    (disk' : Disk)
    (hmap : FileHeader.fetchedFreeMap junk k = .ok freeMap)
    (hfail : FileHeader.Allocate junk k.synchDisk raw freeMap (u32 (sizeToExpand + raw.numBytes))
      raw.numSectors = .ok (false, raw', freeMap', disk'))
    (hlive : ∀ e ∈ k.files.FindBySector 0, e.deleted = false) :
    ∃ k', FileHeader.FileExpand junk k raw sizeToExpand sector = .ok (false, raw', k') ∧
      k'.synchDisk = disk' ∧
      raw'.numBytes = u32 (sizeToExpand + raw.numBytes) ∧
      raw'.numSectors =
        (u32 (sizeToExpand + raw.numBytes) + SECTOR_SIZE - 1) / SECTOR_SIZE ∧
      (freeMap.CountClear <
          (u32 (sizeToExpand + raw.numBytes) + SECTOR_SIZE - 1) / SECTOR_SIZE →
        disk' = k.synchDisk ∧ raw'.dataSectors = raw.dataSectors ∧
        raw'.isDirectory = raw.isDirectory) := by
  obtain ⟨k', hk', hd⟩ := FileExpandWith_of_failed_allocate (OpenFile.WriteAtFuel junk 2) junk k raw
    sizeToExpand sector freeMap raw' freeMap' disk' hmap hfail (fun e he => hlive e he)
  obtain ⟨hb, hs⟩ := Allocate_sizes _ _ _ _ _ _ _ hfail
  rw [DivRoundUp_sector _ (u32_lt _)] at hs
  refine ⟨k', hk', hd, hb, hs, ?_⟩
  intro hroom
  rw [← DivRoundUp_sector _ (u32_lt _)] at hroom
  rw [Allocate_of_no_room junk k.synchDisk raw freeMap _ raw.numSectors hroom] at hfail
  cases hfail
  exact ⟨rfl, rfl, rfl⟩

/-- C12 (witness): the amended statement on the small disk with 27 sectors
free, at an expansion of a header without sectors by 29 sectors of bytes. -/
theorem C12_fileExpand_of_failed_allocate_witness :
    ∃ k', FileHeader.FileExpand zeroJunk withA.2 emptyHeader (29 * SECTOR_SIZE) 4 =
        .ok (false,
             { isDirectory := emptyHeader.isDirectory,
               numBytes := u32 (29 * SECTOR_SIZE + emptyHeader.numBytes),
               numSectors := DivRoundUp (u32 (29 * SECTOR_SIZE + emptyHeader.numBytes)) SECTOR_SIZE,
               dataSectors := emptyHeader.dataSectors }, k') ∧
      k'.synchDisk = withA.2.synchDisk :=
  (C12_fileExpand_of_failed_allocate zeroJunk withA.2 emptyHeader (29 * SECTOR_SIZE) 4 mapA _ mapA
    withA.2.synchDisk (by decide!)
    (Allocate_of_no_room zeroJunk withA.2.synchDisk emptyHeader mapA
      (u32 (29 * SECTOR_SIZE + emptyHeader.numBytes)) emptyHeader.numSectors (by decide!))
    (by decide!)).imp fun _ h => ⟨h.1, h.2.1⟩

/-- C13 (counterexample): after format, `Create("a", 0)` and `Open("a")`,
`Remove("a")` returns false; the entry of the file has `deleted` set, the
directory on disk still gives sector 4 for `"a"` and the bitmap on disk has
1019 clear bits before and after. -/
theorem C13_remove_returns_false :
    runC13 zeroJunk blankDisk =
      .ok { opened := true, removed := false, deleted := some true, found := 4,
            free := (1019, 1019) } := by
  decide!

/-- C13 (amended): `Remove(name)`, for a name of the directory on disk whose
sector has an entry with an open count other than 0, returns false, leaves
the disk as it was, and leaves that entry with `deleted` set and its open
count. -/
theorem C13_remove_of_open_file (junk : Nat → Nat) (k : Kernel) (fs : FileSystem)
    (name : List Nat) (dir : Directory) (e : FileTableEntry)
    (hdir : persistedDirectory junk k fs = .ok dir)
    (hfound : dir.Find name ≠ -1)
    (hentry : k.files.FindBySector (toU32 (dir.Find name)) = some e)
    (hopen : e.openCount ≠ 0) :
    ∃ fs' k', FileSystem.Remove junk k fs name = .ok (false, fs', k') ∧
      k'.synchDisk = k.synchDisk ∧
      (k'.files.FindBySector (toU32 (dir.Find name))).map
        (fun x => (x.deleted, x.openCount)) = some (true, e.openCount) := by
  obtain ⟨d0, file, k1, hnew, hfetch, hsame⟩ := persistedDirectory_ok junk k fs dir hdir
  obtain ⟨e1, he1, hstill⟩ := entry_of_sameButReaders k k1 hsame _ e hentry
  obtain ⟨hoc, _, _, _, _⟩ := still_fields e1 e hstill
  have hsec : e1.sector = toU32 (dir.Find name) := findByKey_sector _ _ _ he1
  have hne : (dir.Find name == -1) = false := by simpa using hfound
  have hcl : (e1.openCount == 0) = false := by rw [hoc]; simpa using hopen
  refine ⟨{ fs with directoryFile := file },
    { k1 with files := k1.files.store { e1 with deleted := true } }, ?_, hsame.1, ?_⟩
  · simp only [FileSystem.Remove, bind, Except.bind, pure, Except.pure, hnew, hfetch, hne, he1,
      hcl, Bool.false_eq_true, if_false]
  · rw [FindBySector_store]
    simp only [hsec, if_true, he1, Option.map_some', hoc]

/-- C13 (witness): the amended statement on the small disk after format,
`Create("a", 0)` and `Open("a")`. -/
theorem C13_remove_of_open_file_witness :
    ∃ fs' k', FileSystem.Remove zeroJunk withOpenA.2.2 withOpenA.2.1 nameA = .ok (false, fs', k') ∧
      k'.synchDisk = withOpenA.2.2.synchDisk ∧
      (k'.files.FindBySector (toU32 (dirA.Find nameA))).map
        (fun x => (x.deleted, x.openCount)) = some (true, entryA.openCount) :=
  C13_remove_of_open_file zeroJunk withOpenA.2.2 withOpenA.2.1 nameA dirA entryA (by decide!)
    (by decide) (by decide!) (by decide)

/-- C14 (evaluation at the failing input): after format,
`Create("a", 60 sectors)`, two `Open("a")` and `Remove("a")`, closing the
first handle frees nothing and closing the last one makes `Find("a")` return
-1, but disk sector 67, which holds the last sector of the file, is still
marked in the bitmap on disk, and sector 0, the header of the bitmap file, is
clear. -/
theorem C14_last_sector_stays_marked :
    runC14 zeroJunk blankDisk =
      .ok { created := true, free := (956, 956, 1017), lastSector := 67, lastMarked := true,
            sectorZeroMarked := false, found := -1 } := by
  decide!

/-- C15 (evaluation at the failing input): after format and
`Create("a", 28 sectors)`, with header sector 4 and indirect block 32,
`Remove("a")` returns true and `Find("a")` is -1 afterwards, but sector 32 is
still marked in the bitmap on disk: of the 1020 sectors free before `Create`,
1019 are free after `Remove`. -/
theorem C15_remove_leaks_indirect_block :
    runC15 zeroJunk blankDisk =
      .ok { created := true, sectors := (4, 32), removed := true, found := -1,
            free := (1020, 990, 1019), controlMarked := true } := by
  decide!

/-- C16 (evaluation at the failing inputs): with 29 sectors free,
`Create("a", 28 sectors)` returns true although the header, the indirect block
and 27 data sectors use up the free sectors, and the header on disk gives
4294967295 for the last sector of the file; with 61 sectors free,
`Create("a", 60 sectors)` does not return: a block is written to sector
4294967295. -/
theorem C16_create_without_room_for_data :
    runC16 zeroJunk blankDisk 29 28 =
      .ok { freeBefore := 29, created := true, numSectors := 28, lastSector := 4294967295 } ∧
    runC16 zeroJunk blankDisk 61 60 = .error .badSector := by
  decide!

/-- C17: when `Create(name, initialSize, isDirectory)` returns false, the
disk after the call is the disk before the call, sector by sector. -/
theorem C17_create_false_writes_nothing (junk : Nat → Nat) (k : Kernel) (fs : FileSystem)
    (name : List Nat) (initialSize : Nat) (isDirectory : Bool)
    (r : Bool × FileSystem × Kernel)
    (hr : FileSystem.Create junk k fs name initialSize isDirectory = .ok r)
    (hfalse : r.1 = false) : r.2.2.synchDisk = k.synchDisk := by
  obtain ⟨b, fs', k'⟩ := r
  simp only at hfalse
  subst hfalse
  have h := hr
  show k'.synchDisk = k.synchDisk
  unfold FileSystem.Create at h
  simp only [bind, Except.bind, pure, Except.pure] at h
  split at h
  · cases h
  · rename_i d0 hd0
    split at h
    · cases h
    · rename_i r1 h1
      have hk1 := (Directory_FetchFrom_kernel _ _ _ _ _ h1).1
      obtain ⟨dir, file, k1⟩ := r1
      simp only at h hk1
      split at h
      · cases h; exact hk1
      · split at h
        · cases h
        · rename_i b0 hb0
          split at h
          · cases h
          · rename_i r2 h2
            have hk2 := (Bitmap_FetchFrom_kernel _ _ _ _ h2).1
            obtain ⟨fm, file2, k2⟩ := r2
            simp only at h hk2
            split at h
            · cases h; exact hk2.trans hk1
            · split at h
              · cases h
              · rename_i r3 h3
                split at h
                · cases h; exact hk2.trans hk1
                · split at h
                  · cases h
                  · rename_i r4 h4
                    obtain ⟨success, hdr, fm4, disk4⟩ := r4
                    simp only at h
                    cases success with
                    | false =>
                      simp only [Bool.not_false, if_true] at h
                      cases h
                      exact (Allocate_fresh_false _ _ _ _ _ _ _ _ h4).1.trans (hk2.trans hk1)
                    | true =>
                      simp only [Bool.not_true, Bool.false_eq_true, if_false] at h
                      repeat' (first | cases h | split at h)

/-- C17 (witness): on the small disk that holds `"a"`, `Create("a", 0)`
returns false and leaves the disk as it was. -/
theorem C17_create_false_writes_nothing_witness :
    (valueOr (FileSystem.Create zeroJunk withA.2 withA.1 nameA 0 false) (true, unmounted)).1 = false ∧
    (valueOr (FileSystem.Create zeroJunk withA.2 withA.1 nameA 0 false)
      (true, unmounted)).2.2.synchDisk = withA.2.synchDisk :=
  ⟨by decide!,
   C17_create_false_writes_nothing zeroJunk withA.2 withA.1 nameA 0 false _
     (ok_valueOr _ _ (by decide!)) (by decide!)⟩

/-- C18: `Open(name)` returns; it returns null exactly when the directory on
disk does not hold the name or the table of open files has an entry with
`deleted` set for its sector; a handle returned is on that sector, with
cursor 0, and the entry of the sector then counts one link more. -/
theorem C18_open_null_or_handle (junk : Nat → Nat) (k : Kernel) (fs : FileSystem)
    (name : List Nat) (dir : Directory)
    (hdir : persistedDirectory junk k fs = .ok dir)
    (hsector : dir.Find name ≠ -1 →
      0 ≤ dir.Find name ∧ toU32 (dir.Find name) < k.synchDisk.numSectors) :
    ∃ h fs' k', FileSystem.Open junk k fs name = .ok (h, fs', k') ∧
      (h = none ↔ dir.Find name = -1 ∨
        ∃ e, k.files.FindBySector (toU32 (dir.Find name)) = some e ∧ e.deleted = true) ∧
      ∀ f, h = some f →
        f.sector = toU32 (dir.Find name) ∧ f.seekPosition = 0 ∧
        (k'.files.FindBySector f.sector).map (fun e => e.openCount) =
          some (u32 (((k.files.FindBySector f.sector).map (fun e => e.openCount)).getD 0 + 1)) := by
  obtain ⟨d0, file, k1, hnew, hfetch, hsame⟩ := persistedDirectory_ok junk k fs dir hdir
  by_cases hfound : dir.Find name = -1
  · refine ⟨none, { fs with directoryFile := file }, k1, ?_, ?_, ?_⟩
    · simp only [FileSystem.Open, bind, Except.bind, pure, Except.pure, hnew, hfetch, hfound]
      rfl
    · simp only [hfound, true_or]
    · intro f hf; cases hf
  · obtain ⟨hpos, hlt⟩ := hsector hfound
    cases he : k.files.FindBySector (toU32 (dir.Find name)) with
    | none =>
      have he1 := none_of_sameButReaders k k1 hsame _ he
      obtain ⟨hdr, hhdr⟩ := FetchFrom_ok k1.synchDisk (toU32 (dir.Find name))
        (by rw [hsame.1]; exact hlt)
      refine ⟨some { hdr := hdr, seekPosition := 0, sector := toU32 (dir.Find name) },
        { fs with directoryFile := file },
        { k1 with files := k1.files.AddLink (toU32 (dir.Find name)) name }, ?_, ?_, ?_⟩
      · simp only [FileSystem.Open, OpenFile.new, bind, Except.bind, pure, Except.pure, hnew,
          hfetch, hpos, if_true, he1, hhdr]
      · simp only [hfound, false_or, reduceCtorEq, false_iff, not_exists, not_and]
        intro e h; cases h
      · intro f hf
        cases hf
        refine ⟨rfl, rfl, ?_⟩
        simp only
        rw [AddLink_openCount, he1, he]
    | some e =>
      obtain ⟨e1, he1, hstill⟩ := entry_of_sameButReaders k k1 hsame _ e he
      obtain ⟨hoc, hdel, _, _, _⟩ := still_fields e1 e hstill
      cases hd : e.deleted with
      | true =>
        refine ⟨none, { fs with directoryFile := file }, k1, ?_, ?_, ?_⟩
        · simp only [FileSystem.Open, bind, Except.bind, pure, Except.pure, hnew, hfetch, hpos,
            if_true, he1, hdel, hd, Bool.not_true, Bool.false_eq_true, if_false]
        · simp only [true_iff]
          exact Or.inr ⟨e, rfl, hd⟩
        · intro f hf; cases hf
      | false =>
        obtain ⟨hdr, hhdr⟩ := FetchFrom_ok k1.synchDisk (toU32 (dir.Find name))
          (by rw [hsame.1]; exact hlt)
        refine ⟨some { hdr := hdr, seekPosition := 0, sector := toU32 (dir.Find name) },
          { fs with directoryFile := file },
          { k1 with files := k1.files.AddLink (toU32 (dir.Find name)) name }, ?_, ?_, ?_⟩
        · simp only [FileSystem.Open, OpenFile.new, bind, Except.bind, pure, Except.pure, hnew,
            hfetch, hpos, if_true, he1, hdel, hd, Bool.not_false, hhdr]
        · simp only [hfound, false_or, reduceCtorEq, false_iff, not_exists, not_and]
          intro e' h'
          cases h'
          simp only [hd, Bool.false_eq_true, not_false_eq_true]
        · intro f hf
          cases hf
          refine ⟨rfl, rfl, ?_⟩
          simp only
          rw [AddLink_openCount, he1, he]
          simp only [Option.map_some', Option.getD_some, hoc]

/-- C18 (witness): `Open("a")` on the small disk that holds `"a"`. -/
theorem C18_open_null_or_handle_witness :
    ∃ h fs' k', FileSystem.Open zeroJunk withA.2 withA.1 nameA = .ok (h, fs', k') ∧
      (h = none ↔ dirA.Find nameA = -1 ∨
        ∃ e, withA.2.files.FindBySector (toU32 (dirA.Find nameA)) = some e ∧ e.deleted = true) ∧
      ∀ f, h = some f →
        f.sector = toU32 (dirA.Find nameA) ∧ f.seekPosition = 0 ∧
        (k'.files.FindBySector f.sector).map (fun e => e.openCount) =
          some (u32 (((withA.2.files.FindBySector f.sector).map
            (fun e => e.openCount)).getD 0 + 1)) :=
  C18_open_null_or_handle zeroJunk withA.2 withA.1 nameA dirA (by decide!) (by decide!)

/-- C19: `Add(name, s')` on a directory that holds `name` returns false and
leaves the directory as it is; and when a directory whose table is of its
size does not hold `name`, `Add(name, s)` returns true, `Add(name, s')` after
it returns false and changes nothing, and `Find(name)` is `s`. -/
theorem C19_add_of_present_name (junk : Nat → Nat) (raw : Directory) (name : List Nat)
    (s s' : Int) :
    (raw.FindIndex name ≠ -1 → Directory.Add junk raw name s' = .ok (false, raw)) ∧
    (raw.WellFormed → raw.tableSize + 1 < 4294967296 → raw.FindIndex name = -1 →
      ∃ raw', Directory.Add junk raw name s = .ok (true, raw') ∧
        Directory.Add junk raw' name s' = .ok (false, raw') ∧ raw'.Find name = s) := by
  have hfirst : ∀ d : Directory, d.FindIndex name ≠ -1 →
      Directory.Add junk d name s' = .ok (false, d) := by
    intro d h
    have : (d.FindIndex name != -1) = true := by simpa using h
    simp only [Directory.Add, Directory.AddFuel, this, if_true]
  refine ⟨hfirst raw, ?_⟩
  intro hwf hsize habs
  obtain ⟨raw', e, hadd, hwf', hfind, hes, _, _, _⟩ :=
    Add_step junk raw name s hwf ((FindIndex_eq_neg_one_iff raw name hwf.1).1 habs) hsize
  refine ⟨raw', hadd, hfirst raw' ?_, ?_⟩
  · rw [Ne, FindIndex_eq_neg_one_iff raw' name hwf'.1, hfind]
    simp
  · rw [Find_eq raw' name hwf'.1, hfind]
    simpa using hes

/-- C19 at the directory of one free entry and the name `"a"`. -/
theorem C19_add_of_present_name_witness :
    oneSlot.WellFormed ∧ oneSlot.FindIndex nameA = -1 ∧
    ∃ raw', Directory.Add zeroJunk oneSlot nameA 7 = .ok (true, raw') ∧
      Directory.Add zeroJunk raw' nameA 9 = .ok (false, raw') ∧ raw'.Find nameA = 7 :=
  ⟨by decide, by decide,
    (C19_add_of_present_name zeroJunk oneSlot nameA 7 9).2 (by decide) (by decide) (by decide)⟩

/-- C20: on a directory made with capacity `c`, the calls of `Add` for names
that differ within `FILE_NAME_MAX_LEN` bytes all return true; call `j + 1`
finds a free entry exactly when `j < c`, and the table size after it is the
larger of `c` and `j + 1`; afterwards `Find` of each name is its sector. -/
theorem C20_adds_beyond_capacity (junk : Nat → Nat) (c : Nat) (items : List (List Nat × Int))
    (hc : 0 < c) (hm : c < items.length) (hbound : items.length + 1 < 4294967296)
    (hdistinct : (items.map (fun p => nameKey p.1)).Nodup) :
    ∃ last,
      (Directory.new junk c >>= fun d => d.addAll junk items) =
        .ok ((List.range items.length).map (fun j => (true, decide (j < c), max c (j + 1))),
             last) ∧
      last.tableSize = items.length ∧ ∀ p ∈ items, last.Find p.1 = p.2 := by
  obtain ⟨raw, hnew, hwf, hsz, hfree, hcount⟩ := new_spec junk c hc
  obtain ⟨last, hall, _, hszl, hfind, _⟩ :=
    addAll_spec junk c items raw 0 [] hwf
      (by intro e he hu; rw [hfree e he] at hu; cases hu)
      (by simpa using hcount) (by simpa using hsz)
      (by intro p _ h; cases h) hdistinct
      (by simp only [Nat.zero_add]; omega)
  refine ⟨last, ?_, ?_, hfind⟩
  · rw [hnew]
    simpa using hall
  · rw [hszl]; omega

/-- C20 at capacity 1 and three names. -/
theorem C20_adds_beyond_capacity_witness :
    ∃ last,
      (Directory.new zeroJunk 1 >>= fun d => d.addAll zeroJunk threeNames) =
        .ok ([(true, true, 1), (true, false, 2), (true, false, 3)], last) ∧
      last.tableSize = 3 ∧ ∀ p ∈ threeNames, last.Find p.1 = p.2 :=
  C20_adds_beyond_capacity zeroJunk 1 threeNames (by decide) (by decide) (by decide) (by decide)

/-! ### Claims C21 to C30 -/

/-! ### Removal from a directory -/

theorem strncmpEq_false_iff (a b : List Nat) :
    strncmpEq FILE_NAME_MAX_LEN a b = false ↔ nameKey a ≠ nameKey b := by
  rw [← Bool.not_eq_true, strncmpEq_iff]
  rfl

theorem UniqueNames_iff (raw : Directory) :
    raw.UniqueNames ↔
      ((raw.table.filter (fun e => e.inUse)).map (fun e => nameKey e.name)).Nodup := by
  unfold Directory.UniqueNames List.Nodup
  rw [List.pairwise_map]
  constructor
  · intro h
    exact h.imp (fun hab => (strncmpEq_false_iff _ _).1 hab)
  · intro h
    exact h.imp (fun hab => (strncmpEq_false_iff _ _).2 hab)

theorem findIndexFrom_first (name : List Nat) (pre post : List DirectoryEntry)
    (e : DirectoryEntry) (i : Nat) (hpre : ∀ x ∈ pre, x.holds name = false)
    (he : e.holds name = true) :
    Directory.findIndexFrom name (pre ++ e :: post) i = ((i + pre.length : Nat) : Int) := by
  induction pre generalizing i with
  | nil =>
    have he' : (e.inUse && strncmpEq FILE_NAME_MAX_LEN e.name name) = true := he
    simp [Directory.findIndexFrom, he']
  | cons p ps ih =>
    have hp : (p.inUse && strncmpEq FILE_NAME_MAX_LEN p.name name) = false :=
      hpre p (List.mem_cons_self _ _)
    simp only [List.cons_append, Directory.findIndexFrom, hp, Bool.false_eq_true, if_false,
      List.length_cons, List.append_eq]
    rw [ih _ (fun x hx => hpre x (List.mem_cons_of_mem _ hx))]
    congr 1; omega

theorem Remove_absent (raw : Directory) (name : List Nat)
    (hlen : raw.table.length = raw.tableSize)
    (habs : raw.table.find? (DirectoryEntry.holds name) = none) :
    raw.Remove name = (false, raw) := by
  have hidx : raw.FindIndex name = -1 := (FindIndex_eq_neg_one_iff raw name hlen).2 habs
  simp [Directory.Remove, hidx]

theorem Remove_present (raw : Directory) (name : List Nat)
    (hlen : raw.table.length = raw.tableSize) (e : DirectoryEntry)
    (hfind : raw.table.find? (DirectoryEntry.holds name) = some e) :
    ∃ pre post, raw.table = pre ++ e :: post ∧ (∀ x ∈ pre, x.holds name = false) ∧
      e.holds name = true ∧
      raw.Remove name =
        (true, { table := pre ++ { e with inUse := false } :: post,
                 tableSize := raw.tableSize }) := by
  obtain ⟨he, pre, post, hl, hpre⟩ := List.find?_eq_some.mp hfind
  have hpre' : ∀ x ∈ pre, x.holds name = false := by
    intro x hx
    simpa using hpre x hx
  refine ⟨pre, post, hl, hpre', he, ?_⟩
  have hidx : raw.FindIndex name = ((0 + pre.length : Nat) : Int) := by
    unfold Directory.FindIndex
    rw [List.take_of_length_le (le_of_eq hlen), hl]
    exact findIndexFrom_first name pre post e 0 hpre' he
  have hne : (((0 + pre.length : Nat) : Int) == -1) = false := by
    simp only [beq_eq_false_iff_ne, ne_eq]; omega
  unfold Directory.Remove
  simp only [hidx, hne, Bool.false_eq_true, if_false, Int.toNat_ofNat]
  rw [hl, modify_append_cons _ _ _ _ _ (by omega)]

theorem holds_eq (name : List Nat) (e : DirectoryEntry) :
    e.holds name = (e.inUse && strncmpEq FILE_NAME_MAX_LEN e.name name) := rfl

/-- C21: for a table of `tableSize` entries in which no two entries in use
have the same name, `Remove(name)` returns true exactly when an entry in use
has the name; then the first such entry, and no other, loses `inUse` and
keeps its sector and its name, the table size stays, and `Find(name)` returns
-1 afterwards; when no entry has the name, `Remove` returns false and the
directory is as before. -/
theorem C21_remove (raw : Directory) (name : List Nat)
    (hlen : raw.table.length = raw.tableSize) (huniq : raw.UniqueNames) :
    ((raw.Remove name).1 = true ↔
      ∃ e ∈ raw.table, e.inUse = true ∧ strncmpEq FILE_NAME_MAX_LEN e.name name = true) ∧
    ((raw.Remove name).1 = false → (raw.Remove name).2 = raw) ∧
    ((raw.Remove name).1 = true →
      (raw.Remove name).2.Find name = -1 ∧ (raw.Remove name).2.tableSize = raw.tableSize ∧
      ∃ pre e post, raw.table = pre ++ e :: post ∧
        e.inUse = true ∧ strncmpEq FILE_NAME_MAX_LEN e.name name = true ∧
        (raw.Remove name).2.table = pre ++ { e with inUse := false } :: post) := by
  cases hfind : raw.table.find? (DirectoryEntry.holds name) with
  | none =>
    rw [Remove_absent raw name hlen hfind]
    refine ⟨⟨fun h => (by cases h), ?_⟩, fun _ => rfl, fun h => (by cases h)⟩
    rintro ⟨e, he, hu, hc⟩
    have := find_holds_of_absent name raw.table hfind e he
    rw [holds_eq, hu, hc] at this
    cases this
  | some e =>
    obtain ⟨pre, post, hl, hpre, he, hrm⟩ := Remove_present raw name hlen e hfind
    have he2 := he
    rw [holds_eq, Bool.and_eq_true] at he2
    have hkey : nameKey e.name = nameKey name := ((holds_iff name e).1 he).2
    rw [hrm]
    refine ⟨⟨fun _ => ⟨e, (by rw [hl]; simp), he2.1, he2.2⟩, fun _ => rfl⟩,
      fun h => (by cases h), fun _ => ⟨?_, rfl, pre, e, post, hl, he2.1, he2.2, rfl⟩⟩
    rw [Find_eq _ _ (by simp only [List.length_append, List.length_cons, ← hlen, hl])]
    have hnone : (pre ++ { e with inUse := false } :: post).find? (DirectoryEntry.holds name)
        = none := by
      rw [List.find?_eq_none]
      intro x hx
      rw [Bool.not_eq_true]
      rcases List.mem_append.mp hx with hx | hx
      · exact hpre x hx
      · rcases List.mem_cons.mp hx with rfl | hx
        · rfl
        · cases hxu : x.inUse with
          | false => exact holds_false_of_free name x hxu
          | true =>
            have hnd := (UniqueNames_iff raw).1 huniq
            rw [hl] at hnd
            simp only [List.filter_append, List.filter_cons, he2.1, if_true, List.map_append,
              List.map_cons] at hnd
            have hnot := (List.nodup_cons.mp (List.nodup_middle.mp hnd)).1
            cases hxh : x.holds name with
            | false => rfl
            | true =>
              exfalso
              apply hnot
              rw [List.mem_append]
              right
              rw [List.mem_map]
              exact ⟨x, List.mem_filter.mpr ⟨hx, hxu⟩, ((holds_iff name x).1 hxh).2.trans hkey.symm⟩
    rw [hnone]
    rfl

/-- C21 (witness): `Remove("a")` on the directory that holds `"a"`. -/
theorem C21_remove_witness :
    ((dirA.Remove nameA).1 = true ↔
      ∃ e ∈ dirA.table, e.inUse = true ∧ strncmpEq FILE_NAME_MAX_LEN e.name nameA = true) ∧
    ((dirA.Remove nameA).1 = true → (dirA.Remove nameA).2.Find nameA = -1) :=
  have h := C21_remove dirA nameA (by decide) (by decide)
  ⟨h.1, fun ht => (h.2.2 ht).1⟩

/-- C22 (evaluation at the failing input): after format, a directory of 256
entries is written back to the directory file, which is then 1 + 256 * 20
bytes long, and `FetchFrom` of that file stops in the assertion
`numBytes > 0` of `ReadAt`, the count byte of the file being 0; with 257
entries the file holds 1 + 257 * 20 bytes and the directory fetched has one
entry. -/
theorem C22_count_is_one_byte :
    runC22 zeroJunk blankDisk 256 =
      .ok { written := 256, length := 5121, fetched := none, asserted := true } ∧
    runC22 zeroJunk blankDisk 257 =
      .ok { written := 257, length := 5141, fetched := some 1, asserted := false } := by
  constructor <;> decide!

/-! ### Names of the entries in use -/

theorem absent_key (name : List Nat) (l : List DirectoryEntry)
    (habs : l.find? (DirectoryEntry.holds name) = none) :
    nameKey name ∉ (l.filter (fun e => e.inUse)).map (fun e => nameKey e.name) := by
  intro hmem
  obtain ⟨x, hx, hk⟩ := List.mem_map.mp hmem
  obtain ⟨hxl, hxu⟩ := List.mem_filter.mp hx
  have := find_holds_of_absent name l habs x hxl
  rw [(holds_iff name x).2 ⟨hxu, hk⟩] at this
  cases this

theorem Add_unique (junk : Nat → Nat) (raw : Directory) (name : List Nat) (s : Int)
    (hwf : raw.WellFormed) (hu : raw.UniqueNames) (hsize : raw.tableSize + 1 < 4294967296) :
    ∃ b raw', Directory.Add junk raw name s = .ok (b, raw') ∧ raw'.WellFormed ∧
      raw'.UniqueNames ∧ raw'.tableSize ≤ raw.tableSize + 1 := by
  cases hfind : raw.table.find? (DirectoryEntry.holds name) with
  | some e =>
    have hidx : (raw.FindIndex name != -1) = true := by
      rw [bne_iff_ne]
      intro h
      rw [(FindIndex_eq_neg_one_iff raw name hwf.1).1 h] at hfind
      cases hfind
    refine ⟨false, raw, ?_, hwf, hu, Nat.le_succ _⟩
    simp only [Directory.Add, Directory.AddFuel, hidx, if_true]
  | none =>
    obtain ⟨pre, e, post, hadd, _, heu, _, hek, _, halt⟩ :=
      Add_absent junk raw name s hwf.1 hwf.2 hfind hsize
    obtain ⟨raw', e', hadd', hwf', _, _, _, _, hsz⟩ := Add_step junk raw name s hwf hfind hsize
    rw [hadd] at hadd'
    cases hadd'
    refine ⟨true, _, hadd, hwf', ?_, ?_⟩
    · have hkey := absent_key name raw.table hfind
      have hnd := (UniqueNames_iff raw).1 hu
      rw [UniqueNames_iff]
      simp only [List.filter_append, List.filter_cons, heu, if_true, List.map_append,
        List.map_cons]
      rw [List.nodup_middle, List.nodup_cons, hek]
      rcases halt with ⟨e0, hl, he0, _⟩ | ⟨hl, hp, _⟩
      · rw [hl] at hkey hnd
        simp only [List.filter_append, List.filter_cons, he0, Bool.false_eq_true, if_false,
          List.map_append] at hkey hnd
        exact ⟨hkey, hnd⟩
      · subst hp
        rw [hl] at hkey hnd
        simp only [List.filter_nil, List.map_nil, List.append_nil]
        exact ⟨hkey, hnd⟩
    · rcases hsz with ⟨_, h, _⟩ | ⟨_, h, _⟩
      · rw [h]; exact Nat.le_succ _
      · rw [h]

theorem Remove_unique (raw : Directory) (name : List Nat)
    (hwf : raw.WellFormed) (hu : raw.UniqueNames) :
    (raw.Remove name).2.WellFormed ∧ (raw.Remove name).2.UniqueNames ∧
      (raw.Remove name).2.tableSize = raw.tableSize := by
  cases hfind : raw.table.find? (DirectoryEntry.holds name) with
  | none =>
    rw [Remove_absent raw name hwf.1 hfind]
    exact ⟨hwf, hu, rfl⟩
  | some e =>
    obtain ⟨pre, post, hl, _, he, hrm⟩ := Remove_present raw name hwf.1 e hfind
    have heu : e.inUse = true := ((holds_iff name e).1 he).1
    rw [hrm]
    refine ⟨⟨?_, ?_⟩, ?_, rfl⟩
    · simp only [List.length_append, List.length_cons, ← hwf.1, hl]
    · intro x hx
      rcases List.mem_append.mp hx with hx | hx
      · exact hwf.2 x (by rw [hl]; exact List.mem_append_left _ hx)
      · rcases List.mem_cons.mp hx with rfl | hx
        · exact hwf.2 e (by rw [hl]; simp)
        · exact hwf.2 x (by rw [hl]; simp [hx])
    · have hnd := (UniqueNames_iff raw).1 hu
      rw [UniqueNames_iff]
      rw [hl] at hnd
      simp only [List.filter_append, List.filter_cons, heu, if_true, List.map_append,
        List.map_cons] at hnd
      simp only [List.filter_append, List.filter_cons, Bool.false_eq_true, if_false,
        List.map_append]
      exact (List.nodup_cons.mp (List.nodup_middle.mp hnd)).2

theorem calls_unique (junk : Nat → Nat) :
    ∀ (ops : List DirectoryCall) (raw : Directory), raw.WellFormed → raw.UniqueNames →
      raw.tableSize + ops.length < 4294967296 →
      ∃ last, Directory.calls junk raw ops = .ok last ∧ last.WellFormed ∧ last.UniqueNames := by
  intro ops
  induction ops with
  | nil => intro raw hwf hu _; exact ⟨raw, rfl, hwf, hu⟩
  | cons op rest ih =>
    intro raw hwf hu hsize
    simp only [List.length_cons] at hsize
    cases op with
    | add name s =>
      obtain ⟨b, raw', hadd, hwf', hu', hsz⟩ := Add_unique junk raw name s hwf hu (by omega)
      obtain ⟨last, hlast, h1, h2⟩ := ih raw' hwf' hu' (by omega)
      refine ⟨last, ?_, h1, h2⟩
      simp only [Directory.calls, bind, Except.bind, hadd, hlast]
    | remove name =>
      obtain ⟨hwf', hu', hsz⟩ := Remove_unique raw name hwf hu
      obtain ⟨last, hlast, h1, h2⟩ := ih _ hwf' hu' (by omega)
      refine ⟨last, ?_, h1, h2⟩
      simp only [Directory.calls, hlast]

/-- C23: a directory made by the constructor with `c` entries, none in use,
goes through any sequence of calls of `Add` and `Remove` (the table staying
below `2 ^ 32` entries), and in the table it has afterwards no two entries in
use have names that `strncmp` over `FILE_NAME_MAX_LEN` bytes takes for
equal. -/
theorem C23_unique_names (junk : Nat → Nat) (c : Nat) (ops : List DirectoryCall)
    (hc : 0 < c) (hsize : c + ops.length < 4294967296) :
    ∃ empty last, Directory.new junk c = .ok empty ∧
      (∀ e ∈ empty.table, e.inUse = false) ∧
      Directory.calls junk empty ops = .ok last ∧ last.UniqueNames := by
  obtain ⟨raw, hnew, hwf, hsz, hfree, _⟩ := new_spec junk c hc
  have hu : raw.UniqueNames := by
    unfold Directory.UniqueNames
    rw [List.filter_eq_nil_iff.mpr (fun e he => by simp [hfree e he])]
    exact List.Pairwise.nil
  obtain ⟨last, hlast, _, hul⟩ := calls_unique junk ops raw hwf hu (by omega)
  exact ⟨raw, last, hnew, hfree, hlast, hul⟩

/-- C23 (witness): a directory of one entry after `Add("a", 4)`,
`Add("b", 5)`, `Add("a", 6)`, `Remove("a")` and `Add("a", 7)`. -/
theorem C23_unique_names_witness :
    ∃ empty last, Directory.new zeroJunk 1 = .ok empty ∧
      (∀ e ∈ empty.table, e.inUse = false) ∧
      Directory.calls zeroJunk empty
        [.add [97] 4, .add [98] 5, .add [97] 6, .remove [97], .add [97] 7] = .ok last ∧
      last.UniqueNames :=
  C23_unique_names zeroJunk 1 [.add [97] 4, .add [98] 5, .add [97] 6, .remove [97], .add [97] 7]
    (by decide) (by decide)

/-! ### Bits of a bitmap -/

theorem getWord_eq (m k : Nat) : getWord m k = (m >>> (32 * k)) % 2 ^ 32 := by
  unfold getWord
  rfl

theorem testBit_getWord (m k p : Nat) :
    (getWord m k).testBit p = (decide (p < 32) && m.testBit (32 * k + p)) := by
  rw [getWord_eq, Nat.testBit_mod_two_pow, Nat.testBit_shiftRight]

theorem Bitmap.testBit_eq (b : Bitmap) (i : Nat) : b.testBit i = b.map.testBit i := by
  unfold Bitmap.testBit
  have h1 : Nat.land (getWord b.map (Nat.div i 32)) (Nat.shiftLeft 1 (Nat.mod i 32)) =
      (getWord b.map (i / 32)) &&& 2 ^ (i % 32) := by
    show (getWord b.map (i / 32)) &&& (1 <<< (i % 32)) = _
    rw [Nat.one_shiftLeft]
  rw [h1, Nat.and_two_pow]
  have hi : 32 * (i / 32) + i % 32 = i := Nat.div_add_mod i 32
  have hlt : i % 32 < 32 := Nat.mod_lt _ (by decide)
  have h2 : (getWord b.map (i / 32)).testBit (i % 32) = b.map.testBit i := by
    rw [testBit_getWord, hi]; simp [hlt]
  rw [h2]
  cases b.map.testBit i
  · simp
  · have hpos : 2 ^ (i % 32) ≠ 0 := by positivity
    have : Nat.beq (2 ^ (i % 32)) 0 = false := by
      cases hb : Nat.beq (2 ^ (i % 32)) 0
      · rfl
      · exact absurd (Nat.eq_of_beq_eq_true hb) hpos
    simp [this]

theorem Bitmap.map_markBit (b : Bitmap) (i : Nat) :
    (b.markBit i).map =
      b.map ^^^ ((getWord b.map (i / 32) ^^^ ((getWord b.map (i / 32) ||| 2 ^ (i % 32)) % 2 ^ 32))
        <<< (32 * (i / 32))) := by
  unfold Bitmap.markBit setWord
  show b.map ^^^ ((getWord b.map (i / 32) ^^^
    ((getWord b.map (i / 32) ||| (1 <<< (i % 32))) % 4294967296)) <<< (32 * (i / 32))) = _
  rw [Nat.one_shiftLeft]
  norm_num

theorem Bitmap.testBit_markBit (b : Bitmap) (i j : Nat) :
    (b.markBit i).testBit j = (decide (j = i) || b.testBit j) := by
  rw [Bitmap.testBit_eq, Bitmap.testBit_eq, Bitmap.map_markBit]
  have hi : 32 * (i / 32) + i % 32 = i := Nat.div_add_mod i 32
  have hlt : i % 32 < 32 := Nat.mod_lt _ (by decide)
  simp only [Nat.testBit_xor, Nat.testBit_shiftLeft, Nat.testBit_mod_two_pow, Nat.testBit_lor,
    testBit_getWord, Nat.testBit_two_pow]
  by_cases hge : 32 * (i / 32) ≤ j
  · by_cases hp : j - 32 * (i / 32) < 32
    · have hj : 32 * (i / 32) + (j - 32 * (i / 32)) = j := by omega
      by_cases hji : j = i
      · subst hji
        have : j % 32 = j - 32 * (j / 32) := by omega
        simp [hge, hp, hj, this]
      · have : ¬ (i % 32 = j - 32 * (i / 32)) := by omega
        simp [hge, hp, hj, hji, this]
    · have hji : j ≠ i := by omega
      simp [hge, hp, hji]
  · have hji : j ≠ i := by omega
    simp [hge, hji]

theorem Bitmap.map_clearBit (b : Bitmap) (i : Nat) :
    (b.clearBit i).map =
      b.map ^^^ ((getWord b.map (i / 32) ^^^
        ((getWord b.map (i / 32) &&& ((2 ^ 32 - 1) ^^^ 2 ^ (i % 32))) % 2 ^ 32))
        <<< (32 * (i / 32))) := by
  unfold Bitmap.clearBit setWord
  show b.map ^^^ ((getWord b.map (i / 32) ^^^
    ((getWord b.map (i / 32) &&& (4294967295 ^^^ (1 <<< (i % 32)))) % 4294967296))
      <<< (32 * (i / 32))) = _
  rw [Nat.one_shiftLeft]
  norm_num

theorem Bitmap.testBit_clearBit (b : Bitmap) (i j : Nat) :
    (b.clearBit i).testBit j = (!decide (j = i) && b.testBit j) := by
  rw [Bitmap.testBit_eq, Bitmap.testBit_eq, Bitmap.map_clearBit]
  have hi : 32 * (i / 32) + i % 32 = i := Nat.div_add_mod i 32
  have hlt : i % 32 < 32 := Nat.mod_lt _ (by decide)
  simp only [Nat.testBit_xor, Nat.testBit_shiftLeft, Nat.testBit_mod_two_pow, Nat.testBit_land,
    testBit_getWord, Nat.testBit_two_pow, Nat.testBit_two_pow_sub_one]
  by_cases hge : 32 * (i / 32) ≤ j
  · by_cases hp : j - 32 * (i / 32) < 32
    · have hj : 32 * (i / 32) + (j - 32 * (i / 32)) = j := by omega
      by_cases hji : j = i
      · subst hji
        have : j % 32 = j - 32 * (j / 32) := by omega
        simp [hge, hp, hj, this]
      · have : ¬ (i % 32 = j - 32 * (i / 32)) := by omega
        simp [hge, hp, hj, hji, this]
    · have hji : j ≠ i := by omega
      simp [hge, hp, hji]
  · have hji : j ≠ i := by omega
    simp [hge, hji]

theorem Bitmap.numBits_markBit (b : Bitmap) (i : Nat) : (b.markBit i).numBits = b.numBits := rfl

theorem Bitmap.numBits_clearBit (b : Bitmap) (i : Nat) : (b.clearBit i).numBits = b.numBits := rfl

theorem Bitmap.Test_of_lt (b : Bitmap) (i : Nat) (h : i < b.numBits) :
    b.Test i = .ok (b.testBit i) := by
  simp only [Bitmap.Test, h, if_true]

theorem Bitmap.Test_eq_ok (b : Bitmap) (i : Nat) (v : Bool) (h : b.Test i = .ok v) :
    i < b.numBits ∧ b.testBit i = v := by
  unfold Bitmap.Test at h
  split at h
  · rename_i hlt
    cases h
    exact ⟨hlt, rfl⟩
  · cases h

theorem Bitmap.findAsserting_eq (b : Bitmap) :
    ∀ n i, i + n ≤ b.numBits → b.findAsserting n i = .ok (b.findFrom n i) := by
  intro n
  induction n with
  | zero => intro i _; rfl
  | succ n ih =>
    intro i h
    have hi : i < b.numBits := by omega
    simp only [Bitmap.findAsserting, Bitmap.findFrom, Bitmap.Test, Bitmap.Mark, hi, if_true, bind,
      Except.bind, pure, Except.pure]
    cases ht : b.testBit i
    · simp
    · simp only [Bool.not_true, Bool.false_eq_true, if_false, cond_true]
      exact ih (i + 1) (by omega)

theorem Bitmap.FindAsserting_eq (b : Bitmap) : b.FindAsserting = .ok b.Find :=
  b.findAsserting_eq b.numBits 0 (by omega)

theorem Bitmap.findFrom_all_set (b : Bitmap) :
    ∀ n s, (∀ j, s ≤ j → j < s + n → b.testBit j = true) → b.findFrom n s = (-1, b) := by
  intro n
  induction n with
  | zero => intro s _; rfl
  | succ n ih =>
    intro s h
    have hs := h s (le_refl _) (by omega)
    simp only [Bitmap.findFrom, hs, cond_true]
    exact ih (s + 1) (fun j h1 h2 => h j (by omega) (by omega))

theorem Bitmap.findFrom_first (b : Bitmap) :
    ∀ n s i, s ≤ i → i < s + n → b.testBit i = false →
      (∀ j, s ≤ j → j < i → b.testBit j = true) →
      b.findFrom n s = ((i : Int), b.markBit i) := by
  intro n
  induction n with
  | zero => intro s i h1 h2; omega
  | succ n ih =>
    intro s i h1 h2 hi hbefore
    by_cases hsi : s = i
    · subst hsi
      simp only [Bitmap.findFrom, hi, cond_false]
      rfl
    · have hs := hbefore s (le_refl _) (by omega)
      simp only [Bitmap.findFrom, hs, cond_true]
      exact ih (s + 1) i (by omega) (by omega) hi (fun j h3 h4 => hbefore j (by omega) h4)

theorem Bitmap.findFrom_cases (b : Bitmap) :
    ∀ n s, (b.findFrom n s = (-1, b) ∧ ∀ j, s ≤ j → j < s + n → b.testBit j = true) ∨
      ∃ i, s ≤ i ∧ i < s + n ∧ b.testBit i = false ∧ b.findFrom n s = ((i : Int), b.markBit i) := by
  intro n
  induction n with
  | zero => intro s; exact Or.inl ⟨rfl, fun j h1 h2 => by omega⟩
  | succ n ih =>
    intro s
    cases hs : b.testBit s
    · refine Or.inr ⟨s, le_refl _, by omega, hs, ?_⟩
      simp only [Bitmap.findFrom, hs, cond_false]
      rfl
    · rcases ih (s + 1) with ⟨h1, h2⟩ | ⟨i, h1, h2, h3, h4⟩
      · refine Or.inl ⟨?_, ?_⟩
        · simp only [Bitmap.findFrom, hs, cond_true]; exact h1
        · intro j hj1 hj2
          by_cases hjs : j = s
          · rw [hjs]; exact hs
          · exact h2 j (by omega) (by omega)
      · refine Or.inr ⟨i, by omega, by omega, h3, ?_⟩
        simp only [Bitmap.findFrom, hs, cond_true]; exact h4

theorem Bitmap.countFrom_eq (b : Bitmap) :
    ∀ n s, b.countFrom n s = ((List.range' s n).filter (fun i => !b.testBit i)).length := by
  intro n
  induction n with
  | zero => intro s; rfl
  | succ n ih =>
    intro s
    simp only [Bitmap.countFrom, List.range'_succ, List.filter_cons]
    rw [show Nat.succ s = s + 1 from rfl, ih (s + 1)]
    cases b.testBit s
    · simp only [Bool.not_false, if_true, List.length_cons, cond_false]
      show 1 + _ = _ + 1
      omega
    · simp only [Bool.not_true, Bool.false_eq_true, if_false, cond_true]
      show 0 + _ = _
      omega

theorem Bitmap.countFrom_markBit (b : Bitmap) (i : Nat) (hi : b.testBit i = false) :
    ∀ n s, (b.markBit i).countFrom n s + (if s ≤ i ∧ i < s + n then 1 else 0) =
      b.countFrom n s := by
  intro n
  induction n with
  | zero => intro s; simp [Bitmap.countFrom]
  | succ n ih =>
    intro s
    have := ih (s + 1)
    simp only [Bitmap.countFrom, Bitmap.testBit_markBit]
    rw [show Nat.succ s = s + 1 from rfl]
    by_cases hsi : s = i
    · subst hsi
      simp only [decide_True, Bool.true_or, cond_true, hi, cond_false]
      have h1 : ¬ (s + 1 ≤ s ∧ s < s + 1 + n) := by omega
      have h2 : (s ≤ s ∧ s < s + (n + 1)) := by omega
      simp only [h1, if_false] at this
      simp only [Nat.add_eq, le_refl, true_and, if_true]
      have h3 : s < s + (n + 1) := by omega
      simp only [h3, if_true]
      omega
    · have hd : decide (s = i) = false := by simpa using hsi
      simp only [hd, Bool.false_or]
      have hiff : (s + 1 ≤ i ∧ i < s + 1 + n) ↔ (s ≤ i ∧ i < s + (n + 1)) := by
        constructor <;> intro h <;> omega
      simp only [hiff] at this
      simp only [Nat.add_eq]
      generalize (bif b.testBit s then 0 else 1) = c
      omega

theorem Bitmap.clearAll_spec :
    ∀ n i (b : Bitmap), (Bitmap.clearAll n i b).numBits = b.numBits ∧
      (Bitmap.clearAll n i b).numWords = b.numWords ∧
      ∀ j, (Bitmap.clearAll n i b).testBit j =
        (!decide (i ≤ j ∧ j < i + n) && b.testBit j) := by
  intro n
  induction n with
  | zero =>
    intro i b
    refine ⟨rfl, rfl, fun j => ?_⟩
    have : ¬ (i ≤ j ∧ j < i + 0) := by omega
    simp only [Bitmap.clearAll, decide_eq_false this, Bool.not_false, Bool.true_and]
  | succ n ih =>
    intro i b
    obtain ⟨h1, h2, h3⟩ := ih (i + 1) (b.clearBit i)
    refine ⟨h1, h2, fun j => ?_⟩
    show (Bitmap.clearAll n (i + 1) (b.clearBit i)).testBit j = _
    rw [h3 j, Bitmap.testBit_clearBit]
    by_cases hji : j = i
    · subst hji
      have : (j ≤ j ∧ j < j + (n + 1)) := by omega
      simp only [decide_eq_true this, Bool.not_true, Bool.false_and, decide_True,
        Bool.and_false]
    · by_cases hr : i + 1 ≤ j ∧ j < i + 1 + n
      · have : (i ≤ j ∧ j < i + (n + 1)) := by omega
        simp only [decide_eq_true hr, decide_eq_true this, Bool.not_true, Bool.false_and]
      · have : ¬ (i ≤ j ∧ j < i + (n + 1)) := by omega
        simp only [decide_eq_false hr, decide_eq_false this, decide_eq_false hji, Bool.not_false,
          Bool.true_and]

theorem Bitmap.countFrom_all_clear (b : Bitmap) :
    ∀ n s, (∀ j, s ≤ j → j < s + n → b.testBit j = false) → b.countFrom n s = n := by
  intro n
  induction n with
  | zero => intro s _; rfl
  | succ n ih =>
    intro s h
    have hs := h s (le_refl _) (by omega)
    simp only [Bitmap.countFrom, hs, cond_false]
    rw [show Nat.succ s = s + 1 from rfl, ih (s + 1) (fun j h1 h2 => h j (by omega) (by omega))]
    show 1 + n = n + 1
    omega

/-- C24: `Find`, run with the assertions of the `Test` and `Mark` it calls,
returns; if `i` is the smallest index with `Test(i)` false it returns `i`,
and in the bitmap it leaves `Test(i)` is true and every other bit is as
before; if every bit is set it returns -1 and leaves the bitmap as it is. -/
theorem C24_find_first_clear (b : Bitmap) :
    (∀ i, b.Test i = .ok false → (∀ j, j < i → b.Test j = .ok true) →
      ∃ b', b.FindAsserting = .ok ((i : Int), b') ∧ b'.Test i = .ok true ∧
        ∀ j, j ≠ i → b'.Test j = b.Test j) ∧
    ((∀ j, j < b.numBits → b.Test j = .ok true) → b.FindAsserting = .ok (-1, b)) := by
  constructor
  · intro i hi hbefore
    obtain ⟨hlt, hti⟩ := b.Test_eq_ok i false hi
    refine ⟨b.markBit i, ?_, ?_, ?_⟩
    · rw [Bitmap.FindAsserting_eq]
      congr 1
      exact b.findFrom_first b.numBits 0 i (Nat.zero_le _) (by omega) hti
        (fun j _ hj => (b.Test_eq_ok j true (hbefore j hj)).2)
    · rw [Bitmap.Test_of_lt _ _ (by rw [Bitmap.numBits_markBit]; exact hlt),
        Bitmap.testBit_markBit]
      simp
    · intro j hj
      simp only [Bitmap.Test, Bitmap.numBits_markBit, Bitmap.testBit_markBit]
      have : decide (j = i) = false := by simpa using hj
      simp only [this, Bool.false_or]
  · intro h
    rw [Bitmap.FindAsserting_eq]
    congr 1
    exact b.findFrom_all_set b.numBits 0
      (fun j _ hj => (b.Test_eq_ok j true (h j (by omega))).2)

/-- C25: for `i` below `numBits`, `Mark(i)` and `Clear(i)` return; after
`Mark(i)`, `Test(i)` is true; after `Clear(i)`, `Test(i)` is false; and for
every `j` other than `i`, `Test(j)` is after both what it was before. -/
theorem C25_mark_clear_test (b : Bitmap) (i j : Nat) (hi : i < b.numBits) :
    ∃ marked cleared, b.Mark i = .ok marked ∧ b.Clear i = .ok cleared ∧
      marked.Test i = .ok true ∧ cleared.Test i = .ok false ∧
      (j ≠ i → marked.Test j = b.Test j ∧ cleared.Test j = b.Test j) := by
  refine ⟨b.markBit i, b.clearBit i, ?_, ?_, ?_, ?_, ?_⟩
  · simp only [Bitmap.Mark, hi, if_true]
  · simp only [Bitmap.Clear, hi, if_true]
  · rw [Bitmap.Test_of_lt _ _ (by rw [Bitmap.numBits_markBit]; exact hi), Bitmap.testBit_markBit]
    simp
  · rw [Bitmap.Test_of_lt _ _ (by rw [Bitmap.numBits_clearBit]; exact hi),
      Bitmap.testBit_clearBit]
    simp
  · intro hji
    have : decide (j = i) = false := by simpa using hji
    constructor
    · simp only [Bitmap.Test, Bitmap.numBits_markBit, Bitmap.testBit_markBit, this,
        Bool.false_or]
    · simp only [Bitmap.Test, Bitmap.numBits_clearBit, Bitmap.testBit_clearBit, this,
        Bool.not_false, Bool.true_and]

/-- C25 (witness): bit 31, the last bit of the first word, and bit 63 of a
bitmap of 1024 bits. -/
theorem C25_mark_clear_test_witness :
    ∃ marked cleared, (onlyFree 4 29).Mark 31 = .ok marked ∧
      (onlyFree 4 29).Clear 31 = .ok cleared ∧
      marked.Test 31 = .ok true ∧ cleared.Test 31 = .ok false ∧
      (63 ≠ 31 → marked.Test 63 = (onlyFree 4 29).Test 63 ∧
        cleared.Test 63 = (onlyFree 4 29).Test 63) :=
  C25_mark_clear_test (onlyFree 4 29) 31 63 (by decide)

/-- C26: `CountClear()` is the number of indices below `numBits` at which
`Test` is false; a bitmap made by the constructor for `n` bits has
`CountClear() = n`; and a `Find` that returns an index leaves a bitmap with
one clear bit less. -/
theorem C26_countClear (junk : Nat → Nat) (n : Nat) (b : Bitmap) :
    b.CountClear =
      ((List.range b.numBits).filter (fun i => decide (b.Test i = .ok false))).length ∧
    (0 < n → ∃ fresh, Bitmap.new junk n = .ok fresh ∧ fresh.numBits = n ∧ fresh.CountClear = n) ∧
    (∀ i b', b.FindAsserting = .ok (i, b') → i ≠ -1 → b'.CountClear + 1 = b.CountClear) := by
  refine ⟨?_, ?_, ?_⟩
  · unfold Bitmap.CountClear
    rw [Bitmap.countFrom_eq, List.range_eq_range']
    congr 1
    apply List.filter_congr
    intro i hi
    have hlt : i < b.numBits := by
      have := (List.mem_range'_1.mp hi).2
      omega
    rw [Bitmap.Test_of_lt _ _ hlt]
    cases b.testBit i <;> simp
  · intro hn
    obtain ⟨h1, _, h3⟩ := Bitmap.clearAll_spec n 0
      { numBits := n, numWords := DivRoundUp n BITS_IN_WORD,
        map := junk 0 % 2 ^ (BITS_IN_WORD * DivRoundUp n BITS_IN_WORD) }
    refine ⟨_, by simp only [Bitmap.new, hn, if_true], h1, ?_⟩
    unfold Bitmap.CountClear
    rw [h1]
    apply Bitmap.countFrom_all_clear
    intro j _ hj
    simp only at hj
    rw [h3 j]
    have : (0 ≤ j ∧ j < 0 + n) := by omega
    simp only [decide_eq_true this, Bool.not_true, Bool.false_and]
  · intro i b' hfind hne
    rw [Bitmap.FindAsserting_eq] at hfind
    have hfind' : b.findFrom b.numBits 0 = (i, b') := by
      have := Except.ok.inj hfind
      exact this
    rcases b.findFrom_cases b.numBits 0 with ⟨h1, _⟩ | ⟨k, _, hk, htk, h4⟩
    · rw [h1] at hfind'
      cases hfind'
      exact absurd rfl hne
    · rw [h4] at hfind'
      cases hfind'
      have := b.countFrom_markBit k htk b.numBits 0
      have hin : (0 ≤ k ∧ k < 0 + b.numBits) := by omega
      simp only [hin, if_true] at this
      exact this

/-! ### Reading through a handle -/

theorem usub_of_le (a b : Nat) (hb : b ≤ a) (ha : a < 4294967296) : usub a b = a - b := by
  unfold usub u32
  omega

theorem ReadAt_seek (k : Kernel) (f : OpenFile) (numBytes position : Nat) (bypass : Bool)
    (r : Nat × List Nat × OpenFile × Kernel)
    (h : f.ReadAt k numBytes position bypass = .ok r) :
    r.2.2.1.seekPosition = f.seekPosition := by
  unfold OpenFile.ReadAt at h
  simp only [bind, Except.bind, pure, Except.pure, throw, throwThe, MonadExceptOf.throw] at h
  repeat' (first | cases h | split at h)
  all_goals rfl

theorem ReadAt_count_le (k : Kernel) (f : OpenFile) (numBytes position : Nat) (bypass : Bool)
    (r : Nat × List Nat × OpenFile × Kernel)
    (hsum : position + numBytes < 4294967296)
    (h : f.ReadAt k numBytes position bypass = .ok r) : r.1 ≤ numBytes := by
  have hclamp : (if f.hdr.FileLength < u32 (position + numBytes) then
      usub f.hdr.FileLength position else numBytes) ≤ numBytes ∨
      f.hdr.FileLength ≤ position := by
    rw [u32_of_lt _ hsum]
    by_cases hpos : f.hdr.FileLength ≤ position
    · exact Or.inr hpos
    · left
      split
      · rw [usub_of_le _ _ (by omega) (by omega)]
        omega
      · exact le_refl _
  unfold OpenFile.ReadAt at h
  simp only [bind, Except.bind, pure, Except.pure, throw, throwThe, MonadExceptOf.throw] at h
  generalize (if f.hdr.FileLength < u32 (position + numBytes) then
    usub f.hdr.FileLength position else numBytes) = nb at h hclamp
  repeat' (first | cases h | split at h)
  all_goals first
    | exact Nat.zero_le _
    | (rcases hclamp with hc | hc
       · exact hc
       · contradiction)

theorem WriteAtFuel_cursor (junk : Nat → Nat) (depth : Nat) (k : Kernel) (f : OpenFile)
    (from_ : List Nat) (numBytes position : Nat) (r : Nat × OpenFile × Kernel)
    (h : OpenFile.WriteAtFuel junk depth k f from_ numBytes position = .ok r) :
    r.2.1.seekPosition = f.seekPosition ∧ r.1 ≤ numBytes := by
  cases depth with
  | zero => cases h
  | succ depth =>
    rw [OpenFile.WriteAtFuel] at h
    simp only [bind, Except.bind, pure, Except.pure, throw, throwThe, MonadExceptOf.throw] at h
    split at h
    · cases h
    split at h
    · cases h
    split at h
    · cases h
    split at h
    · cases h
    split at h
    · split at h
      · cases h
      · split at h
        · cases h; exact ⟨rfl, Nat.zero_le _⟩
        · split at h
          · split at h
            · cases h
            · rename_i r1 h1
              have hs1 := ReadAt_seek _ _ _ _ _ _ h1
              split at h
              · split at h
                · cases h
                · rename_i r2 h2
                  have hs2 := ReadAt_seek _ _ _ _ _ _ h2
                  split at h
                  · cases h
                  · cases h; exact ⟨hs2.trans hs1, le_refl _⟩
              · split at h
                · cases h
                · cases h; exact ⟨hs1, le_refl _⟩
          · split at h
            · split at h
              · cases h
              · rename_i r2 h2
                have hs2 := ReadAt_seek _ _ _ _ _ _ h2
                split at h
                · cases h
                · cases h; exact ⟨hs2, le_refl _⟩
            · split at h
              · cases h
              · cases h; exact ⟨rfl, le_refl _⟩
    · split at h
      · cases h; exact ⟨rfl, Nat.zero_le _⟩
      · split at h
        · split at h
          · cases h
          · rename_i r1 h1
            have hs1 := ReadAt_seek _ _ _ _ _ _ h1
            split at h
            · split at h
              · cases h
              · rename_i r2 h2
                have hs2 := ReadAt_seek _ _ _ _ _ _ h2
                split at h
                · cases h
                · cases h; exact ⟨hs2.trans hs1, le_refl _⟩
            · split at h
              · cases h
              · cases h; exact ⟨hs1, le_refl _⟩
        · split at h
          · split at h
            · cases h
            · rename_i r2 h2
              have hs2 := ReadAt_seek _ _ _ _ _ _ h2
              split at h
              · cases h
              · cases h; exact ⟨hs2, le_refl _⟩
          · split at h
            · cases h
            · cases h; exact ⟨rfl, le_refl _⟩

theorem Read_eq (k : Kernel) (f : OpenFile) (numBytes : Nat)
    (hsum : f.seekPosition + numBytes < 4294967296) :
    f.Read k numBytes =
      (f.ReadAt k numBytes f.seekPosition false).map
        (fun r => (r.1, r.2.1, { r.2.2.1 with seekPosition := f.seekPosition + r.1 }, r.2.2.2)) := by
  by_cases hn : numBytes = 0
  · subst hn
    unfold OpenFile.Read OpenFile.ReadAt
    rfl
  · cases h : f.ReadAt k numBytes f.seekPosition false with
    | error e =>
      unfold OpenFile.Read
      simp only [bind, Except.bind, pure, Except.pure, hn, if_false, h, Except.map]
    | ok r =>
      have h1 := ReadAt_seek _ _ _ _ _ _ h
      have h2 := ReadAt_count_le _ _ _ _ _ _ hsum h
      unfold OpenFile.Read
      simp only [bind, Except.bind, pure, Except.pure, hn, if_false, h, Except.map, h1]
      rw [u32_of_lt _ (by omega)]

theorem Write_eq (junk : Nat → Nat) (k : Kernel) (f : OpenFile) (from_ : List Nat)
    (numBytes : Nat) (hsum : f.seekPosition + numBytes < 4294967296) :
    f.Write junk k from_ numBytes =
      (f.WriteAt junk k from_ numBytes f.seekPosition).map
        (fun r => (r.1, { r.2.1 with seekPosition := f.seekPosition + r.1 }, r.2.2)) := by
  by_cases hn : numBytes = 0
  · subst hn
    unfold OpenFile.Write OpenFile.WriteAt
    rfl
  · cases h : f.WriteAt junk k from_ numBytes f.seekPosition with
    | error e =>
      unfold OpenFile.Write
      simp only [bind, Except.bind, pure, Except.pure, hn, if_false, h, Except.map]
    | ok r =>
      have h12 := WriteAtFuel_cursor _ _ _ _ _ _ _ _ h
      unfold OpenFile.Write
      simp only [bind, Except.bind, pure, Except.pure, hn, if_false, h, Except.map, h12.1]
      rw [u32_of_lt _ (by have := h12.2; omega)]

/-- C28: `Read(into, n)` fails when `ReadAt(into, n, seekPosition)` fails and
otherwise returns its count and its bytes, with its effect on the disk and on
the table of open files, and `Write(from, n)` does so for
`WriteAt(from, n, seekPosition)`; the handle then has the cursor
`seekPosition + count` (`seekPosition + n` being below `2 ^ 32`).  The cursor
is a member of the handle and the globals hold none: a `Read` or `Write`
through another handle `g` after the call works at the cursor of `g`. -/
theorem C28_read_write_at_cursor (junk : Nat → Nat) (k : Kernel) (f g : OpenFile)
    (data : List Nat) (n m : Nat)
    (hf : f.seekPosition + n < 4294967296) (hg : g.seekPosition + m < 4294967296) :
    f.Read k n =
      (f.ReadAt k n f.seekPosition false).map
        (fun r => (r.1, r.2.1, { r.2.2.1 with seekPosition := f.seekPosition + r.1 }, r.2.2.2)) ∧
    f.Write junk k data n =
      (f.WriteAt junk k data n f.seekPosition).map
        (fun r => (r.1, { r.2.1 with seekPosition := f.seekPosition + r.1 }, r.2.2)) ∧
    (∀ r, f.Read k n = .ok r →
      g.Read r.2.2.2 m =
        (g.ReadAt r.2.2.2 m g.seekPosition false).map
          (fun x => (x.1, x.2.1, { x.2.2.1 with seekPosition := g.seekPosition + x.1 }, x.2.2.2))) ∧
    (∀ r, f.Write junk k data n = .ok r →
      g.Write junk r.2.2 data m =
        (g.WriteAt junk r.2.2 data m g.seekPosition).map
          (fun x => (x.1, { x.2.1 with seekPosition := g.seekPosition + x.1 }, x.2.2))) :=
  ⟨Read_eq k f n hf, Write_eq junk k f data n hf, fun r _ => Read_eq r.2.2.2 g m hg,
   fun r _ => Write_eq junk r.2.2 g data m hg⟩

/-- C28 (witness): on the small disk, a `Read` and a `Write` of 3 bytes
through the handle on `"a"`. -/
theorem C28_read_write_at_cursor_witness :
    withOpenA.1.Read withOpenA.2.2 3 =
      (withOpenA.1.ReadAt withOpenA.2.2 3 withOpenA.1.seekPosition false).map
        (fun r => (r.1, r.2.1,
          { r.2.2.1 with seekPosition := withOpenA.1.seekPosition + r.1 }, r.2.2.2)) ∧
    withOpenA.1.Write zeroJunk withOpenA.2.2 [1, 2, 3] 3 =
      (withOpenA.1.WriteAt zeroJunk withOpenA.2.2 [1, 2, 3] 3 withOpenA.1.seekPosition).map
        (fun r => (r.1, { r.2.1 with seekPosition := withOpenA.1.seekPosition + r.1 }, r.2.2)) :=
  have h := C28_read_write_at_cursor zeroJunk withOpenA.2.2 withOpenA.1 (withOpenA.1.Seek 2)
    [1, 2, 3] 3 1 (by decide!) (by decide!)
  ⟨h.1, h.2.1⟩

/-! ### Links of the table of open files, and waking the waiters -/

theorem findByKey_removeItem (sector s : Nat) (l : List FileTableEntry) :
    FileTable.findByKey s (FileTable.removeItem sector l) =
      if s = sector then none else FileTable.findByKey s l := by
  unfold FileTable.findByKey FileTable.removeItem
  induction l with
  | nil => simp
  | cons x xs ih =>
    simp only [List.filter_cons]
    by_cases hx : x.sector = sector
    · have h1 : (x.sector != sector) = false := by simpa using hx
      simp only [h1, Bool.false_eq_true, if_false]
      rw [ih, List.find?_cons]
      by_cases hs : s = sector
      · simp only [hs, if_true]
      · have h2 : (x.sector == s) = false := by
          rw [hx]; simpa using Ne.symm hs
        simp only [hs, if_false, h2]
    · have h1 : (x.sector != sector) = true := by simpa using hx
      simp only [h1, if_true, List.find?_cons]
      rw [ih]
      by_cases hs : s = sector
      · subst hs
        have h2 : (x.sector == s) = false := by simpa using hx
        simp only [if_true, h2]
      · simp only [hs, if_false]

/-- C29: `RemoveLink(sector)` returns null and changes nothing when the table
has no entry for the sector; otherwise it lowers the open count of the entry
by one, returns the name of the file exactly when the count is then 0 and
`deleted` is set, takes the entry out of the table exactly when the count is
then 0, and leaves the entries of the other sectors as they were. -/
theorem C29_removeLink (t : FileTable) (sector : Nat) :
    (t.FindBySector sector = none → t.RemoveLink sector = (none, t)) ∧
    ∀ file, t.FindBySector sector = some file →
      (t.RemoveLink sector).1 =
        (if usub file.openCount 1 = 0 ∧ file.deleted = true then some file.name else none) ∧
      (t.RemoveLink sector).2.FindBySector sector =
        (if usub file.openCount 1 = 0 then none
         else some { file with openCount := usub file.openCount 1 }) ∧
      ∀ s, s ≠ sector → (t.RemoveLink sector).2.FindBySector s = t.FindBySector s := by
  constructor
  · intro h
    simp only [FileTable.RemoveLink, h]
  · intro file h
    have hs : file.sector = sector := findByKey_sector _ _ _ h
    have hfind : ∀ (c : Nat) (s : Nat),
        FileTable.FindBySector { count := c, table := FileTable.removeItem sector t.table } s =
          if s = sector then none else t.FindBySector s := by
      intro c s
      exact findByKey_removeItem sector s t.table
    by_cases hz : usub file.openCount 1 = 0
    · cases hd : file.deleted
      · have hrl : t.RemoveLink sector =
            (none, { count := usub t.count 1, table := FileTable.removeItem sector t.table }) := by
          simp only [FileTable.RemoveLink, h, hz, if_true, hd, Bool.false_eq_true, if_false]
        rw [hrl]
        refine ⟨by simp only [hz, Bool.false_eq_true, and_false, if_false], ?_, ?_⟩
        · rw [hfind]; simp only [if_true, hz]
        · intro s hne
          rw [hfind]; simp only [hne, if_false]
      · have hrl : t.RemoveLink sector =
            (some file.name,
              { count := usub t.count 1, table := FileTable.removeItem sector t.table }) := by
          simp only [FileTable.RemoveLink, h, hz, if_true, hd]
        rw [hrl]
        refine ⟨by simp only [hz, and_self, if_true], ?_, ?_⟩
        · rw [hfind]; simp only [if_true, hz]
        · intro s hne
          rw [hfind]; simp only [hne, if_false]
    · have hrl : t.RemoveLink sector =
          (none, t.store { file with openCount := usub file.openCount 1 }) := by
        simp only [FileTable.RemoveLink, h, hz, if_false]
      rw [hrl]
      refine ⟨by simp only [hz, false_and, if_false], ?_, ?_⟩
      · rw [FindBySector_store]
        simp only [hs, if_true, h, Option.map_some', hz, if_false]
      · intro s hne
        rw [FindBySector_store]
        have : ¬ (s = ({ file with openCount := usub file.openCount 1 } : FileTableEntry).sector) := by
          show ¬ (s = file.sector)
          rw [hs]; exact hne
        simp only [this, if_false]

theorem broadcastLoop_eq (queue woken : List Nat) :
    Condition.broadcastLoop queue woken = { woken := woken ++ queue, queue := [] } := by
  induction queue generalizing woken with
  | nil => simp [Condition.broadcastLoop]
  | cons s rest ih => simp [Condition.broadcastLoop, ih]

/-- C30 (evaluation at the failing input): with one semaphore in the queue,
`Broadcast`, called by `WriterFree` and by the `ReadFree` of the last reader,
calls `V` on no semaphore and leaves the queue empty; in general the first
semaphore of the queue is taken off without a `V`, and `V` is called once on
each of the others. -/
theorem C30_broadcast_skips_first_waiter :
    Condition.Broadcast [5] = { woken := [], queue := [] } ∧
    (entryA.WriterFreeWaking [5]).2 = { woken := [], queue := [] } ∧
    ({ entryA with reading := 1 }.ReadFreeWaking [5]).2 = { woken := [], queue := [] } ∧
    ∀ first rest, Condition.Broadcast (first :: rest) = { woken := rest, queue := [] } := by
  refine ⟨by decide, by decide, by decide, ?_⟩
  intro first rest
  simp [Condition.Broadcast, broadcastLoop_eq]

/-! ### Claims C31 to C40 -/

/-- C31 (evaluation at the failing input): after format `Check` returns
true, and it returns true after `Create("a", 0)`; after a second successful
`Create("b", 0)` it returns false.  After format and a successful
`Create("a", 28 sectors)`, a file with an indirect block, `Check` returns
false as well. -/
theorem C31_check_fails_on_sound_state :
    runC31 zeroJunk blankDisk [([97], 0), ([98], 0)] =
      .ok { created := [true, true], fresh := true, checked := [true, false] } ∧
    runC31 zeroJunk blankDisk [([97], 28 * 128)] =
      .ok { created := [true], fresh := true, checked := [false] } := by
  constructor <;> decide!

/-- C32 (evaluation at the failing input): after format and
`Create("a", 1 sector)`, with the first data sector of the header of `"a"`
set to 1024 on a disk of 1024 sectors, `Check` returns no value: it stops in
an assertion.  `CheckSector` stops in the assertion of `Bitmap::Test` for
every sector that is not below the size of the shadow bitmap. -/
theorem C32_check_asserts_on_bad_sector :
    runC32 zeroJunk blankDisk 1024 =
      .ok { created := true, sector := 5, checked := none, asserted := true } ∧
    ∀ (numSectors sector : Nat) (shadowMap : Bitmap), shadowMap.numBits ≤ sector →
      FileSystem.CheckSector numSectors sector shadowMap = .error .assertion := by
  constructor
  · decide!
  · intro numSectors sector shadowMap h
    have hlt : ¬ sector < shadowMap.numBits := by omega
    simp only [FileSystem.CheckSector, FileSystem.AddToShadowBitmap, Bitmap.Test, hlt, if_false,
      bind, Except.bind]

/-- C33: `ByteToSector(offset)` is the reference definition
`sectorOfOffset`: with `s = offset / SECTOR_SIZE`, the direct pointer `s`
below `NUM_DIRECT`, the entry `s - NUM_DIRECT` of the single-indirect block
below `NUM_DIRECT + NUM_INDIRECT`, the entry of the leaf block of the
double-indirect root below `NUM_DIRECT + NUM_INDIRECT + NUM_INDIRECT ^ 2`,
and 0 for every larger `s`; a read of a sector outside the disk fails in
both. -/
theorem C33_byteToSector_reference (disk : Disk) (raw : FileHeader) (offset : Nat) :
    raw.ByteToSector disk offset = raw.sectorOfOffset disk offset := by
  unfold FileHeader.ByteToSector FileHeader.sectorOfOffset blockEntry DivRoundDown
    FIRST_INDIRECTION SECOND_INDIRECTION
  simp only [bind, Except.bind, pure, Except.pure, Nat.sub_sub, pow_two]
  split
  · rfl
  · split
    · rfl
    · split
      · cases disk.ReadSector (raw.dataSectors.getD (NUM_DIRECT + 1) 0) <;> rfl
      · rfl

/-! ### Readers and writers of an entry -/

theorem Holders_step_inv (h h' : Holders) (c : SynchCall) (n : Nat)
    (hr : h.entry.reading = h.readers) (hn : h.readers ≤ n) (hb : n + 1 < 4294967296)
    (hw : h.entry.writing = true ↔ h.writers = 1) (hw1 : h.writers ≤ 1)
    (hx : h.writers = 1 → h.readers = 0) (hs : h.step c = some h') :
    h'.entry.reading = h'.readers ∧ h'.readers ≤ n + 1 ∧
      (h'.entry.writing = true ↔ h'.writers = 1) ∧ h'.writers ≤ 1 ∧
      (h'.writers = 1 → h'.readers = 0) := by
  obtain ⟨⟨oc, sec, del, nm, rd, wr⟩, r, w⟩ := h
  simp only at hr hn hw hw1 hx
  subst hr
  cases c with
  | requestRead =>
    simp only [Holders.step, FileTableEntry.RequestRead] at hs
    cases wr with
    | true => simp only [if_true] at hs; cases hs
    | false =>
      have h0 : w ≠ 1 := fun e => by have := hw.2 e; cases this
      simp only [Bool.false_eq_true, if_false, Option.some.injEq] at hs
      subst hs
      refine ⟨?_, ?_, ?_, hw1, fun e => absurd e h0⟩
      · show u32 (rd + 1) = rd + 1
        exact u32_of_lt _ (by omega)
      · show rd + 1 ≤ n + 1
        omega
      · exact ⟨fun e => (by cases e), fun e => absurd e h0⟩
  | readFree =>
    simp only [Holders.step] at hs
    split at hs
    · rename_i hpos
      simp only [Option.some.injEq] at hs
      subst hs
      have h0 : w ≠ 1 := fun e => by have := hx e; omega
      refine ⟨?_, ?_, hw, hw1, fun e => absurd e h0⟩
      · show usub rd 1 = rd - 1
        exact usub_of_le _ _ (by omega) (by omega)
      · show rd - 1 ≤ n + 1
        omega
    · cases hs
  | requestWrite =>
    simp only [Holders.step, FileTableEntry.RequestWrite] at hs
    by_cases hfree : wr = true ∨ 0 < rd
    · rw [if_pos hfree] at hs
      cases hs
    · rw [if_neg hfree] at hs
      simp only [Option.some.injEq] at hs
      subst hs
      have hnw : wr ≠ true := fun e => hfree (Or.inl e)
      have hz : rd = 0 := by
        have : ¬ 0 < rd := fun e => hfree (Or.inr e)
        omega
      have h0 : w = 0 := by
        have : w ≠ 1 := fun e => hnw (hw.2 e)
        omega
      refine ⟨rfl, ?_, ?_, ?_, fun _ => hz⟩
      · show rd ≤ n + 1
        omega
      · exact ⟨fun _ => (by show w + 1 = 1; omega), fun _ => rfl⟩
      · show w + 1 ≤ 1
        omega
  | writerFree =>
    simp only [Holders.step] at hs
    split at hs
    · rename_i hpos
      simp only [Option.some.injEq] at hs
      subst hs
      refine ⟨rfl, ?_, ?_, ?_, ?_⟩
      · show rd ≤ n + 1
        omega
      · exact ⟨fun e => (by cases e), fun e => (by have e' : w - 1 = 1 := e; omega)⟩
      · show w - 1 ≤ 1
        omega
      · intro e
        have e' : w - 1 = 1 := e
        omega
    · cases hs

theorem Holders_run_inv :
    ∀ (calls : List SynchCall) (h h' : Holders) (n : Nat),
      h.entry.reading = h.readers → h.readers ≤ n → n + calls.length < 4294967296 →
      (h.entry.writing = true ↔ h.writers = 1) → h.writers ≤ 1 →
      (h.writers = 1 → h.readers = 0) → h.run calls = some h' →
      h'.entry.reading = h'.readers ∧ (h'.entry.writing = true ↔ h'.writers = 1) ∧
        h'.writers ≤ 1 ∧ (h'.writers = 1 → h'.readers = 0) := by
  intro calls
  induction calls with
  | nil =>
    intro h h' n hr _ _ hw hw1 hx hrun
    simp only [Holders.run, Option.some.injEq] at hrun
    subst hrun
    exact ⟨hr, hw, hw1, hx⟩
  | cons c rest ih =>
    intro h h' n hr hn hb hw hw1 hx hrun
    simp only [List.length_cons] at hb
    simp only [Holders.run] at hrun
    cases hs : h.step c with
    | none => rw [hs] at hrun; cases hrun
    | some h1 =>
      rw [hs] at hrun
      obtain ⟨a1, a2, a3, a4, a5⟩ := Holders_step_inv h h1 c n hr hn (by omega) hw hw1 hx hs
      exact ih h1 h' (n + 1) a1 a2 (by omega) a3 a4 a5 hrun

/-- C34: start from an entry with no reader and no writer, and let threads
call `RequestRead`, `ReadFree`, `RequestWrite` and `WriterFree`, a `Request`
returning only when it does not have to wait and a `Free` coming only from a
thread that holds the entry in that way (fewer than `2 ^ 32` calls).  In
every state reached `writing` is not set together with `reading > 0`; at most
one thread holds the entry as a writer, and then no thread holds it as a
reader; `reading` is the number of threads that hold it as readers, and
`writing` is set exactly when a writer holds it. -/
theorem C34_readers_exclude_writer (e : FileTableEntry) (calls : List SynchCall)
    (h : Holders) (he : e.reading = 0 ∧ e.writing = false)
    (hlen : calls.length < 4294967296)
    (hrun : Holders.run { entry := e, readers := 0, writers := 0 } calls = some h) :
    ¬ (h.entry.writing = true ∧ 0 < h.entry.reading) ∧ h.writers ≤ 1 ∧
      (h.writers = 1 → h.readers = 0) ∧ h.entry.reading = h.readers ∧
      (h.entry.writing = true ↔ h.writers = 1) := by
  obtain ⟨a1, a2, a3, a4⟩ := Holders_run_inv calls { entry := e, readers := 0, writers := 0 } h 0
    he.1 (le_refl _) (by omega) (by simp [he.2]) (Nat.zero_le _) (fun e => by cases e) hrun
  refine ⟨?_, a3, a4, a1, a2⟩
  rintro ⟨hw, hr⟩
  have := a4 (a2.1 hw)
  omega

/-- C34 (witness): two readers come and go, then a writer comes and holds
the entry alone. -/
theorem C34_readers_exclude_writer_witness :
    Holders.run { entry := entryA, readers := 0, writers := 0 }
        [.requestRead, .requestRead, .readFree, .readFree, .requestWrite] =
      some { entry := { entryA with writing := true }, readers := 0, writers := 1 } ∧
    ¬ (({ entry := { entryA with writing := true }, readers := 0, writers := 1 } :
          Holders).entry.writing = true ∧
        0 < ({ entry := { entryA with writing := true }, readers := 0, writers := 1 } :
          Holders).entry.reading) :=
  ⟨by decide,
   (C34_readers_exclude_writer entryA
      [.requestRead, .requestRead, .readFree, .readFree, .requestWrite]
      { entry := { entryA with writing := true }, readers := 0, writers := 1 }
      (by decide) (by decide) (by decide)).1⟩

/-- C35 (evaluation at the failing input): after format,
`Create("a", 91 sectors)` and `Open("a")`, `WriteAt` stores the bytes 7, 7, 7
at the start of file sector 59 and `ReadAt` reads them back; a `WriteAt` of
one byte at offset `91 * 128`, the end of the file, returns 1 and makes the
file one byte longer; the same `ReadAt` at the start of file sector 59 then
reads 0, 0, 0. -/
theorem C35_expanding_write_changes_other_bytes :
    runC35 zeroJunk blankDisk 91 59 [7, 7, 7] =
      .ok { created := true, written := (3, 1), length := (11648, 11649), before := [7, 7, 7],
            after := [0, 0, 0] } := by
  decide!

/-! ### Parsing of a path -/

theorem strtokAll_eq (l cur : List Nat) :
    strtokAll l cur =
      ((l.splitOnP (fun c => c == SLASH)).modifyHead (fun s => cur ++ s)).filter
        (fun s => !s.isEmpty) := by
  induction l generalizing cur with
  | nil =>
    cases cur <;> simp [strtokAll, List.modifyHead]
  | cons c rest ih =>
    rw [List.splitOnP_cons]
    by_cases hc : (c == SLASH) = true
    · simp only [strtokAll, hc, if_true, List.modifyHead, List.append_nil]
      have h0 := ih []
      simp only [List.nil_append] at h0
      have hid : (List.splitOnP (fun c => c == SLASH) rest).modifyHead (fun s => s) =
          List.splitOnP (fun c => c == SLASH) rest := by
        cases List.splitOnP (fun c => c == SLASH) rest <;> rfl
      rw [hid] at h0
      cases cur with
      | nil => simp [h0]
      | cons x xs => simp [h0]
    · simp only [strtokAll, hc, if_false, Bool.false_eq_true]
      rw [ih, List.modifyHead_modifyHead]
      congr 2
      funext s
      simp

theorem scan_spec (isFile : Bool) :
    ∀ (toks : List (List Nat)) (p : Path), p.pathLength + toks.length < 4294967296 →
      Path.scan isFile toks p =
        { p with
          dirPath := p.dirPath ++ (if isFile then toks.dropLast else toks)
          fileName := if isFile then toks.getLast?.or p.fileName else p.fileName
          pathLength := p.pathLength + (if isFile then toks.dropLast else toks).length } := by
  intro toks
  induction toks with
  | nil => intro p _; cases isFile <;> simp [Path.scan]
  | cons temp rest ih =>
    intro p hp
    simp only [List.length_cons] at hp
    cases isFile with
    | false =>
      simp only [Path.scan, Bool.false_and, Bool.false_eq_true, if_false]
      rw [ih _ (by simp only []; rw [u32_of_lt _ (by omega)]; omega)]
      simp only [Bool.false_eq_true, if_false, u32_of_lt _ (show p.pathLength + 1 < 4294967296 by omega),
        List.append_assoc, List.singleton_append, List.length_cons]
      congr 1
      omega
    | true =>
      cases rest with
      | nil => simp [Path.scan]
      | cons r rs =>
        simp only [List.length_cons] at hp
        simp only [Path.scan, Bool.true_and, List.isEmpty_cons, Bool.false_eq_true, if_false]
        have := ih { p with dirPath := p.dirPath ++ [temp], pathLength := u32 (p.pathLength + 1) }
          (by simp only []; rw [u32_of_lt _ (by omega)]; simp only [List.length_cons]; omega)
        simp only [Path.scan, Bool.true_and, List.isEmpty_cons, Bool.false_eq_true,
          if_false] at this
        rw [this]
        simp only [if_true, u32_of_lt _ (show p.pathLength + 1 < 4294967296 by omega),
          List.append_assoc, List.singleton_append, List.dropLast_cons₂, List.length_cons,
          List.getLast?_cons_cons]
        congr 1
        omega

theorem strtokAll_length (l cur : List Nat) : (strtokAll l cur).length ≤ l.length + 1 := by
  induction l generalizing cur with
  | nil => cases cur <;> simp [strtokAll]
  | cons c rest ih =>
    by_cases hc : (c == SLASH) = true
    · have := ih []
      cases cur with
      | nil => simp only [strtokAll, hc, if_true, List.isEmpty_nil, List.length_cons]; omega
      | cons x xs =>
        simp only [strtokAll, hc, if_true, List.isEmpty_cons, Bool.false_eq_true, if_false,
          List.length_cons]
        omega
    · have := ih (cur ++ [c])
      simp only [strtokAll, hc, Bool.false_eq_true, if_false, List.length_cons]
      omega

theorem Path_new_of_short (path : List Nat) (isFile : Bool) (h : path.length < 20) :
    ∃ p, Path.new path isFile = .ok p ∧
      (p.IsRelative = true ↔ path.head? ≠ some SLASH) ∧
      p.GetPath = (if path.head? = some SLASH then [[SLASH]] else []) ++
        (if isFile then (pathComponents path).dropLast else pathComponents path) ∧
      p.GetFileName = (if isFile then (pathComponents path).getLast? else none) ∧
      p.Length = p.GetPath.length := by
  have htok : strtokAll path [] = pathComponents path := by
    rw [strtokAll_eq]
    unfold pathComponents List.splitOn
    congr 1
    cases List.splitOnP (fun x => x == SLASH) path <;> rfl
  have hlen : (pathComponents path).length ≤ 20 := by
    rw [← htok]
    have := strtokAll_length path []
    omega
  have hbig : ¬ (20 < path.length + 1) := by omega
  by_cases hs : path.head? = some SLASH
  · have hd : (path.headD 0 != SLASH) = false := by
      cases path with
      | nil => cases hs
      | cons c rest =>
        simp only [List.head?_cons, Option.some.injEq] at hs
        simp [hs]
    have hnew : Path.new path isFile = .ok
        { dirPath := [[SLASH]] ++ (if isFile then (pathComponents path).dropLast
            else pathComponents path)
          fileName := if isFile then (pathComponents path).getLast?.or none else none
          isRelative := false
          pathLength := 1 + (if isFile then (pathComponents path).dropLast
            else pathComponents path).length
          rawPath := path } := by
      simp only [Path.new, hd, Bool.not_false, if_true, hbig, if_false, bind, Except.bind, pure,
        Except.pure, htok]
      rw [scan_spec isFile _ _ (by simp only []; omega)]
    refine ⟨_, hnew, ?_, ?_, ?_, ?_⟩
    · simp [Path.IsRelative, hs]
    · simp [Path.GetPath, hs]
    · cases isFile <;> simp [Path.GetFileName]
    · simp only [Path.Length, Path.GetPath, List.length_append, List.length_singleton]
  · have hd : (path.headD 0 != SLASH) = true := by
      cases path with
      | nil => decide
      | cons c rest =>
        simp only [List.head?_cons, Option.some.injEq] at hs
        simp [hs]
    have hnew : Path.new path isFile = .ok
        { dirPath := [] ++ (if isFile then (pathComponents path).dropLast
            else pathComponents path)
          fileName := if isFile then (pathComponents path).getLast?.or none else none
          isRelative := true
          pathLength := 0 + (if isFile then (pathComponents path).dropLast
            else pathComponents path).length
          rawPath := path } := by
      simp only [Path.new, hd, Bool.not_true, Bool.false_eq_true, if_false, hbig, bind,
        Except.bind, pure, Except.pure, htok]
      rw [scan_spec isFile _ _ (by simp only []; omega)]
    refine ⟨_, hnew, ?_, ?_, ?_, ?_⟩
    · simp [Path.IsRelative, hs]
    · simp [Path.GetPath, hs]
    · cases isFile <;> simp [Path.GetFileName]
    · simp only [Path.Length, Path.GetPath, List.length_append, List.length_nil]

/-- C36 (evaluation at the failing input): the path string of the comment of
`path.cc` has 51 bytes, and the constructor copies it with `strcpy` into a
block of 20 bytes: the copy overruns the block and no `Path` is made. -/
theorem C36_long_path_overruns_buffer :
    longPath.length = 51 ∧ Path.new longPath false = .error .notModelled ∧
      Path.new longPath true = .error .notModelled := by
  decide

/-! ### Walk along a path -/

theorem findByPathLoop_eq (junk : Nat → Nat) :
    ∀ (names : List (List Nat)) (sector : Int) (dir : Directory) (k : Kernel),
      findByPathLoop junk names sector dir k = lookupEach junk names dir k sector := by
  intro names
  induction names with
  | nil => intro sector dir k; rfl
  | cons name rest ih =>
    intro sector dir k
    unfold findByPathLoop lookupEach Directory.reached
    by_cases h : dir.Find name = -1
    · simp only [h, beq_self_eq_true, if_true, pure, Except.pure]
    · have hb : (dir.Find name == -1) = false := by
        rw [beq_eq_false_iff_ne]; exact h
      simp only [h, hb, if_false, Bool.false_eq_true, bind, Except.bind, pure, Except.pure]
      cases OpenFile.new k (toU32 (dir.Find name)) tempDirFileName with
      | error e => rfl
      | ok v =>
        simp only []
        cases Directory.FetchFrom junk v.2 dir v.1 with
        | error e => rfl
        | ok w =>
          simp only []
          cases hrl : w.2.2.files.RemoveLink w.2.1.sector with
          | mk a files =>
            cases a with
            | some n => rfl
            | none =>
              simp only [throw, throwThe, MonadExceptOf.throw]
              exact ih _ _ _

/-- C37: `FindByPath` is the reference `resolvePath`: after the directory of
`dirFile` is fetched, an absolute path of length 1 gives the root sector 1
with no lookup; for every other path each component (the root marker left
out) is looked up in the directory reached so far, the first component that
is absent gives -1, and when every component is present the result is the
header sector of the last one.  A fetch that fails stops both in the same
way. -/
theorem C37_findByPath_reference (junk : Nat → Nat) (k : Kernel) (path : Path)
    (dirFile : OpenFile) :
    FindByPath junk k path dirFile = resolvePath junk k path dirFile := by
  unfold FindByPath resolvePath Path.GetPath Path.IsRelative Path.Length
  simp only [bind, Except.bind, pure, Except.pure]
  cases Directory.new junk 10 with
  | error e => rfl
  | ok start =>
    simp only []
    cases Directory.FetchFrom junk k start dirFile with
    | error e => rfl
    | ok v =>
      simp only []
      cases hr : path.isRelative with
      | true =>
        simp only [Bool.not_true, Bool.false_and, Bool.false_eq_true, if_false, false_and,
          if_true, findByPathLoop_eq, Bool.true_eq_false]
      | false =>
        by_cases hl : path.pathLength = 1
        · simp only [hl, Bool.not_false, Bool.true_and, beq_self_eq_true, if_true, true_and]
        · have hb : (path.pathLength == 1) = false := by
            rw [beq_eq_false_iff_ne]; exact hl
          simp only [hl, hb, Bool.not_false, Bool.true_and, Bool.false_eq_true, if_false,
            and_false, if_true, findByPathLoop_eq]

/-- C37 (witness): on the small disk with the directories `"dir1"` and
`"dir2"` in the root and the entry `"sub"` in `"dir1"`, the walk of the
reference along `"dir1/sub"` from the root directory gives sector 6, the
header sector that the entry `"sub"` holds. -/
theorem C37_findByPath_reference_witness :
    (resolvePath zeroJunk nested.2 pathDir1Sub nested.1.directoryFile).map (fun r => r.1) =
      .ok 6 :=
  (C37_findByPath_reference zeroJunk nested.2 pathDir1Sub nested.1.directoryFile) ▸
    (by decide! :
      (FindByPath zeroJunk nested.2 pathDir1Sub nested.1.directoryFile).map (fun r => r.1) =
        .ok 6)

/-- C38 (evaluation at the failing input): after format, `Create("a", 0)`
and `Open("a")`, a `WriteAt` of one byte at offset 0 returns 1 and leaves
`writing` clear; a `WriteAt` of one byte at the start of file sector 1020,
for which the disk has no room, returns 0 and leaves `writing` set, and the
`ReadAt` that follows waits for good. -/
theorem C38_failed_write_keeps_writer_flag :
    runC38 zeroJunk blankDisk 1020 =
      .ok { written := (1, 0), writing := (some false, some true), blocked := true } := by
  decide!

/-! ### Names that agree on their first bytes -/

theorem fit_eq_iff_take (n : Nat) (a b : List Nat) (ha : ∀ c ∈ a, c ≠ 0) (hb : ∀ c ∈ b, c ≠ 0) :
    fit n a = fit n b ↔ a.take n = b.take n := by
  induction n generalizing a b with
  | zero => simp [fit]
  | succ n ih =>
    rcases a with _ | ⟨x, xs⟩ <;> rcases b with _ | ⟨y, ys⟩
    · simp [fit]
    · have hy : y ≠ 0 := hb y (List.mem_cons_self _ _)
      simp [fit, Ne.symm hy]
    · have hx : x ≠ 0 := ha x (List.mem_cons_self _ _)
      simp [fit, hx]
    · have := ih xs ys (fun c hc => ha c (List.mem_cons_of_mem _ hc))
        (fun c hc => hb c (List.mem_cons_of_mem _ hc))
      simp [fit, this]

theorem nameKey_eq_iff_take (a b : List Nat) (ha : ∀ c ∈ a, c ≠ 0) (hb : ∀ c ∈ b, c ≠ 0) :
    nameKey a = nameKey b ↔ a.take FILE_NAME_MAX_LEN = b.take FILE_NAME_MAX_LEN := by
  unfold nameKey
  rw [List.takeWhile_eq_self_iff.mpr (by simpa using ha),
    List.takeWhile_eq_self_iff.mpr (by simpa using hb)]
  exact fit_eq_iff_take _ a b ha hb

theorem holds_congr (n1 n2 : List Nat) (h : nameKey n1 = nameKey n2) :
    DirectoryEntry.holds n2 = DirectoryEntry.holds n1 := by
  funext e
  rw [Bool.eq_iff_iff, holds_iff, holds_iff, h]

theorem Add_present (junk : Nat → Nat) (raw : Directory) (name : List Nat) (s : Int)
    (hlen : raw.table.length = raw.tableSize) (e : DirectoryEntry)
    (hfind : raw.table.find? (DirectoryEntry.holds name) = some e) :
    Directory.Add junk raw name s = .ok (false, raw) := by
  have hidx : (raw.FindIndex name != -1) = true := by
    rw [bne_iff_ne]
    intro h
    rw [(FindIndex_eq_neg_one_iff raw name hlen).1 h] at hfind
    cases hfind
  simp only [Directory.Add, Directory.AddFuel, hidx, if_true]

/-- C39: let `Add(n1, s)` return true on a directory whose table has
`tableSize` entries with names of `FILE_NAME_MAX_LEN + 1` bytes.  For a name
`n2` with the same first `FILE_NAME_MAX_LEN` bytes as `n1`, `Find(n2)` then
returns `s` and `Add(n2, s')` returns false and leaves the directory as it
is; for a name `n2` that differs from `n1` within these bytes, `strncmp` over
`FILE_NAME_MAX_LEN` bytes tells them apart and `Find(n2)` returns what it
returned before the call.  Names are strings without a zero byte. -/
theorem C39_names_by_first_bytes (junk : Nat → Nat) (raw raw' : Directory) (n1 n2 : List Nat)
    (s s' : Int) (hwf : raw.WellFormed) (hsize : raw.tableSize + 1 < 4294967296)
    (h1 : ∀ c ∈ n1, c ≠ 0) (h2 : ∀ c ∈ n2, c ≠ 0)
    (hadd : Directory.Add junk raw n1 s = .ok (true, raw')) :
    (n1.take FILE_NAME_MAX_LEN = n2.take FILE_NAME_MAX_LEN →
      raw'.Find n2 = s ∧ Directory.Add junk raw' n2 s' = .ok (false, raw')) ∧
    (n1.take FILE_NAME_MAX_LEN ≠ n2.take FILE_NAME_MAX_LEN →
      strncmpEq FILE_NAME_MAX_LEN n1 n2 = false ∧ raw'.Find n2 = raw.Find n2) := by
  have habs : raw.table.find? (DirectoryEntry.holds n1) = none := by
    cases hf : raw.table.find? (DirectoryEntry.holds n1) with
    | none => rfl
    | some e =>
      rw [Add_present junk raw n1 s hwf.1 e hf] at hadd
      cases hadd
  obtain ⟨r, e, hadd', hwf', hfind, hes, hframe, _, _⟩ := Add_step junk raw n1 s hwf habs hsize
  rw [hadd] at hadd'
  cases hadd'
  constructor
  · intro htake
    have hkey : nameKey n1 = nameKey n2 := (nameKey_eq_iff_take n1 n2 h1 h2).2 htake
    have hfind2 : raw'.table.find? (DirectoryEntry.holds n2) = some e := by
      rw [holds_congr n1 n2 hkey]; exact hfind
    refine ⟨?_, Add_present junk raw' n2 s' hwf'.1 e hfind2⟩
    rw [Find_eq raw' n2 hwf'.1, hfind2]
    exact hes
  · intro htake
    have hkey : nameKey n1 ≠ nameKey n2 := fun h => htake ((nameKey_eq_iff_take n1 n2 h1 h2).1 h)
    refine ⟨(strncmpEq_false_iff n1 n2).2 hkey, ?_⟩
    rw [Find_eq raw' n2 hwf'.1, Find_eq raw n2 hwf.1, hframe n2 (fun h => hkey h.symm)]

/-- C39 (witness): `"abcdefghiX"` and `"abcdefghiY"` agree on their first
nine bytes; `Add` of the first to a directory of one free entry. -/
theorem C39_names_by_first_bytes_witness :
    [97, 98, 99, 100, 101, 102, 103, 104, 105, 88].take FILE_NAME_MAX_LEN =
      [97, 98, 99, 100, 101, 102, 103, 104, 105, 89].take FILE_NAME_MAX_LEN ∧
    (valueOr (Directory.Add zeroJunk oneSlot [97, 98, 99, 100, 101, 102, 103, 104, 105, 88] 7)
      (false, oneSlot)).2.Find [97, 98, 99, 100, 101, 102, 103, 104, 105, 89] = 7 :=
  ⟨by decide,
   ((C39_names_by_first_bytes zeroJunk oneSlot _ [97, 98, 99, 100, 101, 102, 103, 104, 105, 88]
      [97, 98, 99, 100, 101, 102, 103, 104, 105, 89] 7 8 (by decide) (by decide) (by decide)
      (by decide) (by decide)).1 (by decide)).1⟩

/-- C40 (evaluation at the failing input): after format and
`Create("a", 10 sectors)`, with 5 sectors free in the bitmap on disk,
`FileExpand` of the header of `"a"` by one sector of bytes returns false:
the growth needs one data sector and no control block. -/
theorem C40_expand_needs_room_for_whole_file :
    runC40 zeroJunk blankDisk 10 15 5 128 =
      .ok { created := true, sectors := 10, free := 5, expanded := false } := by
  decide!

end Nachos
